import Mathlib

/-!
# dukluv: path joining and the module system of `src/main.c`

A shallow embedding of `duv_path_join`, `duv_mod_resolve` and `duv_require`
and the properties the specification states about them.

Modelling conventions.

* A script string is the list of its bytes; a byte is a `Char`.  The code only
  ever compares bytes with `0x2f` (slash), `0x2e` (dot) and, through `strlen`,
  with `0x00`.  The engine hands `duv_path_join` a pointer to the bytes of the
  string followed by a terminating NUL, so reading `part[k]` is modelled by
  `byteAt part k`, which is NUL at and after the end.
* `int` counters are natural numbers: string lengths and segment counts stay
  far below `2^31`.
* The C linked list `duv_list_t*` is a Lean list whose head is the C list head;
  `duv_list_node (part, start, end, next)` conses one node onto `next`.
* The engine's value stack is a list whose last element is the stack top.  It
  is unbounded, and `malloc` always succeeds: the program checks neither, and
  the limits of the engine and of the allocator are outside this development.
-/

namespace Dukluv

/-! ## `duv_path_join`: data -/

/-- The NUL byte that ends a C string. -/
def NUL : Char := Char.ofNat 0

/-- Byte `0x2f`. -/
def SLASH : Char := Char.ofNat 0x2f

/-- Byte `0x2e`. -/
def DOT : Char := Char.ofNat 0x2e

/-- The read `part[k]` of a NUL-terminated buffer. -/
def byteAt (part : List Char) (k : Nat) : Char := part.getD k NUL

/-- The C library's `strlen`: the number of bytes before the first NUL. -/
def strlen : List Char → Nat
  | [] => 0
  | c :: cs => if c = NUL then 0 else strlen cs + 1

/-- One node of `struct duv_list`: a view `(part, offset, length)` into an
input string (the `next` pointer is the tail of the Lean list). -/
structure duv_list where
  part : List Char
  offset : Nat
  length : Nat
deriving DecidableEq

/-- The call `duv_list_node(part, start, end, next)`: a new node in front of
`next`. -/
def duv_list_node (part : List Char) (start stop : Nat) (next : List duv_list) :
    List duv_list :=
  { part := part, offset := start, length := stop - start } :: next

/-! ## `duv_path_join`: the three loops -/

/-- The loop `while (start < length && part[start] == 0x2f) { ++start; }`, run for at
most `fuel` iterations; the callers pass `length - start`, which is enough. -/
def skipSlashes (part : List Char) (length : Nat) : Nat → Nat → Nat
  | 0, start => start
  | fuel + 1, start =>
    if start < length ∧ byteAt part start = SLASH then
      skipSlashes part length fuel (start + 1)
    else start

/-- The loop `for (j = start; j < length; ++j) { ... }` of lines 70-78, from the
current `j`, run for at most `fuel` iterations (the caller passes
`length - j`).  Returns the final `(j, start, list)`. -/
def splitLoop (part : List Char) (length : Nat) :
    Nat → Nat → Nat → List duv_list → Nat × Nat × List duv_list
  | 0, j, start, list => (j, start, list)
  | fuel + 1, j, start, list =>
    if j < length then
      if byteAt part j = SLASH then
        if start < j then
          splitLoop part length fuel (j + 1)
            (skipSlashes part length (length - j) j)
            (duv_list_node part start j list)
        else splitLoop part length fuel (j + 1) start list
      else splitLoop part length fuel (j + 1) start list
    else (j, start, list)

/-- Lines 79-81, `if (start < j) { list = duv_list_node(part, start, j, list); }`,
on the `(j, start, list)` the loop ends with. -/
def splitLast (part : List Char) : Nat × Nat × List duv_list → List duv_list
  | (j, start, list) => if start < j then duv_list_node part start j list else list

/-- The body of the argument loop for one argument (lines 64-81, without the
test for the absolute flag): split `part` into segments, pushing them in front
of `list`. -/
def splitPart (part : List Char) (list : List duv_list) : List duv_list :=
  let length := strlen part
  let start := skipSlashes part length length 0
  splitLast part (splitLoop part length (length - start) start start list)

/-- The argument loop `for (i = 0; i < duk_get_top(ctx); ++i)` of lines 61-82
over the remaining arguments, threading `(absolute, list)`. -/
def argLoop : List (List Char) → Nat → Bool × List duv_list → Bool × List duv_list
  | [], _, st => st
  | part :: rest, i, (absolute, list) =>
    let absolute := if i = 0 ∧ byteAt part 0 = SLASH then true else absolute
    argLoop rest (i + 1) (absolute, splitPart part list)

/-- The loop `while (list) { ... }` of lines 89-120 with its final
`list = prev`: walks the list from its head, dropping `.` and `..` nodes and
the nodes a `..` cancels, and reverses what it keeps into `prev`. -/
def normLoop : List duv_list → Nat → List duv_list → List duv_list
  | [], _, prev => prev
  | node :: next, skip, prev =>
    if node.length = 1 ∧ byteAt node.part node.offset = DOT then
      normLoop next skip prev
    else if node.length = 2 ∧ byteAt node.part node.offset = DOT ∧
        byteAt node.part (node.offset + 1) = DOT then
      normLoop next (skip + 1) prev
    else if skip > 0 then
      normLoop next (skip - 1) prev
    else
      normLoop next skip (node :: prev)

/-- The string `duk_push_lstring(ctx, node->part + node->offset, node->length)` pushes: the bytes
a node views. -/
def duv_list.bytes (node : duv_list) : List Char :=
  (node.part.drop node.offset).take node.length

/-- A node views a non-empty range that lies inside its string. -/
def duv_list.wf (node : duv_list) : Prop :=
  0 < node.length ∧ node.offset + node.length ≤ node.part.length

/-- The loop `while (list) { ... }` of lines 132-142: pushes every node's bytes
and a `/` after every node but the last, counting the pushes. -/
def emitLoop : List duv_list → List (List Char) × Nat → List (List Char) × Nat
  | [], st => st
  | node :: next, (stack, count) =>
    let stack := stack ++ [node.bytes]
    let count := count + 1
    if next ≠ [] then emitLoop next (stack ++ [[SLASH]], count + 1)
    else emitLoop next (stack, count)

/-- The call `duk_concat(ctx, count)`: the concatenation of the top `count` values of
the stack (the empty string when `count` is 0). -/
def duk_concat (stack : List (List Char)) (count : Nat) : List Char :=
  (stack.drop (stack.length - count)).flatten

/-- The function `duv_path_join` (lines 53-146) on string arguments `args`, which
are the value stack on entry. -/
def duv_path_join (args : List (List Char)) : List Char :=
  match argLoop args 0 (false, []) with
  | (absolute, list) =>
    let list := normLoop list 0 []
    let st : List (List Char) × Nat :=
      if absolute then (args ++ [[SLASH]], 1) else (args, 0)
    match emitLoop list st with
    | (stack, count) => duk_concat stack count

/-! ## The reference algorithm of the specification (section 4.1) -/

/-- The pieces of a string between consecutive slashes, empty pieces
included. -/
def specSplit : List Char → List (List Char)
  | [] => [[]]
  | c :: cs =>
    if c = SLASH then [] :: specSplit cs
    else match specSplit cs with
      | [] => [[c]]
      | r :: rs => (c :: r) :: rs

/-- Segmentation: every maximal non-empty run of non-slash bytes, in order. -/
def specSegments (s : List Char) : List (List Char) :=
  (specSplit s).filter (fun r => r ≠ [])

/-- One step of the right-to-left normalisation on `(skip, kept)`. -/
def specStep (seg : List Char) (st : Nat × List (List Char)) : Nat × List (List Char) :=
  if seg = [DOT] then st
  else if seg = [DOT, DOT] then (st.1 + 1, st.2)
  else if st.1 > 0 then (st.1 - 1, st.2)
  else (st.1, seg :: st.2)

/-- Normalisation: the segments kept, in left-to-right order, after a
right-to-left pass with a skip counter starting at 0. -/
def specKept (segs : List (List Char)) : List (List Char) :=
  (segs.foldr specStep (0, [])).2

/-- Absolute flag: the list is non-empty and its first string begins with a
slash. -/
def specAbsolute : List (List Char) → Bool
  | [] => false
  | x :: _ => x.head? = some SLASH

/-- Emission: a slash when absolute, then the kept segments separated by single
slashes. -/
def specEmit (absolute : Bool) (kept : List (List Char)) : List Char :=
  (if absolute then [SLASH] else []) ++ [SLASH].intercalate kept

/-- The reference algorithm: absolute flag, segmentation, normalisation,
emission. -/
def specPathJoin (xs : List (List Char)) : List Char :=
  specEmit (specAbsolute xs) (specKept (xs.flatMap specSegments))

/-- A string cut at its first NUL byte: what `strlen` lets the code see. -/
def cstr (p : List Char) : List Char := p.take (strlen p)

/-- The bytes of `p` at positions `a`, ..., `b - 1`. -/
def slice (p : List Char) (a b : Nat) : List Char := (p.drop a).take (b - a)

/-- The absolute flag after the argument loop. -/
def duv_absolute (args : List (List Char)) : Bool :=
  (argLoop args 0 (false, [])).1

/-- The segments after the argument loop, as byte strings in left-to-right
order (the C list holds them last first). -/
def duv_segments (args : List (List Char)) : List (List Char) :=
  ((argLoop args 0 (false, [])).2.map duv_list.bytes).reverse

/-- An ordinary segment: non-empty, without a slash, and neither `.` nor
`..`. -/
abbrev ordinary (seg : List Char) : Prop :=
  seg ≠ [] ∧ SLASH ∉ seg ∧ seg ≠ [DOT] ∧ seg ≠ [DOT, DOT]

/-- A segment that is `.` or `..`. -/
abbrev dotSegment (seg : List Char) : Prop := seg = [DOT] ∨ seg = [DOT, DOT]

/-! ## The script engine: values, heap, property access

The engine itself is outside the program; what `src/main.c` uses of it is
modelled as follows.

* A value is a primitive or a reference to a heap object (functions are
  objects).  An object is its table of own data properties, in insertion order,
  and its prototype.  Reading a property follows the prototype chain; the one
  accessor of the default engine, the `__proto__` of `Object.prototype`, is
  modelled for reading.  Writing sets an own data property: property
  attributes, user-defined accessors, the `__proto__` setter and proxies are
  not modelled.
* An engine operation is a function from the state to a result that is either a
  value with the new state or a thrown error with the new state.
* Calling a script-visible function (`duk_call`) is a parameter `call` of the
  C functions that use it: the hooks `modResolve` and `modLoad` can be replaced
  by script code, so nothing is assumed about what they do.
-/

/-- A script value. -/
inductive Value where
  | undefined
  | null
  | boolean (b : Bool)
  | number (n : Int)
  | string (s : List Char)
  | object (ref : Nat)
deriving DecidableEq

/-- What an engine operation can throw: a value thrown by script code, or an
error object the engine or the host creates. -/
inductive Thrown where
  | value (v : Value)
  | typeError
  | rangeError
  | error (msg : List Char)
deriving DecidableEq

/-- A heap object: its own data properties and its prototype, `none` for the
null prototype. -/
structure Obj where
  props : List (List Char × Value)
  proto : Option Nat := none
deriving DecidableEq

/-- The C functions of `main.c` that scripts can reach as function values. -/
inductive CFunc where
  | duv_loadfile
  | duv_path_join
  | duv_require
  | duv_mod_resolve
  | duv_mod_load
  | duv_mod_compile
deriving DecidableEq

/-- What a function object runs: a C function of `main.c`, the function the
engine compiled from a source text, a function bound to a `this` value, or
another script function, known by its number in the program. -/
inductive Callee where
  | native (f : CFunc)
  | compiled (source : List Char)
  | bound (target : Value) (this : Value)
  | script (n : Nat)
deriving DecidableEq

/-- An observation of a run, kept for stating properties of runs: `load key`
when `duv_require` is about to call the Loader for the record it has just
stored under `key`, and `write ref key` when script code writes the property
`key` of the object `ref`. -/
inductive Event where
  | load (key : List Char)
  | write (ref : Nat) (key : List Char)
deriving DecidableEq

/-- The engine state: the heap, addressed by position, and the reference of the
global object; which heap objects are functions; the observations made so far,
which no operation reads; the built-in prototypes that new objects, new
functions and the primitive values get; and the object that carries the
`__proto__` accessor, if one does. -/
structure State where
  heap : List Obj
  global : Nat
  fns : List (Nat × Callee) := []
  trace : List Event := []
  objectProto : Option Nat := none
  functionProto : Option Nat := none
  stringProto : Option Nat := none
  numberProto : Option Nat := none
  booleanProto : Option Nat := none
  protoAccessor : Option Nat := none
deriving DecidableEq

/-- The result of an engine operation. -/
inductive Res (α : Type) where
  | ok (a : α) (s : State)
  | error (e : Thrown) (s : State)
deriving DecidableEq

/-- An engine operation. -/
def Eng (α : Type) : Type := State → Res α

/-- Sequencing: a thrown error unwinds through the rest. -/
def Eng.bind {α β : Type} (m : Eng α) (f : α → Eng β) : Eng β := fun s =>
  match m s with
  | .ok a s1 => f a s1
  | .error e s1 => .error e s1

instance : Monad Eng where
  pure a := fun s => .ok a s
  bind := Eng.bind

/-- The engine's call of a function value: `call f this args`. -/
abbrev CallFn : Type := Value → Value → List Value → Eng Value

def duk_is_undefined : Value → Bool
  | .undefined => true
  | _ => false

def duk_is_string : Value → Bool
  | .string _ => true
  | _ => false

def duk_is_object : Value → Bool
  | .object _ => true
  | _ => false

/-- The property names the program uses. -/
def kId : List Char := "id".toList
def kExports : List Char := "exports".toList
def kMain : List Char := "main".toList
def kParent : List Char := "parent".toList
def kDuktape : List Char := "Duktape".toList
def kModResolve : List Char := "modResolve".toList
def kModLoad : List Char := "modLoad".toList
def kModLoaded : List Char := "modLoaded".toList
def kModCompile : List Char := "modCompile".toList
def kStack : List Char := "stack".toList
def kProto : List Char := "__proto__".toList
def kLength : List Char := "length".toList

/-- The own property `key` of a property table, `undefined` when absent. -/
def getOwn : List (List Char × Value) → List Char → Value
  | [], _ => .undefined
  | (k, v) :: rest, key => if k = key then v else getOwn rest key

/-- Whether a property table has the own property `key`. -/
def hasOwn : List (List Char × Value) → List Char → Bool
  | [], _ => false
  | (k, _) :: rest, key => if k = key then true else hasOwn rest key

/-- The property table with `key` set to `v`. -/
def setOwn : List (List Char × Value) → List Char → Value → List (List Char × Value)
  | [], key, v => [(key, v)]
  | (k, w) :: rest, key, v => if k = key then (k, v) :: rest else (k, w) :: setOwn rest key v

/-- The object a reference denotes (an empty object for a reference outside
the heap, which no engine state contains). -/
def State.obj (s : State) (ref : Nat) : Obj := s.heap.getD ref { props := [] }

/-- The state with the property `key` of the object at `ref` set to `v`. -/
def State.put (s : State) (ref : Nat) (key : List Char) (v : Value) : State :=
  { s with
    heap := s.heap.set ref ⟨setOwn (s.obj ref).props key v, (s.obj ref).proto⟩ }

/-- The state with a fresh empty object, with the prototype `proto`, at the end
of the heap. -/
def State.pushWith (s : State) (proto : Option Nat) : State :=
  { s with heap := s.heap ++ [{ props := [], proto := proto }] }

/-- The state with a fresh empty object at the end of the heap; its prototype
is the built-in `Object.prototype`. -/
def State.push (s : State) : State := s.pushWith s.objectProto

/-- What a walk along a prototype chain finds for a key: a data property, the
`__proto__` accessor, or nothing. -/
inductive Slot where
  | data (v : Value)
  | accessor
  | absent
deriving DecidableEq

/-- The walk along the prototype chain from the object `ref`, for at most
`fuel` objects: the first object that has the own property `key`, or that
carries the `__proto__` accessor when `key` is `__proto__`, decides. -/
def State.find (s : State) : Nat → Nat → List Char → Slot
  | 0, _, _ => .absent
  | fuel + 1, ref, key =>
    if hasOwn (s.obj ref).props key then .data (getOwn (s.obj ref).props key)
    else if key = kProto ∧ s.protoAccessor = some ref then .accessor
    else
      match (s.obj ref).proto with
      | some p => s.find fuel p key
      | none => .absent

/-- A prototype as a value: `null` for none. -/
def protoValue : Option Nat → Value
  | some p => .object p
  | none => .null

/-- The property `key` read along the chain that starts at `start`, for a base
value whose prototype is `baseProto`: a chain without a loop visits each object
of the heap at most once; the `__proto__` accessor gives the prototype of the
base. -/
def State.lookup (s : State) (start baseProto : Option Nat) (key : List Char) : Value :=
  match start with
  | none => .undefined
  | some ref =>
    match s.find s.heap.length ref key with
    | .data v => v
    | .accessor => protoValue baseProto
    | .absent => .undefined

/-- The property `key` of the object `ref`, as the engine reads it: the own
property, or else what the prototype chain gives. -/
def State.get (s : State) (ref : Nat) (key : List Char) : Value :=
  s.lookup (some ref) (s.obj ref).proto key

/-- The own properties of a string value, for a string of one-byte characters:
`length`, and the character at each index. -/
def stringOwn (str key : List Char) : Option Value :=
  if key = kLength then some (.number str.length)
  else
    ((List.range str.length).find? (fun i => (toString i).toList = key)).map
      (fun i => .string [str.getD i NUL])

/-- The call `duk_get_prop_string(ctx, obj, key)`: throws a TypeError on `undefined` and
`null`, reads the property of an object along its prototype chain, and reads a
property of another primitive from its own properties (a string) or along the
chain of the built-in prototype of its type. -/
def duk_get_prop_string (o : Value) (key : List Char) : Eng Value := fun s =>
  match o with
  | .undefined => .error .typeError s
  | .null => .error .typeError s
  | .object ref => .ok (s.get ref key) s
  | .string str =>
    .ok ((stringOwn str key).getD (s.lookup s.stringProto s.stringProto key)) s
  | .number _ => .ok (s.lookup s.numberProto s.numberProto key) s
  | .boolean _ => .ok (s.lookup s.booleanProto s.booleanProto key) s

/-- The call `duk_put_prop_string(ctx, obj, key)` with the value `v` on the stack top:
sets the own data property of an object; a C function is strict code, so any
other base throws a TypeError.  The setter of `__proto__` is not modelled: the
writes of `main.c` have fixed keys, except the write of line 208, which follows
a read of the same key that gave no object, and so reaches the setter only when
the cache itself carries the accessor. -/
def duk_put_prop_string (o : Value) (key : List Char) (v : Value) : Eng Unit := fun s =>
  match o with
  | .object ref => .ok () (s.put ref key v)
  | _ => .error .typeError s

/-- The property key a value is coerced to by `duk_get_prop` and
`duk_put_prop`; an object is given the default `[object Object]`. -/
def propKey : Value → List Char
  | .undefined => "undefined".toList
  | .null => "null".toList
  | .boolean true => "true".toList
  | .boolean false => "false".toList
  | .number n => (toString n).toList
  | .string s => s
  | .object _ => "[object Object]".toList

/-- The call `duk_get_prop(ctx, obj)` with the key on the stack top. -/
def duk_get_prop (o key : Value) : Eng Value := duk_get_prop_string o (propKey key)

/-- The call `duk_put_prop(ctx, obj)` with key and value on the stack top. -/
def duk_put_prop (o key v : Value) : Eng Unit := duk_put_prop_string o (propKey key) v

/-- The call `duk_push_object(ctx)`: a fresh empty object at the end of the heap. -/
def duk_push_object : Eng Value := fun s => .ok (.object s.heap.length) s.push

/-- The call `duk_get_global_string(ctx, key)`: a property of the global
object. -/
def duk_get_global_string (key : List Char) : Eng Value := fun s =>
  duk_get_prop_string (.object s.global) key s

/-- Throwing with the state as it is. -/
def duk_throw {α : Type} (e : Thrown) : Eng α := fun s => .error e s

/-- Modelled from the spec: `dschema_check` of `misc.h`, which is not among the
sources: each argument must pass its test, else a type error is signalled
(sections 4.6 and 7). -/
def dschema_check (checks : List (Value × (Value → Bool))) : Eng Unit :=
  if checks.all (fun c => c.2 c.1) then pure () else duk_throw .typeError

/-- The argument at stack index `i` of a C function: `undefined` when the
caller passed fewer. -/
def argAt (args : List Value) (i : Nat) : Value := args.getD i .undefined

/-! ## `duv_path_join` and `duv_mod_resolve` as C functions -/

/-- The calls `duk_require_string(ctx, i)` for every argument: their strings, if all are
strings. -/
def requireStrings : List Value → Option (List (List Char))
  | [] => some []
  | .string s :: rest => (requireStrings rest).map (fun l => s :: l)
  | _ :: _ => none

/-- The function `duv_path_join` on arbitrary arguments: `duk_require_string` throws a
TypeError at the first argument that is not a string. -/
def duv_path_join_ctx (args : List Value) : Eng Value :=
  match requireStrings args with
  | some parts => pure (.string (duv_path_join parts))
  | none => duk_throw .typeError

/-- The function `duv_mod_resolve` (lines 235-249): `pathJoin(parent.id, "..", id)`.  The
function it calls is `duv_path_join` itself, pushed just before, so the call is
a direct one. -/
def duv_mod_resolve (args : List Value) : Eng Value := do
  let parent := argAt args 0
  let id := argAt args 1
  dschema_check [(parent, duk_is_object), (id, duk_is_string)]
  let pid ← duk_get_prop_string parent kId
  duv_path_join_ctx [pid, .string [DOT, DOT], id]

/-! ## `duv_require` -/

/-- Lines 149-170 of `duv_require`: check the argument, fetch `Duktape` and its
`modResolve`, look at `this.exports`, and call the Resolver with `(this, id)`.
Returns the `Duktape` object, the resolved id and `is_main`. -/
def requireResolve (call : CallFn) (this : Value) (args : List Value) :
    Eng (Value × Value × Bool) := do
  let id := argAt args 0
  dschema_check [(id, duk_is_string)]
  let duktape ← duk_get_global_string kDuktape
  let resolve ← duk_get_prop_string duktape kModResolve
  let exports ← duk_get_prop_string this kExports
  let is_main := duk_is_undefined exports
  let id ← call resolve .undefined [this, id]
  pure (duktape, id, is_main)

/-- Lines 172-177: fetch `Duktape.modLoaded` and its entry for the id. -/
def requireLookup (duktape id : Value) : Eng (Value × Value) := do
  let loaded ← duk_get_prop_string duktape kModLoaded
  let entry ← duk_get_prop loaded id
  pure (loaded, entry)

/-- Lines 190-211: create the record `module`, with `main` or `parent`, `id`
and a fresh `exports`, and store it in `modLoaded` under the id. -/
def requireCreate (this : Value) (is_main : Bool) (id loaded : Value) : Eng Value := do
  let module ← duk_push_object
  if is_main then duk_put_prop_string module kMain (.boolean true)
  else duk_put_prop_string module kParent this
  duk_put_prop_string module kId id
  let exports ← duk_push_object
  duk_put_prop_string module kExports exports
  duk_put_prop loaded id module
  pure module

/-- Lines 218-228: store a defined return value of the Loader into
`module.exports`, then return `module.exports`. -/
def requireReturn (module ret : Value) : Eng Value := do
  if duk_is_undefined ret then pure ()
  else duk_put_prop_string module kExports ret
  duk_get_prop_string module kExports

/-- Lines 213-228: fetch `Duktape.modLoad`, call it with the record, and
finish. -/
def requireLoad (call : CallFn) (duktape module : Value) : Eng Value := do
  let load ← duk_get_prop_string duktape kModLoad
  let ret ← call load .undefined [module]
  requireReturn module ret

/-- The function `duv_require` (lines 148-229), called with `this` and the arguments
`args`. -/
def duv_require (call : CallFn) (this : Value) (args : List Value) : Eng Value := do
  let (duktape, id, is_main) ← requireResolve call this args
  let (loaded, entry) ← requireLookup duktape id
  if duk_is_object entry then
    duk_get_prop_string entry kExports
  else do
    let module ← requireCreate this is_main id loaded
    requireLoad call duktape module

/-! ## Function values, script code and the engine's call

Script code is a tree of the engine operations it performs, each with the
continuation that receives the operation's result; what a source text means is
the engine's business and enters as the parameter `Program.compile`.  The call
stack is bounded: `callValue` takes the number of nested calls still allowed and
throws a RangeError when it is used up, as the engine does at its call stack
limit.
-/

/-- The function a heap object is, if it is one. -/
def State.fnOf (s : State) (ref : Nat) : Option Callee := s.fns.lookup ref

/-- The calls `duk_push_c_function(ctx, f, n)` and `duk_compile`, and a script's
`bind`: a fresh function object at the end of the heap; its prototype is the
built-in `Function.prototype`.  The own properties the engine gives a function
object, and the `prototype` object of a compiled function, are not modelled. -/
def duk_push_function (c : Callee) : Eng Value := fun s =>
  .ok (.object s.heap.length)
    { s.pushWith s.functionProto with fns := (s.heap.length, c) :: s.fns }

/-- The observation `e`, appended to the trace. -/
def note (e : Event) : Eng Unit := fun s => .ok () { s with trace := s.trace ++ [e] }

/-- The code of a script function: the engine operations it performs. -/
inductive Script where
  | ret (v : Value)
  | raise (v : Value)
  | getProp (o key : Value) (next : Value → Script)
  | putProp (o key v : Value) (next : Script)
  | newObject (next : Value → Script)
  | bind (f this : Value) (next : Value → Script)
  | global (next : Value → Script)
  | call (f this : Value) (args : List Value) (next : Value → Script)
  | tryCall (f this : Value) (args : List Value) (next : Value → Script)
      (handler : Thrown → Script)

/-- A script function: its code, given `this` and the arguments. -/
abbrev ScriptFn : Type := Value → List Value → Script

/-- What the libuv calls of `duv_loadfile` do for a path.  A result is a libuv
result code, negative for an error.  Either `uv_fs_open` fails with `result`;
or it gives the descriptor `fd` and then `uv_fs_fstat` or `uv_fs_read` fails
with `result`, and `closed` is the result of the `uv_fs_close` of line 31; or
all three succeed and `bytes` is what the buffer of `st_size` bytes holds after
the read. -/
inductive FsOutcome where
  | openFails (result : Int)
  | laterFails (fd : Nat) (result closed : Int)
  | content (bytes : List Char)
deriving DecidableEq

/-- The file system as `duv_loadfile` meets it, with the texts libuv has for a
result code. -/
structure FileSystem where
  outcome : List Char → FsOutcome
  uv_err_name : Int → List Char
  uv_strerror : Int → List Char

/-- What surrounds `main.c` in a run: the meaning the engine gives to the source
text of a function (`none` when it does not compile), the script functions that
exist besides the compiled ones, and the file system. -/
structure Program where
  compile : List Char → Option ScriptFn
  scripts : Nat → ScriptFn
  fs : FileSystem

/-- A property write by script code, one that sets an own data property: noted
in the trace; `undefined` and `null` throw a TypeError and a write to another
primitive is ignored. -/
def scriptPut (o key v : Value) : Eng Unit := fun s =>
  match o with
  | .object ref =>
    .ok () { s.put ref (propKey key) v with trace := s.trace ++ [.write ref (propKey key)] }
  | .undefined => .error .typeError s
  | .null => .error .typeError s
  | _ => .ok () s

/-- Running script code, with `call` for the calls it makes. -/
def runScript (call : CallFn) : Script → Eng Value
  | .ret v => pure v
  | .raise v => duk_throw (.value v)
  | .getProp o key next => fun s =>
    match duk_get_prop o key s with
    | .ok v s1 => runScript call (next v) s1
    | .error e s1 => .error e s1
  | .putProp o key v next => fun s =>
    match scriptPut o key v s with
    | .ok _ s1 => runScript call next s1
    | .error e s1 => .error e s1
  | .newObject next => fun s =>
    match duk_push_object s with
    | .ok v s1 => runScript call (next v) s1
    | .error e s1 => .error e s1
  | .bind f this next => fun s =>
    match duk_push_function (.bound f this) s with
    | .ok v s1 => runScript call (next v) s1
    | .error e s1 => .error e s1
  | .global next => fun s => runScript call (next (.object s.global)) s
  | .call f this args next => fun s =>
    match call f this args s with
    | .ok v s1 => runScript call (next v) s1
    | .error e s1 => .error e s1
  | .tryCall f this args next handler => fun s =>
    match call f this args s with
    | .ok v s1 => runScript call (next v) s1
    | .error e s1 => runScript call (handler e) s1

/-! ## `duv_loadfile`, `duv_mod_load`, `duv_mod_compile` -/

/-- The error of line 33: `name: message: path` for the result code that
`req.result` holds there. -/
def loadError (fs : FileSystem) (result : Int) (path : List Char) : Thrown :=
  .error (fs.uv_err_name result ++ ": ".toList ++ fs.uv_strerror result ++ ": ".toList
    ++ cstr path)

/-- The function `duv_loadfile` (lines 8-34): the content of the file at the
path, or the error of line 33.  The path is used as a C string.  When
`uv_fs_open` fails, `fd` is still 0, nothing is closed, and `req.result` is the
result of the open.  When `uv_fs_fstat` or `uv_fs_read` fails, line 31 closes
the descriptor, unless it is 0, with the same `req`, whose result is then that
of the close. -/
def duv_loadfile (fs : FileSystem) (args : List Value) : Eng Value :=
  match argAt args 0 with
  | .string path =>
    match fs.outcome (cstr path) with
    | .openFails result => duk_throw (loadError fs result path)
    | .laterFails fd result closed =>
      duk_throw (loadError fs (if fd = 0 then result else closed) path)
    | .content bytes => pure (.string bytes)
  | _ => duk_throw .typeError

/-- The function `duv_mod_load` (lines 253-268):
`Duktape.modCompile(module, loadFile(module.id))`.  The function that reads the
file is `duv_loadfile` itself, pushed just before, so that call is a direct
one. -/
def duv_mod_load (fs : FileSystem) (call : CallFn) (args : List Value) : Eng Value := do
  let module := argAt args 0
  dschema_check [(module, duk_is_object)]
  let duktape ← duk_get_global_string kDuktape
  let compile ← duk_get_prop_string duktape kModCompile
  let id ← duk_get_prop_string module kId
  let source ← duv_loadfile fs [id]
  call compile .undefined [module, source]

/-- Modelled from the spec: the test `dschema_is_data` of `misc.h`, which is not
among the sources: the Compiler's second argument is the source text
(section 4.5). -/
def dschema_is_data (v : Value) : Bool := duk_is_string v

/-- The call `duk_to_string(ctx, 1)` on a value that passed `dschema_is_data`. -/
def duk_to_string : Value → List Char
  | .string s => s
  | v => propKey v

/-- The source text `duv_mod_compile` hands to the engine (lines 283-286). -/
def wrapSource (code : List Char) : List Char :=
  "function(require,module)\x7brequire=require.bind(module);var exports=module.exports;".toList
    ++ code ++ "\x7d".toList

/-- The call `duk_compile(ctx, DUK_COMPILE_FUNCTION)`: a new function object for
a source text that compiles, a SyntaxError otherwise. -/
def duk_compile (compiles : List Char → Bool) (source : List Char) : Eng Value :=
  if compiles source then duk_push_function (.compiled source)
  else duk_throw (.error "SyntaxError".toList)

/-- The function `duv_mod_compile` (lines 273-296): wrap the code, compile it
under the file name `module.id`, and call the function with a new `duv_require`
function object and the module; its result is returned as it is. -/
def duv_mod_compile (compiles : List Char → Bool) (call : CallFn) (args : List Value) :
    Eng Value := do
  let module := argAt args 0
  let code := argAt args 1
  dschema_check [(module, duk_is_object), (code, dschema_is_data)]
  let source := wrapSource (duk_to_string code)
  let _fileName ← duk_get_prop_string module kId
  let fn ← duk_compile compiles source
  let require ← duk_push_function (.native .duv_require)
  call fn .undefined [require, module]

/-! ## `duv_require` with its observation, and the engine's call -/

/-- The function `duv_require` with one observation added: `load key` is noted
when the record has been stored and the Loader is about to be called.  Apart
from that step it is `duv_require`. -/
def duv_require_traced (call : CallFn) (this : Value) (args : List Value) : Eng Value := do
  let (duktape, id, is_main) ← requireResolve call this args
  let (loaded, entry) ← requireLookup duktape id
  if duk_is_object entry then
    duk_get_prop_string entry kExports
  else do
    let module ← requireCreate this is_main id loaded
    note (.load (propKey id))
    requireLoad call duktape module

/-- The engine's call of the function value `f` with `this` and `args`, with
`fuel` nested calls still allowed. -/
def callValue (P : Program) : Nat → CallFn
  | 0 => fun _ _ _ => duk_throw .rangeError
  | fuel + 1 => fun f this args s =>
    match f with
    | .object ref =>
      match s.fnOf ref with
      | some (.native .duv_loadfile) => duv_loadfile P.fs args s
      | some (.native .duv_path_join) => duv_path_join_ctx args s
      | some (.native .duv_require) => duv_require_traced (callValue P fuel) this args s
      | some (.native .duv_mod_resolve) => duv_mod_resolve args s
      | some (.native .duv_mod_load) => duv_mod_load P.fs (callValue P fuel) args s
      | some (.native .duv_mod_compile) =>
        duv_mod_compile (fun src => (P.compile src).isSome) (callValue P fuel) args s
      | some (.compiled source) =>
        match P.compile source with
        | some fn => runScript (callValue P fuel) (fn this args) s
        | none => .error .typeError s
      | some (.bound target bthis) => callValue P fuel target bthis args s
      | some (.script n) => runScript (callValue P fuel) (P.scripts n this args) s
      | none => .error .typeError s
    | _ => .error .typeError s

/-! ## `duv_main` and `main` -/

/-- The property table without `key`. -/
def delOwn (props : List (List Char × Value)) (key : List Char) : List (List Char × Value) :=
  props.filter (fun kv => kv.1 ≠ key)

/-- The call `duk_del_prop_string(ctx, obj, key)`. -/
def duk_del_prop_string (o : Value) (key : List Char) : Eng Unit := fun s =>
  match o with
  | .object ref =>
    .ok () { s with
      heap := s.heap.set ref ⟨delOwn (s.obj ref).props key, (s.obj ref).proto⟩ }
  | .undefined => .error .typeError s
  | .null => .error .typeError s
  | _ => .ok () s

/-- The functions of the other source files that `duv_main` calls: they open the
`uv` and `http_parser` bindings, give the working directory, and run the event
loop.  The field `dukopen_http` is the source's `dukopen_http_parser`. -/
structure Bindings where
  dukopen_uv : Eng Value
  dukopen_http : Eng Value
  duv_cwd : Eng Value
  uv_run : Eng Unit

/-- The function `duv_main` (lines 298-347) in a run of the program `P` with
`fuel` nested calls allowed. -/
def duv_main (P : Program) (fuel : Nat) (B : Bindings) (args : List Value) : Eng Value :=
  match argAt args 0 with
  | .string path => do
    let global ← (fun s => Res.ok (Value.object s.global) s : Eng Value)
    duk_put_prop_string global "global".toList global
    let uv ← B.dukopen_uv
    duk_put_prop_string global "uv".toList uv
    let http ← B.dukopen_http
    duk_put_prop_string global "http_parser".toList http
    let duktape ← duk_get_prop_string global kDuktape
    duk_del_prop_string duktape "modSearch".toList
    let compile ← duk_push_function (.native .duv_mod_compile)
    duk_put_prop_string duktape kModCompile compile
    let resolve ← duk_push_function (.native .duv_mod_resolve)
    duk_put_prop_string duktape kModResolve resolve
    let load ← duk_push_function (.native .duv_mod_load)
    duk_put_prop_string duktape kModLoad load
    let pathJoin ← duk_push_function (.native .duv_path_join)
    duk_put_prop_string global "pathJoin".toList pathJoin
    let loadFile ← duk_push_function (.native .duv_loadfile)
    duk_put_prop_string global "loadFile".toList loadFile
    let require ← duk_push_function (.native .duv_require)
    let this ← duk_push_object
    let cwd ← B.duv_cwd
    duk_put_prop_string this kId (.string (duk_to_string cwd ++ "/main.c".toList))
    let _ ← callValue P fuel require this [.string (cstr path)]
    B.uv_run
    pure .undefined
  | _ => duk_throw .typeError

/-- What `fprintf` writes for `%s`: the bytes of the C string, and nothing
defined for a null pointer. -/
def printString (p : Option (List Char)) : Option (List Char) := p.map cstr

/-- The pointer `duk_get_string` gives: null unless the value is a string. -/
def duk_get_string : Value → Option (List Char)
  | .string s => some s
  | _ => none

/-- The text lines 371-379 of `main` write to stderr for the error `e` that
`duk_pcall` left on the stack.  An error made by the engine or by `duk_error` is
an object whose `stack` is the string `engineStack e`; `jsonEncode` is the
pointer `duk_json_encode` returns. -/
def uncaughtText (jsonEncode : Value → Option (List Char)) (engineStack : Thrown → List Char)
    (e : Thrown) (s : State) : Option (List Char) :=
  let stack : Option (Option (List Char)) :=
    match e with
    | .value (.object ref) => some (duk_get_string (s.get ref kStack))
    | .value _ => none
    | _ => some (some (engineStack e))
  match stack with
  | some p =>
    (printString p).map (fun t => "\nUncaught Exception:\n".toList ++ ("\n".toList ++ t ++ "\n\n".toList))
  | none =>
    match e with
    | .value v =>
      (printString (jsonEncode v)).map (fun t =>
        "\nUncaught Exception:\n".toList ++ ("\nThrown Value: ".toList ++ t ++ "\n\n".toList))
    | _ => none

/-- The function `main` (lines 349-386): what it writes to stderr (`none` when a
null pointer is printed) and the value it returns or exits with.  `heap` is the
engine state `duk_create_heap` gives, `none` when it fails. -/
def main (P : Program) (fuel : Nat) (B : Bindings)
    (jsonEncode : Value → Option (List Char)) (engineStack : Thrown → List Char)
    (argv : List (List Char)) (heap : Option State) : Option (List Char) × Int :=
  if argv.length < 2 then (some "Usage: dukluv script.js\n".toList, 1)
  else
    match heap with
    | none => (some "Problem initiailizing duktape heap\n".toList, -1)
    | some s =>
      match duv_main P fuel B [.string (cstr (argv.getD 1 []))] s with
      | .error e s1 => (uncaughtText jsonEncode engineStack e s1, 1)
      | .ok _ _ => (some [], 0)

/-! ## Runs: what is observed, and the invariant of the module cache -/

/-- The state a result ends in. -/
def Res.state {α : Type} : Res α → State
  | .ok _ s => s
  | .error _ s => s

/-- The keys for which the Loader was called, in order. -/
def loadKeys : List Event → List (List Char)
  | [] => []
  | .load key :: rest => key :: loadKeys rest
  | .write _ _ :: rest => loadKeys rest

/-- The hooks are in place: `g` is the global object, its `Duktape` is the
object `d`, whose `modLoaded` is the object `c`, three different objects of the
heap. -/
def State.hooked (s : State) (g d c : Nat) : Prop :=
  s.global = g ∧ g < s.heap.length ∧ d < s.heap.length ∧ c < s.heap.length ∧
    g ≠ d ∧ g ≠ c ∧ d ≠ c ∧
    getOwn (s.obj g).props kDuktape = .object d ∧
    getOwn (s.obj d).props kModLoaded = .object c

/-- The state is consistent: the hooks are in place, the cache `c` holds an
object under every key the Loader was called for, and it was called at most
once for each key. -/
def State.consistent (s : State) (g d c : Nat) : Prop :=
  s.hooked g d c ∧
    (∀ key ∈ loadKeys s.trace, duk_is_object (getOwn (s.obj c).props key) = true) ∧
    (loadKeys s.trace).Nodup

/-- A write by script code that can change what the cache is or holds: any
property of the cache `c`, the `modLoaded` of `Duktape`, or the `Duktape` of the
global object. -/
def Event.tampers (g d c : Nat) : Event → Bool
  | .write ref key =>
    ref == c || (ref == d && key == kModLoaded) || (ref == g && key == kDuktape)
  | .load _ => false

/-- Script code has written to the cache, or has replaced `Duktape.modLoaded` or
the global `Duktape`. -/
def State.tampered (s : State) (g d c : Nat) : Prop :=
  s.trace.any (Event.tampers g d c) = true

/-- Every object the cache `c` holds in `s` it still holds, under the same key,
in `s2`. -/
def State.stable (c : Nat) (s s2 : State) : Prop :=
  ∀ key, duk_is_object (getOwn (s.obj c).props key) = true →
    getOwn (s2.obj c).props key = getOwn (s.obj c).props key

/-- From `s` to `s2` the trace has only grown, and unless script code wrote to
the cache or replaced it, consistency was kept and the cache has kept its
records. -/
def Step (g d c : Nat) (s s2 : State) : Prop :=
  (∃ l, s2.trace = s.trace ++ l) ∧
    (s.consistent g d c → s2.tampered g d c ∨ (s2.consistent g d c ∧ State.stable c s s2))

/-- An operation that makes a `Step` from every state. -/
def Safe (g d c : Nat) {α : Type} (m : Eng α) : Prop := ∀ s, Step g d c s (m s).state

/-! ## A small engine state for concrete runs -/

/-- The built-in objects of the sample states, at the heap positions `base` to
`base + 5`: `Object.prototype`, of whose members `toString` is kept, a function
(`base + 2`); `Function.prototype`; and the prototypes of the strings, the
numbers and the booleans. -/
def builtinObjects (base : Nat) : List Obj :=
  [ { props := [("toString".toList, .object (base + 2))] },
    { props := [], proto := some base },
    { props := [], proto := some (base + 1) },
    { props := [], proto := some base },
    { props := [], proto := some base },
    { props := [], proto := some base } ]

/-- A state with the global object (0), `Duktape` (1) holding the two hooks (2
and 3) and an empty `modLoaded` (4), a bootstrap parent (5) whose id is
`/w/main.c`, and the built-in objects (6 to 11); `Object.prototype` (6) carries
the `__proto__` accessor. -/
def sampleState : State :=
  { heap :=
      [ { props := [(kDuktape, .object 1)], proto := some 6 },
        { props := [(kModResolve, .object 2), (kModLoad, .object 3),
                    (kModLoaded, .object 4)], proto := some 6 },
        { props := [], proto := some 7 },
        { props := [], proto := some 7 },
        { props := [], proto := some 6 },
        { props := [(kId, .string "/w/main.c".toList)], proto := some 6 } ]
      ++ builtinObjects 6,
    global := 0,
    objectProto := some 6, functionProto := some 7, stringProto := some 9,
    numberProto := some 10, booleanProto := some 11, protoAccessor := some 6 }

/-- An engine for `sampleState`: function 2 is the default Resolver, function 3
is a Loader that does nothing and returns `undefined`. -/
def sampleCall : CallFn := fun f _ args =>
  if f = .object 2 then duv_mod_resolve args
  else if f = .object 3 then pure .undefined
  else duk_throw .typeError

/-- The state `sampleState` after `/w/a.js` has been required from the
bootstrap parent: the record is 12 and its `exports` is 13. -/
def sampleLoadedState : State :=
  { heap :=
      [ { props := [(kDuktape, .object 1)], proto := some 6 },
        { props := [(kModResolve, .object 2), (kModLoad, .object 3),
                    (kModLoaded, .object 4)], proto := some 6 },
        { props := [], proto := some 7 },
        { props := [], proto := some 7 },
        { props := [("/w/a.js".toList, .object 12)], proto := some 6 },
        { props := [(kId, .string "/w/main.c".toList)], proto := some 6 } ]
      ++ builtinObjects 6 ++
      [ { props := [(kMain, .boolean true), (kId, .string "/w/a.js".toList),
                    (kExports, .object 13)], proto := some 6 },
        { props := [], proto := some 6 } ],
    global := 0,
    objectProto := some 6, functionProto := some 7, stringProto := some 9,
    numberProto := some 10, booleanProto := some 11, protoAccessor := some 6 }

/-! ## Concrete programs: files, the wrapper, the spec's scenarios -/

/-- Whether a result is a normal return. -/
def Res.isOk {α : Type} : Res α → Bool
  | .ok _ _ => true
  | .error _ _ => false

/-- The error a result throws, if it throws. -/
def Res.thrown {α : Type} : Res α → Option Thrown
  | .ok _ _ => none
  | .error e _ => some e

/-- The meaning of the wrapper
`function(require,module){require=require.bind(module);var exports=module.exports;<BODY>}`
for a body whose meaning is given: it is called with `(require, module)`, binds
`require` to the module, reads `module.exports`, and runs the body. -/
def wrapperFn (body : Value → Value → Value → Script) : ScriptFn := fun _ args =>
  .bind (argAt args 0) (argAt args 1) fun require =>
  .getProp (argAt args 1) (.string kExports) fun exports =>
  body require (argAt args 1) exports

/-- The texts of libuv for the result code -2 (`UV_ENOENT` on Linux) and, for
concrete runs, one text for every other code. -/
def sampleErrName (result : Int) : List Char :=
  if result = -2 then "ENOENT".toList else "Unknown system error".toList

def sampleStrError (result : Int) : List Char :=
  if result = -2 then "no such file or directory".toList else "Unknown system error".toList

/-- A program made of files: each has a path, a source text and the meaning of
that text as a module body.  The engine compiles exactly the wrapped texts of
these files, and the file system holds exactly these files: opening another
path fails with `UV_ENOENT`.  The one other script function is the built-in
`toString` of `Object.prototype`. -/
def programOfFiles (files : List (List Char × List Char × (Value → Value → Value → Script))) :
    Program :=
  { compile := fun source =>
      (files.find? (fun f => wrapSource f.2.1 = source)).map (fun f => wrapperFn f.2.2)
    scripts := fun _ _ _ => .ret (.string "[object Object]".toList)
    fs :=
      { outcome := fun path =>
          match files.find? (fun f => f.1 = path) with
          | some f => .content f.2.1
          | none => .openFails (-2)
        uv_err_name := sampleErrName
        uv_strerror := sampleStrError } }

/-- The engine state `main` starts from: the global object (0), whose `Duktape`
(1) has an empty `modLoaded` (2), and the built-in objects (3 to 8);
`Object.prototype` (3) carries the `__proto__` accessor and its `toString` (5)
is script function 0 of the program. -/
def engineState : State :=
  { heap := [ { props := [(kDuktape, .object 1)], proto := some 3 },
              { props := [(kModLoaded, .object 2)], proto := some 3 },
              { props := [], proto := some 3 } ] ++ builtinObjects 3,
    global := 0,
    fns := [(5, .script 0)],
    objectProto := some 3, functionProto := some 4, stringProto := some 6,
    numberProto := some 7, booleanProto := some 8, protoAccessor := some 3 }

/-- Bindings for concrete runs: each binding is an empty object, the working
directory is `/w`, and the event loop has nothing to run. -/
def sampleBindings : Bindings :=
  { dukopen_uv := duk_push_object
    dukopen_http := duk_push_object
    duv_cwd := pure (.string "/w".toList)
    uv_run := pure () }

/-- The body `exports.a=1; var b=require(<request>); exports.got=b.bSeen;`. -/
def bodyA (request : List Char) : Value → Value → Value → Script := fun require _ exports =>
  .putProp exports (.string ['a']) (.number 1) <|
  .call require .undefined [.string request] fun b =>
  .getProp b (.string "bSeen".toList) fun seen =>
  .putProp exports (.string "got".toList) seen <|
  .ret .undefined

/-- The body `var a=require(<request>); exports.bSeen = a.a;`. -/
def bodyB (request : List Char) : Value → Value → Value → Script := fun require _ exports =>
  .call require .undefined [.string request] fun a =>
  .getProp a (.string ['a']) fun v =>
  .putProp exports (.string "bSeen".toList) v <|
  .ret .undefined

/-- Scenario 7 of the spec as written: the files `/w/a.js` and `/w/b.js`, which
request `./b` and `./a`. -/
def scenario7 : Program :=
  programOfFiles
    [ ("/w/a.js".toList, "exports.a=1; var b=require(\"./b\"); exports.got=b.bSeen;".toList,
        bodyA "./b".toList),
      ("/w/b.js".toList, "var a=require(\"./a\"); exports.bSeen = a.a;".toList,
        bodyB "./a".toList) ]

/-- Scenario 7 with the requests written with the file names, `./b.js` and
`./a.js`. -/
def scenario7js : Program :=
  programOfFiles
    [ ("/w/a.js".toList, "exports.a=1; var b=require(\"./b.js\"); exports.got=b.bSeen;".toList,
        bodyA "./b.js".toList),
      ("/w/b.js".toList, "var a=require(\"./a.js\"); exports.bSeen = a.a;".toList,
        bodyB "./a.js".toList) ]

/-- The state in which `duv_main` calls `require` when it is run from
`engineState` with `sampleBindings`: the bindings (9, 10), the hooks (11, 12,
13), `pathJoin` (14), `loadFile` (15), the `require` function (16) and the
bootstrap parent (17). -/
def bootedState : State :=
  { heap := [ { props := [(kDuktape, .object 1), ("global".toList, .object 0),
                          ("uv".toList, .object 9), ("http_parser".toList, .object 10),
                          ("pathJoin".toList, .object 14), ("loadFile".toList, .object 15)],
                proto := some 3 },
              { props := [(kModLoaded, .object 2), (kModCompile, .object 11),
                          (kModResolve, .object 12), (kModLoad, .object 13)],
                proto := some 3 },
              { props := [], proto := some 3 } ] ++ builtinObjects 3 ++
            [ { props := [], proto := some 3 }, { props := [], proto := some 3 },
              { props := [], proto := some 4 }, { props := [], proto := some 4 },
              { props := [], proto := some 4 }, { props := [], proto := some 4 },
              { props := [], proto := some 4 }, { props := [], proto := some 4 },
              { props := [(kId, .string "/w/main.c".toList)], proto := some 3 } ],
    global := 0,
    fns := [ (16, .native .duv_require), (15, .native .duv_loadfile),
             (14, .native .duv_path_join), (13, .native .duv_mod_load),
             (12, .native .duv_mod_resolve), (11, .native .duv_mod_compile),
             (5, .script 0) ],
    objectProto := some 3, functionProto := some 4, stringProto := some 6,
    numberProto := some 7, booleanProto := some 8, protoAccessor := some 3 }

/-- The body `Duktape.modLoaded[module.id]=0; throw 1;`. -/
def bodyCacheWriter : Value → Value → Value → Script := fun _ module _ =>
  .global fun global =>
  .getProp global (.string kDuktape) fun duktape =>
  .getProp duktape (.string kModLoaded) fun loaded =>
  .getProp module (.string kId) fun id =>
  .putProp loaded id (.number 0) <|
  .raise (.number 1)

/-- A program whose one file `/w/a.js` overwrites its own cache entry and then
throws. -/
def cacheWriter : Program :=
  programOfFiles
    [ ("/w/a.js".toList, "Duktape.modLoaded[module.id]=0; throw 1;".toList, bodyCacheWriter) ]

/-- The state in which the code of `/w/b.js` calls `require("./a.js")` in
scenario 7, when `a.js` is the entry: the run, cut at that call by a limit of
nine nested calls.  The record of `a.js` is 18 with the exports 19, the record
of `b.js` is 23, and 27 is the `require` of `b.js`, the function 26 bound to
23. -/
def cycleState : State :=
  (callValue scenario7js 9 (.object 16) (.object 17) [.string "a.js".toList] bootedState).state

/-- A cyclic pair in which `/w/a.js` is `require("./b.js");` and `/w/b.js` is
`require("./a.js"); throw 1;`. -/
def cycleThrows : Program :=
  programOfFiles
    [ ("/w/a.js".toList, "require(\"./b.js\");".toList, fun require _ _ =>
        .call require .undefined [.string "./b.js".toList] fun _ => .ret .undefined),
      ("/w/b.js".toList, "require(\"./a.js\"); throw 1;".toList, fun require _ _ =>
        .call require .undefined [.string "./a.js".toList] fun _ => .raise (.number 1)) ]

/-- The state `bootedState` with a module record (18) that is not in the cache:
its id is `/w/m.js` and its exports is the empty object 19. -/
def moduleState : State :=
  { bootedState with
    heap := bootedState.heap ++
      [ { props := [(kId, .string "/w/m.js".toList), (kExports, .object 19)],
          proto := some 3 },
        { props := [], proto := some 3 } ] }

/-- A program that compiles the code `return 42;`. -/
def returnsFortyTwo : Program :=
  programOfFiles [ ("/w/m.js".toList, "return 42;".toList, fun _ _ _ => .ret (.number 42)) ]

/-- The body `module.exports=undefined; require("./b.js");`. -/
def bodyClearsExports : Value → Value → Value → Script := fun require module _ =>
  .putProp module (.string kExports) .undefined <|
  .call require .undefined [.string "./b.js".toList] fun _ =>
  .ret .undefined

/-- A program whose entry `/w/a.js` sets its `module.exports` to `undefined` and
then requires the empty file `/w/b.js`. -/
def twoMains : Program :=
  programOfFiles
    [ ("/w/a.js".toList, "module.exports=undefined; require(\"./b.js\");".toList,
        bodyClearsExports),
      ("/w/b.js".toList, [], fun _ _ _ => .ret .undefined) ]

/-- A program whose entry `/w/a.js` is `throw 5;`. -/
def throwsFive : Program :=
  programOfFiles [ ("/w/a.js".toList, "throw 5;".toList, fun _ _ _ => .raise (.number 5)) ]

/-- The JSON text of some primitive values, for concrete runs. -/
def sampleJson : Value → Option (List Char)
  | .null => some "null".toList
  | .boolean true => some "true".toList
  | .boolean false => some "false".toList
  | .number 5 => some "5".toList
  | _ => none

/-- A `stack` for the errors the engine and the host make, for concrete runs:
the name and the message, without a traceback. -/
def sampleStack : Thrown → List Char
  | .typeError => "TypeError".toList
  | .rangeError => "RangeError".toList
  | .error msg => "Error: ".toList ++ msg
  | .value _ => []

/-! ## Strings, slices and `strlen` -/

theorem strlen_le (p : List Char) : strlen p ≤ p.length := by
  induction p with
  | nil => simp [strlen]
  | cons c cs ih =>
    unfold strlen
    split
    · simp
    · simp; omega

theorem strlen_eq_length {p : List Char} (h : NUL ∉ p) : strlen p = p.length := by
  induction p with
  | nil => simp [strlen]
  | cons c cs ih =>
    simp only [List.mem_cons, not_or] at h
    unfold strlen
    rw [if_neg (fun hc => h.1 hc.symm), ih h.2]
    simp

theorem cstr_eq_self {p : List Char} (h : NUL ∉ p) : cstr p = p := by
  simp [cstr, strlen_eq_length h]

theorem nul_not_mem_cstr (p : List Char) : NUL ∉ cstr p := by
  induction p with
  | nil => simp [cstr, strlen]
  | cons c cs ih =>
    unfold cstr strlen
    by_cases hc : c = NUL
    · simp [hc]
    · rw [if_neg hc]
      simp only [List.take_succ_cons, List.mem_cons, not_or]
      exact ⟨fun h => hc h.symm, ih⟩

theorem cstr_idem (p : List Char) : cstr (cstr p) = cstr p :=
  cstr_eq_self (nul_not_mem_cstr p)

theorem byteAt_eq_getElem {p : List Char} {k : Nat} (h : k < p.length) :
    byteAt p k = p[k] := by
  simp [byteAt, List.getD_eq_getElem?_getD, List.getElem?_eq_getElem h]

theorem slice_self (p : List Char) (a : Nat) : slice p a a = [] := by
  simp [slice]

theorem slice_zero (p : List Char) (b : Nat) : slice p 0 b = p.take b := by
  simp [slice]

theorem slice_append (p : List Char) {a b c : Nat} (hab : a ≤ b) (hbc : b ≤ c) :
    slice p a b ++ slice p b c = slice p a c := by
  unfold slice
  have h1 : c - a = (b - a) + (c - b) := by omega
  rw [h1, List.take_add, List.drop_drop]
  congr 3
  omega

theorem slice_cons (p : List Char) {a b : Nat} (hab : a < b) (ha : a < p.length) :
    slice p a b = byteAt p a :: slice p (a + 1) b := by
  unfold slice
  rw [List.drop_eq_getElem_cons ha, byteAt_eq_getElem ha]
  have h1 : b - a = (b - (a + 1)) + 1 := by omega
  rw [h1, List.take_succ_cons]

theorem length_slice (p : List Char) {a b : Nat} (hb : b ≤ p.length) :
    (slice p a b).length = b - a := by
  simp [slice]
  omega

theorem mem_slice {p : List Char} {a b : Nat} {c : Char} (h : c ∈ slice p a b) :
    ∃ k, a ≤ k ∧ k < b ∧ k < p.length ∧ byteAt p k = c := by
  unfold slice at h
  obtain ⟨i, hi, rfl⟩ := List.mem_iff_getElem.1 h
  simp only [List.length_take, List.length_drop] at hi
  refine ⟨a + i, by omega, by omega, by omega, ?_⟩
  rw [byteAt_eq_getElem (by omega)]
  simp

/-! ## Segmentation: facts about the reference -/

theorem specSplit_ne_nil (s : List Char) : specSplit s ≠ [] := by
  cases s with
  | nil => simp [specSplit]
  | cons c cs =>
    unfold specSplit
    split
    · simp
    · split <;> simp

/-- The reference split is the library's split of a list at every slash. -/
theorem specSplit_eq_splitOn (s : List Char) : specSplit s = s.splitOn SLASH := by
  induction s with
  | nil => simp [specSplit, List.splitOn]
  | cons c cs ih =>
    unfold List.splitOn at ih ⊢
    rw [specSplit, List.splitOnP_cons, ih]
    by_cases hc : c = SLASH
    · simp [hc]
    · simp only [hc, if_false, beq_iff_eq, Bool.false_eq_true]
      rcases hsp : List.splitOnP (fun x => x == SLASH) cs with _ | ⟨r, rs⟩
      · rw [← ih] at hsp
        exact absurd hsp (specSplit_ne_nil cs)
      · rfl

theorem specSplit_slashfree {w : List Char} (hw : ∀ c ∈ w, c ≠ SLASH) :
    specSplit w = [w] := by
  induction w with
  | nil => simp [specSplit]
  | cons c cs ih =>
    unfold specSplit
    rw [if_neg (hw c (by simp)), ih (fun d hd => hw d (by simp [hd]))]

theorem specSplit_append_slash {w : List Char} (hw : ∀ c ∈ w, c ≠ SLASH) (r : List Char) :
    specSplit (w ++ SLASH :: r) = w :: specSplit r := by
  induction w with
  | nil => simp [specSplit]
  | cons c cs ih =>
    rw [List.cons_append, specSplit, if_neg (hw c (by simp)),
      ih (fun d hd => hw d (by simp [hd]))]

theorem specSegments_nil : specSegments [] = [] := by
  simp [specSegments, specSplit]

theorem specSegments_slash (r : List Char) : specSegments (SLASH :: r) = specSegments r := by
  simp [specSegments, specSplit]

theorem specSegments_slashfree {w : List Char} (hw : ∀ c ∈ w, c ≠ SLASH) (hne : w ≠ []) :
    specSegments w = [w] := by
  simp [specSegments, specSplit_slashfree hw, hne]

theorem specSegments_append_slash {w : List Char} (hw : ∀ c ∈ w, c ≠ SLASH) (hne : w ≠ [])
    (r : List Char) : specSegments (w ++ SLASH :: r) = w :: specSegments r := by
  simp [specSegments, specSplit_append_slash hw, hne]

/-- A piece of the split is made of bytes of the string and has no slash. -/
theorem specSplit_mem (s : List Char) :
    ∀ w ∈ specSplit s, ∀ c ∈ w, c ∈ s ∧ c ≠ SLASH := by
  induction s with
  | nil => simp [specSplit]
  | cons c cs ih =>
    unfold specSplit
    split
    · intro w hw
      rcases List.mem_cons.1 hw with rfl | hw
      · simp
      · exact fun d hd => ⟨List.mem_cons_of_mem _ (ih w hw d hd).1, (ih w hw d hd).2⟩
    · rename_i hc
      split
      · intro w hw
        simp only [List.mem_singleton] at hw
        subst hw
        simpa using hc
      · rename_i r rs heq
        intro w hw
        rw [heq] at ih
        rcases List.mem_cons.1 hw with rfl | hw
        · intro d hd
          rcases List.mem_cons.1 hd with rfl | hd
          · exact ⟨by simp, hc⟩
          · exact ⟨List.mem_cons_of_mem _ (ih r (by simp) d hd).1, (ih r (by simp) d hd).2⟩
        · exact fun d hd =>
            ⟨List.mem_cons_of_mem _ (ih w (by simp [hw]) d hd).1, (ih w (by simp [hw]) d hd).2⟩

theorem specSegments_mem {s w : List Char} (h : w ∈ specSegments s) :
    w ≠ [] ∧ ∀ c ∈ w, c ≠ SLASH := by
  simp only [specSegments, List.mem_filter, decide_eq_true_eq] at h
  exact ⟨h.2, fun c hc => (specSplit_mem s w h.1 c hc).2⟩

theorem specSegments_mem_sub {s w : List Char} (h : w ∈ specSegments s) :
    ∀ c ∈ w, c ∈ s := by
  simp only [specSegments, List.mem_filter, decide_eq_true_eq] at h
  exact fun c hc => (specSplit_mem s w h.1 c hc).1

/-- Splitting distributes over a slash between two strings. -/
theorem specSplit_append (a r : List Char) :
    specSplit (a ++ SLASH :: r) = specSplit a ++ specSplit r := by
  induction a with
  | nil => simp [specSplit]
  | cons c cs ih =>
    rw [List.cons_append, specSplit, ih]
    by_cases hc : c = SLASH
    · simp [hc, specSplit]
    · rw [if_neg hc]
      conv => rhs; rw [specSplit, if_neg hc]
      rcases hsp : specSplit cs with _ | ⟨r0, rs⟩
      · exact absurd hsp (specSplit_ne_nil cs)
      · simp

theorem specSegments_append (a r : List Char) :
    specSegments (a ++ SLASH :: r) = specSegments a ++ specSegments r := by
  simp [specSegments, specSplit_append]

/-! ## Segmentation: the loops of lines 61-82 -/

theorem skipSlashes_spec (p : List Char) (L : Nat) :
    ∀ (fuel start : Nat), L - start ≤ fuel →
      start ≤ skipSlashes p L fuel start ∧
      (start ≤ L → skipSlashes p L fuel start ≤ L) ∧
      (∀ k, start ≤ k → k < skipSlashes p L fuel start → byteAt p k = SLASH) ∧
      (skipSlashes p L fuel start < L → byteAt p (skipSlashes p L fuel start) ≠ SLASH) := by
  intro fuel
  induction fuel with
  | zero =>
    intro start hf
    simp only [skipSlashes]
    refine ⟨le_refl _, fun h => h, fun k h1 h2 => by omega, fun h => by omega⟩
  | succ n ih =>
    intro start hf
    unfold skipSlashes
    split
    · rename_i hc
      obtain ⟨h1, h2, h3, h4⟩ := ih (start + 1) (by omega)
      refine ⟨by omega, fun _ => h2 (by omega), ?_, h4⟩
      intro k hk1 hk2
      by_cases hk : k = start
      · rw [hk]; exact hc.2
      · exact h3 k (by omega) hk2
    · rename_i hc
      refine ⟨le_refl _, fun h => h, fun k h1 h2 => by omega, fun h hs => hc ⟨h, hs⟩⟩

theorem specSegments_skip (p : List Char) (L : Nat) (hL : L ≤ p.length) :
    ∀ (n a : Nat), a + n ≤ L → (∀ k, a ≤ k → k < a + n → byteAt p k = SLASH) →
      specSegments (slice p a L) = specSegments (slice p (a + n) L) := by
  intro n
  induction n with
  | zero => intro a _ _; rfl
  | succ n ih =>
    intro a hle hs
    rw [slice_cons p (by omega) (by omega), hs a (le_refl _) (by omega), specSegments_slash,
      ih (a + 1) (by omega) (fun k h1 h2 => hs k (by omega) (by omega))]
    congr 2
    omega

theorem bytes_duv_list_node (p : List Char) (a b : Nat) (next : List duv_list) :
    (duv_list_node p a b next).map duv_list.bytes = slice p a b :: next.map duv_list.bytes := by
  simp [duv_list_node, duv_list.bytes, slice]

theorem wf_duv_list_node (p : List Char) {a b : Nat} (hab : a < b) (hb : b ≤ p.length)
    {next : List duv_list} (hn : ∀ n ∈ next, n.wf) :
    ∀ n ∈ duv_list_node p a b next, n.wf := by
  intro n hmem
  rcases List.mem_cons.1 hmem with rfl | hmem
  · exact ⟨by simp; omega, by simp; omega⟩
  · exact hn n hmem

theorem slice_slashfree {p : List Char} {a b : Nat}
    (h : ∀ k, a ≤ k → k < b → byteAt p k ≠ SLASH) : ∀ c ∈ slice p a b, c ≠ SLASH := by
  intro c hc
  obtain ⟨k, h1, h2, _, rfl⟩ := mem_slice hc
  exact h k h1 h2

theorem slice_ne_nil (p : List Char) {a b : Nat} (hab : a < b) (hb : b ≤ p.length) :
    slice p a b ≠ [] := by
  intro h
  have := @length_slice p a b hb
  rw [h] at this
  simp at this
  omega

/-- The `for` loop and the final `if` push exactly the reference segments of
the bytes not yet consumed, under the loop invariant on `(j, start)`. -/
theorem splitLoop_spec (p : List Char) (L : Nat) (hL : L ≤ p.length) :
    ∀ (fuel j start : Nat) (list : List duv_list), L - j ≤ fuel → j ≤ L → start ≤ L →
      (∀ k, start ≤ k → k < j → byteAt p k ≠ SLASH) →
      (∀ k, j ≤ k → k < start → byteAt p k = SLASH) →
      (start < L → byteAt p start ≠ SLASH) →
      (splitLast p (splitLoop p L fuel j start list)).map duv_list.bytes =
          (specSegments (slice p (min start j) L)).reverse ++ list.map duv_list.bytes ∧
        ((∀ n ∈ list, n.wf) → ∀ n ∈ splitLast p (splitLoop p L fuel j start list), n.wf) := by
  intro fuel
  induction fuel with
  | zero =>
    intro j start list hf hj hs h1 h2 h3
    have hjL : j = L := by omega
    subst hjL
    simp only [splitLoop, splitLast]
    split
    · rename_i hlt
      rw [bytes_duv_list_node, Nat.min_eq_left (by omega),
        specSegments_slashfree (slice_slashfree h1) (slice_ne_nil p hlt hL)]
      exact ⟨by simp, fun hn => wf_duv_list_node p hlt hL hn⟩
    · have hsj : start = j := by omega
      subst hsj
      simp [slice_self, specSegments_nil]
  | succ n ih =>
    intro j start list hf hj hs h1 h2 h3
    unfold splitLoop
    by_cases hjL : j < L
    · rw [if_pos hjL]
      by_cases hc : byteAt p j = SLASH
      · rw [if_pos hc]
        by_cases hlt : start < j
        · rw [if_pos hlt]
          obtain ⟨k1, k2, k3, k4⟩ := skipSlashes_spec p L (L - j) j (le_refl _)
          have k5 : j + 1 ≤ skipSlashes p L (L - j) j := by
            unfold skipSlashes
            have : L - j = (L - j - 1) + 1 := by omega
            rw [this]
            simp only
            rw [if_pos ⟨hjL, hc⟩]
            exact (skipSlashes_spec p L _ (j + 1) (by omega)).1
          obtain ⟨r1, r2⟩ := ih (j + 1) (skipSlashes p L (L - j) j)
            (duv_list_node p start j list) (by omega) (by omega) (k2 (by omega))
            (fun k a b => by omega) (fun k a b => k3 k (by omega) b) k4
          refine ⟨?_, fun hn => r2 (wf_duv_list_node p hlt (by omega) hn)⟩
          rw [r1, bytes_duv_list_node, Nat.min_eq_right k5, Nat.min_eq_left (by omega),
            ← slice_append p (le_of_lt hlt) hj, slice_cons p hjL (by omega), hc,
            specSegments_append_slash (slice_slashfree h1) (slice_ne_nil p hlt (by omega))]
          simp
        · rw [if_neg hlt]
          have hsj : j < start := by
            rcases Nat.lt_or_ge j start with h | h
            · exact h
            · have : start = j := by omega
              subst this
              exact absurd hc (h3 hjL)
          obtain ⟨r1, r2⟩ := ih (j + 1) start list (by omega) (by omega) hs
            (fun k a b => by omega) (fun k a b => h2 k (by omega) b) h3
          refine ⟨?_, r2⟩
          rw [r1, Nat.min_eq_right (by omega), Nat.min_eq_right (by omega),
            slice_cons p hjL (by omega), hc, specSegments_slash]
      · rw [if_neg hc]
        have hsj : start ≤ j := by
          rcases Nat.lt_or_ge j start with h | h
          · exact absurd (h2 j (le_refl _) h) hc
          · exact h
        obtain ⟨r1, r2⟩ := ih (j + 1) start list (by omega) (by omega) hs
          (fun k a b => by
            by_cases hk : k = j
            · rw [hk]; exact hc
            · exact h1 k a (by omega))
          (fun k a b => by omega) h3
        refine ⟨?_, r2⟩
        rw [r1, Nat.min_eq_left (by omega), Nat.min_eq_left hsj]
    · rw [if_neg hjL]
      have hjL : j = L := by omega
      subst hjL
      simp only [splitLast]
      split
      · rename_i hlt
        rw [bytes_duv_list_node, Nat.min_eq_left (by omega),
          specSegments_slashfree (slice_slashfree h1) (slice_ne_nil p hlt hL)]
        exact ⟨by simp, fun hn => wf_duv_list_node p hlt hL hn⟩
      · have hsj : start = j := by omega
        subst hsj
        simp [slice_self, specSegments_nil]

/-- One argument: the code pushes the reference segments of the argument cut at
its first NUL, last segment first. -/
theorem splitPart_spec (p : List Char) (list : List duv_list) :
    (splitPart p list).map duv_list.bytes =
        (specSegments (cstr p)).reverse ++ list.map duv_list.bytes ∧
      ((∀ n ∈ list, n.wf) → ∀ n ∈ splitPart p list, n.wf) := by
  unfold splitPart
  simp only
  obtain ⟨k1, k2, k3, k4⟩ := skipSlashes_spec p (strlen p) (strlen p) 0 (by omega)
  have h := splitLoop_spec p (strlen p) (strlen_le p)
    (strlen p - skipSlashes p (strlen p) (strlen p) 0)
    (skipSlashes p (strlen p) (strlen p) 0) (skipSlashes p (strlen p) (strlen p) 0) list
    (le_refl _) (k2 (by omega)) (k2 (by omega)) (fun k a b => by omega)
    (fun k a b => by omega) k4
  refine ⟨?_, h.2⟩
  rw [h.1, Nat.min_self, cstr, ← slice_zero]
  have := specSegments_skip p (strlen p) (strlen_le p)
    (skipSlashes p (strlen p) (strlen p) 0) 0 (by simpa using k2 (by omega))
    (fun k a b => k3 k a (by simpa using b))
  rw [this]
  simp

theorem byteAt_zero_eq_slash (x : List Char) :
    byteAt x 0 = SLASH ↔ (cstr x).head? = some SLASH := by
  cases x with
  | nil => simp [byteAt, cstr, strlen, NUL, SLASH]
  | cons c cs =>
    by_cases hc : c = NUL
    · subst hc
      simp [byteAt, cstr, strlen, NUL, SLASH]
    · simp [byteAt, cstr, strlen, hc]

/-- The argument loop: the absolute flag is decided by the first argument only,
and the list ends as the reference segments of all arguments, last first. -/
theorem argLoop_spec :
    ∀ (args : List (List Char)) (i : Nat) (absolute : Bool) (list : List duv_list),
      (argLoop args i (absolute, list)).2.map duv_list.bytes =
          (args.flatMap (fun x => specSegments (cstr x))).reverse ++ list.map duv_list.bytes ∧
        ((∀ n ∈ list, n.wf) → ∀ n ∈ (argLoop args i (absolute, list)).2, n.wf) ∧
        (argLoop args i (absolute, list)).1 =
          (if i = 0 then (absolute || specAbsolute (args.map cstr)) else absolute) := by
  intro args
  induction args with
  | nil => intro i absolute list; simp [argLoop, specAbsolute]
  | cons x rest ih =>
    intro i absolute list
    simp only [argLoop]
    obtain ⟨r1, r2, r3⟩ := ih (i + 1)
      (if i = 0 ∧ byteAt x 0 = SLASH then true else absolute) (splitPart x list)
    obtain ⟨s1, s2⟩ := splitPart_spec x list
    refine ⟨?_, fun hn => r2 (s2 hn), ?_⟩
    · rw [r1, s1]
      simp
    · rw [r3]
      simp only [Nat.add_one_ne_zero, if_false, List.map_cons, specAbsolute]
      by_cases hi : i = 0
      · by_cases hx : byteAt x 0 = SLASH
        · simp [hi, hx, (byteAt_zero_eq_slash x).1 hx]
        · have : ¬ (cstr x).head? = some SLASH := fun h => hx ((byteAt_zero_eq_slash x).2 h)
          simp [hi, hx, this]
      · simp [hi]

/-! ## Normalisation: the loop of lines 86-122 -/

theorem duv_list.bytes_eq_slice (n : duv_list) :
    n.bytes = slice n.part n.offset (n.offset + n.length) := by
  simp [duv_list.bytes, slice]

theorem duv_list.length_bytes {n : duv_list} (h : n.wf) : n.bytes.length = n.length := by
  rw [n.bytes_eq_slice, length_slice _ h.2]
  omega

theorem duv_list.isDot_iff {n : duv_list} (h : n.wf) :
    (n.length = 1 ∧ byteAt n.part n.offset = DOT) ↔ n.bytes = [DOT] := by
  constructor
  · rintro ⟨h1, h2⟩
    have h3 := h.2
    rw [n.bytes_eq_slice, h1, slice_cons _ (by omega) (by omega), slice_self, h2]
  · intro hb
    have hl := duv_list.length_bytes h
    rw [hb] at hl
    simp only [List.length_singleton] at hl
    have h3 := h.2
    rw [n.bytes_eq_slice, ← hl, slice_cons _ (by omega) (by omega), slice_self] at hb
    simp only [List.cons.injEq, and_true] at hb
    exact ⟨hl.symm, hb⟩

theorem duv_list.isDotDot_iff {n : duv_list} (h : n.wf) :
    (n.length = 2 ∧ byteAt n.part n.offset = DOT ∧ byteAt n.part (n.offset + 1) = DOT) ↔
      n.bytes = [DOT, DOT] := by
  constructor
  · rintro ⟨h1, h2, h3⟩
    have h4 := h.2
    rw [n.bytes_eq_slice, h1, slice_cons _ (by omega) (by omega),
      slice_cons _ (by omega) (by omega), slice_self, h2, h3]
  · intro hb
    have hl := duv_list.length_bytes h
    rw [hb] at hl
    simp only [List.length_cons, List.length_singleton, List.length_nil] at hl
    have h3 := h.2
    rw [n.bytes_eq_slice, ← hl, slice_cons _ (by omega) (by omega),
      slice_cons _ (by omega) (by omega), slice_self] at hb
    simp only [List.cons.injEq, and_true] at hb
    exact ⟨hl.symm, hb.1, hb.2⟩

/-- The normalisation loop is the reference's right-to-left pass. -/
theorem normLoop_spec :
    ∀ (l : List duv_list) (skip : Nat) (prev : List duv_list), (∀ n ∈ l, n.wf) →
      (normLoop l skip prev).map duv_list.bytes =
        ((l.map duv_list.bytes).reverse.foldr specStep (skip, prev.map duv_list.bytes)).2 := by
  intro l
  induction l with
  | nil => intro skip prev _; simp [normLoop]
  | cons n next ih =>
    intro skip prev hwf
    have hn : n.wf := hwf n (by simp)
    have hnext : ∀ m ∈ next, m.wf := fun m hm => hwf m (by simp [hm])
    simp only [List.map_cons, List.reverse_cons, List.foldr_append, List.foldr_cons,
      List.foldr_nil]
    unfold normLoop
    by_cases h1 : n.length = 1 ∧ byteAt n.part n.offset = DOT
    · rw [if_pos h1, ih skip prev hnext]
      simp [specStep, (duv_list.isDot_iff hn).1 h1]
    · rw [if_neg h1]
      have h1b : ¬ n.bytes = [DOT] := fun h => h1 ((duv_list.isDot_iff hn).2 h)
      by_cases h2 : n.length = 2 ∧ byteAt n.part n.offset = DOT ∧
          byteAt n.part (n.offset + 1) = DOT
      · rw [if_pos h2, ih (skip + 1) prev hnext]
        simp [specStep, (duv_list.isDotDot_iff hn).1 h2]
      · rw [if_neg h2]
        have h2b : ¬ n.bytes = [DOT, DOT] := fun h => h2 ((duv_list.isDotDot_iff hn).2 h)
        by_cases h3 : skip > 0
        · rw [if_pos h3, ih (skip - 1) prev hnext]
          simp [specStep, h1b, h2b, h3]
        · rw [if_neg h3, ih skip (n :: prev) hnext]
          simp [specStep, h1b, h2b, h3]

/-! ## Emission: the loop of lines 126-144 -/

theorem emitLoop_spec :
    ∀ (l : List duv_list) (stack : List (List Char)) (count : Nat),
      emitLoop l (stack, count) =
        (stack ++ (l.map duv_list.bytes).intersperse [SLASH],
          count + ((l.map duv_list.bytes).intersperse [SLASH]).length) := by
  intro l
  induction l with
  | nil => intro stack count; simp [emitLoop]
  | cons n next ih =>
    intro stack count
    cases next with
    | nil => simp [emitLoop]
    | cons m rest =>
      rw [emitLoop]
      simp only [ne_eq, reduceCtorEq, not_false_eq_true, if_true]
      rw [ih]
      simp [List.intersperse]
      omega

theorem duk_concat_top (stack pushed : List (List Char)) :
    duk_concat (stack ++ pushed) pushed.length = pushed.flatten := by
  simp [duk_concat]

/-! ## `duv_path_join` against the reference algorithm -/

/-- The code computes the reference algorithm on its arguments, each cut at its
first NUL byte. -/
theorem duv_path_join_eq_spec_cstr (args : List (List Char)) :
    duv_path_join args = specPathJoin (args.map cstr) := by
  unfold duv_path_join
  obtain ⟨r1, r2, r3⟩ := argLoop_spec args 0 false []
  rcases hres : argLoop args 0 (false, []) with ⟨absolute, list⟩
  rw [hres] at r1 r2 r3
  simp only [List.map_nil, List.append_nil, if_true, Bool.false_or] at r1 r3
  have hwf : ∀ n ∈ list, n.wf := r2 (by simp)
  have hk := normLoop_spec list 0 [] hwf
  rw [r1] at hk
  simp only [List.reverse_reverse, List.map_nil] at hk
  simp only
  have hflat : (args.map cstr).flatMap specSegments
      = args.flatMap (fun x => specSegments (cstr x)) := by
    simp [List.flatMap, List.map_map, Function.comp_def]
  unfold specPathJoin specEmit specKept
  rw [hflat, ← hk, ← r3]
  cases absolute with
  | true =>
    simp only [if_true]
    rw [emitLoop_spec]
    simp only
    have := duk_concat_top args ([SLASH] :: (List.map duv_list.bytes (normLoop list 0 [])).intersperse [SLASH])
    simp only [List.length_cons] at this
    rw [show args ++ [[SLASH]] ++ (List.map duv_list.bytes (normLoop list 0 [])).intersperse [SLASH]
        = args ++ ([SLASH] :: (List.map duv_list.bytes (normLoop list 0 [])).intersperse [SLASH]) by simp,
      Nat.add_comm, this]
    simp [List.intercalate]
  | false =>
    simp only [Bool.false_eq_true, if_false]
    rw [emitLoop_spec]
    simp only [Nat.zero_add]
    rw [duk_concat_top]
    simp [List.intercalate]

theorem duv_path_join_eq_spec {args : List (List Char)} (h : ∀ x ∈ args, NUL ∉ x) :
    duv_path_join args = specPathJoin args := by
  rw [duv_path_join_eq_spec_cstr]
  congr 1
  conv => rhs; rw [← List.map_id args]
  exact List.map_congr_left (fun x hx => cstr_eq_self (h x hx))

theorem duv_absolute_eq (args : List (List Char)) :
    duv_absolute args = specAbsolute (args.map cstr) := by
  have h := (argLoop_spec args 0 false []).2.2
  simpa [duv_absolute] using h

theorem duv_segments_eq (args : List (List Char)) :
    duv_segments args = (args.map cstr).flatMap specSegments := by
  have h := (argLoop_spec args 0 false []).1
  simp only [List.map_nil, List.append_nil] at h
  simp [duv_segments, h, List.flatMap, List.map_map, Function.comp_def]

/-- The result of the code in terms of its own flag and segments. -/
theorem duv_path_join_eq_emit (args : List (List Char)) :
    duv_path_join args = specEmit (duv_absolute args) (specKept (duv_segments args)) := by
  rw [duv_path_join_eq_spec_cstr, duv_absolute_eq, duv_segments_eq]
  rfl

/-! ## Facts about normalisation and emission -/

theorem specStep_dot (st : Nat × List (List Char)) : specStep [DOT] st = st := by
  simp [specStep]

theorem specStep_dotdot (st : Nat × List (List Char)) :
    specStep [DOT, DOT] st = (st.1 + 1, st.2) := by
  simp [specStep, DOT]

theorem specStep_ordinary_succ {f : List Char} (h1 : f ≠ [DOT]) (h2 : f ≠ [DOT, DOT])
    (k : Nat) (kept : List (List Char)) : specStep f (k + 1, kept) = (k, kept) := by
  simp [specStep, h1, h2]

theorem specStep_ordinary_zero {f : List Char} (h1 : f ≠ [DOT]) (h2 : f ≠ [DOT, DOT])
    (kept : List (List Char)) : specStep f (0, kept) = (0, f :: kept) := by
  simp [specStep, h1, h2]

/-- Dot segments at the left end never change what is kept. -/
theorem foldr_specStep_dots {pre : List (List Char)} (h : ∀ w ∈ pre, dotSegment w)
    (st : Nat × List (List Char)) : (pre.foldr specStep st).2 = st.2 := by
  induction pre with
  | nil => rfl
  | cons w rest ih =>
    rw [List.foldr_cons]
    have hrest := ih (fun v hv => h v (by simp [hv]))
    rcases h w (by simp) with rfl | rfl
    · rw [specStep_dot]; exact hrest
    · rw [specStep_dotdot]; exact hrest

/-- Every kept segment is one of the segments and is neither `.` nor `..`. -/
theorem foldr_specStep_mem (segs : List (List Char)) :
    ∀ w ∈ (segs.foldr specStep (0, [])).2, w ∈ segs ∧ w ≠ [DOT] ∧ w ≠ [DOT, DOT] := by
  induction segs with
  | nil => simp
  | cons x rest ih =>
    intro w hw
    rw [List.foldr_cons] at hw
    unfold specStep at hw
    split at hw
    · exact ⟨List.mem_cons_of_mem _ (ih w hw).1, (ih w hw).2⟩
    · split at hw
      · exact ⟨List.mem_cons_of_mem _ (ih w hw).1, (ih w hw).2⟩
      · split at hw
        · exact ⟨List.mem_cons_of_mem _ (ih w hw).1, (ih w hw).2⟩
        · rename_i h1 h2 _
          rcases List.mem_cons.1 hw with rfl | hw
          · exact ⟨by simp, h1, h2⟩
          · exact ⟨List.mem_cons_of_mem _ (ih w hw).1, (ih w hw).2⟩

theorem specKept_mem {segs : List (List Char)} {w : List Char} (h : w ∈ specKept segs) :
    w ∈ segs ∧ w ≠ [DOT] ∧ w ≠ [DOT, DOT] :=
  foldr_specStep_mem segs w h

/-- Segments that are neither `.` nor `..` are all kept. -/
theorem specKept_of_ordinary {segs : List (List Char)}
    (h : ∀ w ∈ segs, w ≠ [DOT] ∧ w ≠ [DOT, DOT]) : specKept segs = segs := by
  have key : segs.foldr specStep (0, []) = (0, segs) := by
    induction segs with
    | nil => rfl
    | cons x rest ih =>
      rw [List.foldr_cons, ih (fun v hv => h v (by simp [hv])),
        specStep_ordinary_zero (h x (by simp)).1 (h x (by simp)).2]
  simp [specKept, key]

theorem intercalate_cons_cons (x y : List Char) (zs : List (List Char)) :
    [SLASH].intercalate (x :: y :: zs) = x ++ SLASH :: [SLASH].intercalate (y :: zs) := by
  simp [List.intercalate, List.intersperse]

theorem intercalate_singleton (x : List Char) : [SLASH].intercalate [x] = x := by
  simp [List.intercalate, List.intersperse]

/-- Re-splitting an emitted path gives back its segments. -/
theorem specSegments_intercalate {kept : List (List Char)}
    (h : ∀ w ∈ kept, w ≠ [] ∧ ∀ c ∈ w, c ≠ SLASH) :
    specSegments ([SLASH].intercalate kept) = kept := by
  induction kept with
  | nil => simp [List.intercalate, specSegments_nil]
  | cons x rest ih =>
    cases rest with
    | nil =>
      rw [intercalate_singleton, specSegments_slashfree (h x (by simp)).2 (h x (by simp)).1]
    | cons y zs =>
      rw [intercalate_cons_cons,
        specSegments_append_slash (h x (by simp)).2 (h x (by simp)).1,
        ih (fun v hv => h v (by simp [hv]))]

theorem specSegments_specEmit (absolute : Bool) {kept : List (List Char)}
    (h : ∀ w ∈ kept, w ≠ [] ∧ ∀ c ∈ w, c ≠ SLASH) :
    specSegments (specEmit absolute kept) = kept := by
  cases absolute with
  | true =>
    simp only [specEmit, if_true, List.singleton_append]
    rw [specSegments_slash, specSegments_intercalate h]
  | false =>
    simp only [specEmit, Bool.false_eq_true, if_false, List.nil_append]
    exact specSegments_intercalate h

theorem head?_intercalate {kept : List (List Char)}
    (h : ∀ w ∈ kept, w ≠ [] ∧ ∀ c ∈ w, c ≠ SLASH) :
    ([SLASH].intercalate kept).head? ≠ some SLASH := by
  cases kept with
  | nil => simp [List.intercalate]
  | cons x rest =>
    obtain ⟨hne, hsl⟩ := h x (by simp)
    cases x with
    | nil => exact absurd rfl hne
    | cons c cs =>
      have hc : c ≠ SLASH := hsl c (by simp)
      cases rest with
      | nil => rw [intercalate_singleton]; simpa using hc
      | cons y zs => rw [intercalate_cons_cons]; simpa using hc

/-- An emitted path begins with a slash exactly when the flag is set. -/
theorem head?_specEmit (absolute : Bool) {kept : List (List Char)}
    (h : ∀ w ∈ kept, w ≠ [] ∧ ∀ c ∈ w, c ≠ SLASH) :
    (specEmit absolute kept).head? = some SLASH ↔ absolute = true := by
  cases absolute with
  | true => simp [specEmit]
  | false =>
    simp only [specEmit, Bool.false_eq_true, if_false, List.nil_append, iff_false]
    exact head?_intercalate h

theorem mem_intercalate {kept : List (List Char)} {c : Char}
    (h : c ∈ [SLASH].intercalate kept) : c = SLASH ∨ ∃ w ∈ kept, c ∈ w := by
  induction kept with
  | nil => simp [List.intercalate] at h
  | cons x rest ih =>
    cases rest with
    | nil =>
      rw [intercalate_singleton] at h
      exact Or.inr ⟨x, by simp, h⟩
    | cons y zs =>
      rw [intercalate_cons_cons] at h
      rcases List.mem_append.1 h with h | h
      · exact Or.inr ⟨x, by simp, h⟩
      · rcases List.mem_cons.1 h with h | h
        · exact Or.inl h
        · rcases ih h with h | ⟨w, hw, hc⟩
          · exact Or.inl h
          · exact Or.inr ⟨w, List.mem_cons_of_mem _ hw, hc⟩

theorem mem_specEmit {absolute : Bool} {kept : List (List Char)} {c : Char}
    (h : c ∈ specEmit absolute kept) : c = SLASH ∨ ∃ w ∈ kept, c ∈ w := by
  unfold specEmit at h
  rcases List.mem_append.1 h with h | h
  · split at h
    · exact Or.inl (by simpa using h)
    · simp at h
  · exact mem_intercalate h

/-- The segments the code works on are non-empty, slash-free and NUL-free. -/
theorem duv_segments_mem {args : List (List Char)} {w : List Char}
    (h : w ∈ duv_segments args) : w ≠ [] ∧ (∀ c ∈ w, c ≠ SLASH) ∧ NUL ∉ w := by
  rw [duv_segments_eq] at h
  simp only [List.mem_flatMap, List.mem_map] at h
  obtain ⟨x, ⟨y, _, rfl⟩, hw⟩ := h
  exact ⟨(specSegments_mem hw).1, (specSegments_mem hw).2,
    fun hn => nul_not_mem_cstr y (specSegments_mem_sub hw NUL hn)⟩

theorem nul_not_mem_duv_path_join (args : List (List Char)) : NUL ∉ duv_path_join args := by
  rw [duv_path_join_eq_emit]
  intro h
  rcases mem_specEmit h with h | ⟨w, hw, hc⟩
  · exact absurd h (by decide)
  · exact (duv_segments_mem (specKept_mem hw).1).2.2 hc

theorem kept_segments_wellformed {args : List (List Char)} :
    ∀ w ∈ specKept (duv_segments args), w ≠ [] ∧ ∀ c ∈ w, c ≠ SLASH :=
  fun _ hw => ⟨(duv_segments_mem (specKept_mem hw).1).1, (duv_segments_mem (specKept_mem hw).1).2.1⟩

theorem byteAt_zero_iff_head (x : List Char) :
    byteAt x 0 = SLASH ↔ x.head? = some SLASH := by
  cases x with
  | nil => simp [byteAt, NUL, SLASH]
  | cons _ _ => simp [byteAt]

theorem duv_absolute_cons (x : List Char) (rest : List (List Char)) :
    duv_absolute (x :: rest) = true ↔ x.head? = some SLASH := by
  rw [duv_absolute_eq]
  simp only [List.map_cons, specAbsolute, decide_eq_true_eq]
  rw [← byteAt_zero_eq_slash, byteAt_zero_iff_head]

theorem duv_absolute_congr (x : List Char) (rest rest2 : List (List Char)) :
    duv_absolute (x :: rest) = duv_absolute (x :: rest2) := by
  rw [duv_absolute_eq, duv_absolute_eq]
  rfl

theorem duv_segments_cons (x : List Char) (rest : List (List Char)) :
    duv_segments (x :: rest) = specSegments (cstr x) ++ duv_segments rest := by
  simp [duv_segments_eq]

theorem duv_segments_nil : duv_segments [] = [] := by
  simp [duv_segments_eq]

theorem cstr_append_slash {a : List Char} (ha : NUL ∉ a) (r : List Char) :
    cstr (a ++ SLASH :: r) = a ++ SLASH :: cstr r := by
  induction a with
  | nil => simp [cstr, strlen, NUL, SLASH]
  | cons c cs ih =>
    simp only [List.mem_cons, not_or] at ha
    have hc : ¬ c = NUL := fun h => ha.1 h.symm
    have := ih ha.2
    unfold cstr at this ⊢
    rw [List.cons_append, strlen, if_neg hc, List.take_succ_cons, this, List.cons_append]

theorem cstr_slash_cons (r : List Char) : cstr (SLASH :: r) = SLASH :: cstr r :=
  @cstr_append_slash [] (by simp) r

theorem duv_segments_append (xs ys : List (List Char)) :
    duv_segments (xs ++ ys) = duv_segments xs ++ duv_segments ys := by
  simp [duv_segments_eq]

theorem duv_segments_replicate_dotdot (n : Nat) :
    duv_segments (List.replicate n [DOT, DOT]) = List.replicate n [DOT, DOT] := by
  induction n with
  | zero => simp [duv_segments_nil]
  | succ k ih =>
    rw [List.replicate_succ, duv_segments_cons, ih]
    have : specSegments (cstr [DOT, DOT]) = [[DOT, DOT]] := by decide
    rw [this]
    rfl

/-- A `..` with only dot segments to its left changes nothing that is kept. -/
theorem specKept_drop_dotdot {pre : List (List Char)} (h : ∀ w ∈ pre, dotSegment w)
    (post : List (List Char)) : specKept (pre ++ [DOT, DOT] :: post) = specKept (pre ++ post) := by
  unfold specKept
  rw [List.foldr_append, List.foldr_append, foldr_specStep_dots h, foldr_specStep_dots h,
    List.foldr_cons, specStep_dotdot]

/-- A `.` anywhere changes nothing that is kept. -/
theorem specKept_drop_dot (pre post : List (List Char)) :
    specKept (pre ++ [DOT] :: post) = specKept (pre ++ post) := by
  unfold specKept
  rw [List.foldr_append, List.foldr_append, List.foldr_cons, specStep_dot]

/-- An ordinary segment followed by `..` changes nothing that is kept. -/
theorem specKept_cancel {f : List Char} (h1 : f ≠ [DOT]) (h2 : f ≠ [DOT, DOT])
    (pre post : List (List Char)) :
    specKept (pre ++ f :: [DOT, DOT] :: post) = specKept (pre ++ post) := by
  unfold specKept
  rw [List.foldr_append, List.foldr_append, List.foldr_cons, List.foldr_cons, specStep_dotdot,
    specStep_ordinary_succ h1 h2]

theorem specSegments_ordinary {f : List Char} (h : ordinary f) : specSegments f = [f] :=
  specSegments_slashfree (fun _ hc hcs => h.2.1 (hcs ▸ hc)) h.1

theorem duv_absolute_append_slash {a : List Char} (ha : a ≠ []) (r : List Char)
    (rest rest2 : List (List Char)) :
    duv_absolute ((a ++ SLASH :: r) :: rest) = duv_absolute (a :: rest2) := by
  rw [Bool.eq_iff_iff, duv_absolute_cons, duv_absolute_cons]
  cases a with
  | nil => exact absurd rfl ha
  | cons _ _ => simp

/-- The result begins with a slash exactly when the first argument does. -/
theorem head?_duv_path_join (x : List Char) (rest : List (List Char)) :
    (duv_path_join (x :: rest)).head? = some SLASH ↔ x.head? = some SLASH := by
  rw [duv_path_join_eq_emit, head?_specEmit _ kept_segments_wellformed, duv_absolute_cons]

/-! ## The properties of `pathJoin` -/

/-- C1, as amended: for every list of input strings none of which contains a
NUL byte, `duv_path_join` returns exactly the string of the reference algorithm
(absolute flag from the first string, segments as the maximal non-empty runs of
non-slash bytes, right-to-left normalisation with a skip counter, emission with
single slashes); the empty list gives the empty string, and when nothing is
kept the result is `/` if absolute and empty otherwise. -/
theorem path_join_reference (xs : List (List Char)) (h : ∀ x ∈ xs, NUL ∉ x) :
    duv_path_join xs = specPathJoin xs ∧
      duv_path_join [] = [] ∧
      (specKept (xs.flatMap specSegments) = [] →
        duv_path_join xs = if specAbsolute xs then [SLASH] else []) := by
  refine ⟨duv_path_join_eq_spec h, by decide, fun hk => ?_⟩
  rw [duv_path_join_eq_spec h, specPathJoin, hk]
  simp [specEmit, List.intercalate]

/-- C1, witness: the reference result on `pathJoin("/a/b", "../c")`. -/
theorem path_join_reference_witness :
    (∀ x ∈ [['/', 'a', '/', 'b'], ['.', '.', '/', 'c']], NUL ∉ x) ∧
      duv_path_join [['/', 'a', '/', 'b'], ['.', '.', '/', 'c']]
        = specPathJoin [['/', 'a', '/', 'b'], ['.', '.', '/', 'c']] :=
  ⟨by decide, (path_join_reference _ (by decide)).1⟩

/-- C1, as stated, fails: on the one-argument call with the three bytes `a`,
NUL, `b` the code returns `a` (it measures the argument with `strlen`), while
the reference algorithm keeps the whole run. -/
theorem path_join_reference_fails_on_nul :
    duv_path_join [['a', NUL, 'b']] = ['a'] ∧
      specPathJoin [['a', NUL, 'b']] = ['a', NUL, 'b'] ∧
      duv_path_join [['a', NUL, 'b']] ≠ specPathJoin [['a', NUL, 'b']] := by
  decide

/-- C2: `pathJoin` is idempotent: joining the single string `pathJoin(a, b)`,
or `pathJoin(xs)` for any argument list `xs`, returns it unchanged. -/
theorem path_join_idempotent :
    (∀ a b : List Char, duv_path_join [duv_path_join [a, b]] = duv_path_join [a, b]) ∧
      (∀ xs : List (List Char), duv_path_join [duv_path_join xs] = duv_path_join xs) := by
  have key : ∀ xs : List (List Char), duv_path_join [duv_path_join xs] = duv_path_join xs := by
    intro xs
    have hnul := nul_not_mem_duv_path_join xs
    rw [@duv_path_join_eq_spec [duv_path_join xs] (by simpa using hnul)]
    rw [duv_path_join_eq_emit xs]
    have hwf := @kept_segments_wellformed xs
    have hseg := specSegments_specEmit (duv_absolute xs) hwf
    have hkeep : specKept (specKept (duv_segments xs)) = specKept (duv_segments xs) :=
      specKept_of_ordinary (fun w hw => (specKept_mem hw).2)
    have habs : specAbsolute [specEmit (duv_absolute xs) (specKept (duv_segments xs))]
        = duv_absolute xs := by
      have := head?_specEmit (duv_absolute xs) hwf
      cases hA : duv_absolute xs with
      | true => rw [hA] at this; simpa [specAbsolute] using this
      | false => rw [hA] at this; simpa [specAbsolute] using this
    simp only [specPathJoin, List.flatMap_cons, List.flatMap_nil, List.append_nil]
    rw [hseg, hkeep, habs]
  exact ⟨fun a b => key [a, b], key⟩

/-- C3: for a non-empty argument list the result begins with a slash if and
only if the first argument does; in particular when the first argument does not
begin with a slash, no later argument makes the result absolute. -/
theorem path_join_absolute_iff (x : List Char) (rest : List (List Char)) :
    ((duv_path_join (x :: rest)).head? = some SLASH ↔ x.head? = some SLASH) ∧
      (x.head? ≠ some SLASH → (duv_path_join (x :: rest)).head? ≠ some SLASH) :=
  ⟨head?_duv_path_join x rest, fun h hr => h ((head?_duv_path_join x rest).1 hr)⟩

/-- C4: excess `..` segments are dropped: `pathJoin("/", ".." n times, rest...)`
equals `pathJoin("/", rest...)`, `pathJoin("/", "..", "..", "x")` is `/x`, and in
general a `..` segment with no ordinary segment to its left contributes nothing:
two calls with the same absolute flag whose segment lists differ only by such a
`..` return the same string. -/
theorem path_join_excess_dotdot :
    (∀ (n : Nat) (rest : List (List Char)),
        duv_path_join ([SLASH] :: (List.replicate n [DOT, DOT] ++ rest))
          = duv_path_join ([SLASH] :: rest)) ∧
      duv_path_join [[SLASH], [DOT, DOT], [DOT, DOT], ['x']] = [SLASH, 'x'] ∧
      (∀ (xs ys : List (List Char)) (pre post : List (List Char)),
        duv_absolute xs = duv_absolute ys →
        duv_segments xs = pre ++ [DOT, DOT] :: post →
        duv_segments ys = pre ++ post →
        (∀ w ∈ pre, dotSegment w) →
        duv_path_join xs = duv_path_join ys) := by
  refine ⟨fun n rest => ?_, by decide, fun xs ys pre post habs hxs hys hpre => ?_⟩
  · rw [duv_path_join_eq_emit, duv_path_join_eq_emit, duv_absolute_congr [SLASH] _ rest,
      duv_segments_cons, duv_segments_cons, duv_segments_append, duv_segments_replicate_dotdot]
    have hs : specSegments (cstr [SLASH]) = [] := by decide
    rw [hs, List.nil_append, List.nil_append]
    congr 1
    unfold specKept
    rw [List.foldr_append, foldr_specStep_dots]
    intro w hw
    exact Or.inr (List.eq_of_mem_replicate hw)
  · rw [duv_path_join_eq_emit, duv_path_join_eq_emit, habs, hxs, hys,
      specKept_drop_dotdot hpre]

/-- C4, witness: in `pathJoin("./../x")` the `..` has only a `.` to its left, and
the result is that of `pathJoin("./x")`. -/
theorem path_join_excess_dotdot_witness :
    duv_path_join [['.', '/', '.', '.', '/', 'x']] = duv_path_join [['.', '/', 'x']] :=
  path_join_excess_dotdot.2.2 [['.', '/', '.', '.', '/', 'x']] [['.', '/', 'x']]
    [[DOT]] [['x']] (by decide) (by decide) (by decide) (by decide)

/-- C5, as amended: parent cancels child for strings without NUL bytes:
`pathJoin("a/b", "..")` is `a`, and for every non-empty `a` and every ordinary
segment `s`, neither containing a NUL byte, `pathJoin(a ++ "/" ++ s, "..")`
equals `pathJoin(a)`. -/
theorem path_join_parent_cancels_child (a s : List Char) (ha : a ≠ []) (hs : ordinary s)
    (hna : NUL ∉ a) (hns : NUL ∉ s) :
    duv_path_join [a ++ SLASH :: s, [DOT, DOT]] = duv_path_join [a] ∧
      duv_path_join [['a', '/', 'b'], [DOT, DOT]] = ['a'] := by
  refine ⟨?_, by decide⟩
  rw [duv_path_join_eq_emit, duv_path_join_eq_emit, duv_absolute_append_slash ha s _ [],
    duv_segments_cons, duv_segments_cons, duv_segments_cons, duv_segments_nil,
    cstr_append_slash hna, cstr_eq_self hns, cstr_eq_self hna, specSegments_append,
    specSegments_ordinary hs]
  have hdd : specSegments (cstr [DOT, DOT]) = [[DOT, DOT]] := by decide
  rw [hdd]
  have := specKept_cancel hs.2.2.1 hs.2.2.2 (specSegments a) []
  simpa using congrArg (specEmit (duv_absolute [a])) this

/-- C5, witness: `a = "/usr"`, `s = "lib"`. -/
theorem path_join_parent_cancels_child_witness :
    duv_path_join [['/', 'u', 's', 'r'] ++ SLASH :: ['l', 'i', 'b'], [DOT, DOT]]
      = duv_path_join [['/', 'u', 's', 'r']] :=
  (path_join_parent_cancels_child ['/', 'u', 's', 'r'] ['l', 'i', 'b']
    (by decide) (by decide) (by decide) (by decide)).1

/-- C5, as stated, fails: with `a` the two bytes `x`, NUL (non-empty) and the
ordinary segment `b`, the code reads `a ++ "/" ++ b` only up to the NUL, so the
`..` cancels `x` and the result is empty, while `pathJoin(a)` is `x`. -/
theorem path_join_parent_cancels_child_fails_on_nul :
    ['x', NUL] ≠ [] ∧ ordinary ['b'] ∧
      duv_path_join [['x', NUL] ++ SLASH :: ['b'], [DOT, DOT]] = [] ∧
      duv_path_join [['x', NUL]] = ['x'] ∧
      duv_path_join [['x', NUL] ++ SLASH :: ['b'], [DOT, DOT]] ≠ duv_path_join [['x', NUL]] := by
  decide

/-- C6: dot neutrality: for every string `a`, `pathJoin(a, ".")` equals
`pathJoin(a)`. -/
theorem path_join_dot_neutral (a : List Char) :
    duv_path_join [a, [DOT]] = duv_path_join [a] := by
  rw [duv_path_join_eq_emit, duv_path_join_eq_emit, duv_absolute_congr a _ [],
    duv_segments_cons, duv_segments_cons, duv_segments_cons, duv_segments_nil]
  have hd : specSegments (cstr [DOT]) = [[DOT]] := by decide
  rw [hd]
  have := specKept_drop_dot (specSegments (cstr a)) []
  simpa using congrArg (specEmit (duv_absolute [a])) this

/-! ## The default Resolver -/

theorem Eng.bind_apply {α β : Type} (m : Eng α) (f : α → Eng β) (s : State) :
    (m >>= f) s = match m s with
      | .ok a s1 => f a s1
      | .error e s1 => .error e s1 := rfl

theorem Eng.pure_apply {α : Type} (a : α) (s : State) : (pure a : Eng α) s = .ok a s := rfl

/-! ### Reading a property -/

theorem hasOwn_of_getOwn_ne {props : List (List Char × Value)} {key : List Char}
    (h : getOwn props key ≠ .undefined) : hasOwn props key = true := by
  induction props with
  | nil => exact absurd rfl h
  | cons kv rest ih =>
    obtain ⟨k, w⟩ := kv
    by_cases hk : k = key
    · simp [hasOwn, hk]
    · simp only [getOwn, hk, if_false] at h
      simp [hasOwn, hk, ih h]

theorem State.obj_of_le (s : State) {ref : Nat} (h : s.heap.length ≤ ref) :
    s.obj ref = { props := [] } := by
  simp [State.obj, List.getD_eq_getElem?_getD, List.getElem?_eq_none h]

/-- An own property decides the read, whatever the prototype chain holds. -/
theorem State.get_of_hasOwn {s : State} {ref : Nat} {key : List Char}
    (h : hasOwn (s.obj ref).props key = true) :
    s.get ref key = getOwn (s.obj ref).props key := by
  cases hlen : s.heap.length with
  | zero =>
    rw [State.obj_of_le s (by omega)] at h
    simp [hasOwn] at h
  | succ n => simp [State.get, State.lookup, hlen, State.find, h]

/-- An own property with a defined value is what the engine reads. -/
theorem State.get_of_getOwn {s : State} {ref : Nat} {key : List Char} {v : Value}
    (h : getOwn (s.obj ref).props key = v) (hv : v ≠ .undefined) : s.get ref key = v := by
  rw [State.get_of_hasOwn (hasOwn_of_getOwn_ne (by rw [h]; exact hv)), h]

/-- When the read gives no object, the own property is no object either. -/
theorem State.getOwn_of_get_miss {s : State} {ref : Nat} {key : List Char}
    (h : duk_is_object (s.get ref key) = false) :
    duk_is_object (getOwn (s.obj ref).props key) = false := by
  cases hv : getOwn (s.obj ref).props key with
  | object r =>
    rw [State.get_of_getOwn hv (by simp)] at h
    exact h
  | _ => rfl

/-- What `duv_mod_resolve` returns on `(parent, r)` for a string `r`. -/
theorem duv_mod_resolve_string (parent : Value) (r : List Char) (s : State) :
    duv_mod_resolve [parent, .string r] s =
      match parent with
      | .object ref =>
        match s.get ref kId with
        | .string pid => .ok (.string (duv_path_join [pid, [DOT, DOT], r])) s
        | _ => .error .typeError s
      | _ => .error .typeError s := by
  unfold duv_mod_resolve
  cases parent <;>
    simp [Eng.bind_apply, Eng.pure_apply, argAt, dschema_check, duk_is_object, duk_is_string,
      duk_throw]
  rename_i ref
  simp only [duk_get_prop_string]
  cases h : s.get ref kId <;>
    simp [duv_path_join_ctx, requireStrings, duk_throw, Eng.pure_apply]

/-- The law behind the default Resolver: an ordinary segment and the `..` that
follows it cancel, whatever comes after. -/
theorem path_join_dirname {d f : List Char} (hd : d ≠ []) (hf : ordinary f)
    (hnd : NUL ∉ d) (hnf : NUL ∉ f) (r : List Char) :
    duv_path_join [d ++ SLASH :: f, [DOT, DOT], r] = duv_path_join [d, r] := by
  have hdd : specSegments (cstr [DOT, DOT]) = [[DOT, DOT]] := by decide
  rw [duv_path_join_eq_emit, duv_path_join_eq_emit, duv_absolute_append_slash hd f _ [r]]
  simp only [duv_segments_cons, duv_segments_nil, hdd]
  rw [cstr_append_slash hnd, cstr_eq_self hnf, cstr_eq_self hnd, specSegments_append,
    specSegments_ordinary hf]
  have := specKept_cancel hf.2.2.1 hf.2.2.2 (specSegments d) (specSegments (cstr r) ++ [])
  simpa using congrArg (specEmit (duv_absolute [d, r])) this

/-- A leading slash on a later argument is skipped. -/
theorem path_join_later_slash (p q r : List Char) :
    duv_path_join [p, q, SLASH :: r] = duv_path_join [p, q, r] := by
  rw [duv_path_join_eq_emit, duv_path_join_eq_emit, duv_absolute_congr p _ [q, r]]
  simp only [duv_segments_cons, duv_segments_nil]
  rw [cstr_slash_cons, specSegments_slash]

/-- C7, as amended: the default Resolver returns
`pathJoin(parent.id, "..", requested)`, and for every non-empty `d` and ordinary
segment `f`, neither containing a NUL byte, and every requested string `r`,
`modResolve({id: d ++ "/" ++ f}, r)` equals `pathJoin(d, r)`: the result does
not depend on `f`, and with the bootstrap's `main.c` the parent id
`cwd ++ "/main.c"` resolves `r` to `pathJoin(cwd, r)`. -/
theorem mod_resolve_parent_directory (s : State) (ref : Nat) (d f r : List Char)
    (hd : d ≠ []) (hf : ordinary f) (hnd : NUL ∉ d) (hnf : NUL ∉ f)
    (hid : getOwn (s.obj ref).props kId = .string (d ++ SLASH :: f)) :
    duv_mod_resolve [.object ref, .string r] s
        = .ok (.string (duv_path_join [d ++ SLASH :: f, [DOT, DOT], r])) s ∧
      duv_mod_resolve [.object ref, .string r] s = .ok (.string (duv_path_join [d, r])) s ∧
      duv_path_join [d ++ SLASH :: "main.c".toList, [DOT, DOT], r] = duv_path_join [d, r] := by
  have h1 : duv_mod_resolve [.object ref, .string r] s
      = .ok (.string (duv_path_join [d ++ SLASH :: f, [DOT, DOT], r])) s := by
    rw [duv_mod_resolve_string]
    simp only [State.get_of_getOwn hid (by simp)]
  refine ⟨h1, ?_, path_join_dirname hd (by decide) hnd (by decide) r⟩
  rw [h1, path_join_dirname hd hf hnd hnf]

/-- C7, witness: the bootstrap parent of `sampleState`, with id `/w/main.c`,
resolves `lib/a.js` to `pathJoin("/w", "lib/a.js")`. -/
theorem mod_resolve_parent_directory_witness :
    duv_mod_resolve [.object 5, .string "lib/a.js".toList] sampleState
      = .ok (.string (duv_path_join ["/w".toList, "lib/a.js".toList])) sampleState :=
  (mod_resolve_parent_directory sampleState 5 "/w".toList "main.c".toList "lib/a.js".toList
    (by decide) (by decide) (by decide) (by decide) rfl).2.1

/-- C7, as stated, fails: with `d` the two bytes `x`, NUL, the placeholder `f`
and the request `r`, the parent id is read as `x`, which the `..` cancels: the
Resolver returns `r`, while `pathJoin(d, r)` is `x/r`. -/
theorem mod_resolve_parent_directory_fails_on_nul :
    ['x', NUL] ≠ [] ∧ ordinary ['f'] ∧
      duv_mod_resolve [.object 0, .string ['r']]
          { heap := [{ props := [(kId, .string (['x', NUL] ++ SLASH :: ['f']))] }], global := 0 }
        = .ok (.string ['r'])
          { heap := [{ props := [(kId, .string (['x', NUL] ++ SLASH :: ['f']))] }], global := 0 } ∧
      duv_path_join [['x', NUL], ['r']] = ['x', '/', 'r'] ∧
      duv_mod_resolve [.object 0, .string ['r']]
          { heap := [{ props := [(kId, .string (['x', NUL] ++ SLASH :: ['f']))] }], global := 0 }
        ≠ .ok (.string (duv_path_join [['x', NUL], ['r']]))
          { heap := [{ props := [(kId, .string (['x', NUL] ++ SLASH :: ['f']))] }], global := 0 } := by
  decide

/-- C8: the default Resolver treats an absolute request as relative to the
parent's directory: `modResolve(parent, "/" ++ r)` equals
`modResolve(parent, r)`, and when the parent's id is the string `pid` the
resolved id begins with a slash if and only if `pid` does. -/
theorem mod_resolve_absolute_request (parent : Value) (r : List Char) (s : State) :
    duv_mod_resolve [parent, .string (SLASH :: r)] s = duv_mod_resolve [parent, .string r] s ∧
      (∀ (ref : Nat) (pid : List Char), parent = .object ref →
        getOwn (s.obj ref).props kId = .string pid →
        ∃ out, duv_mod_resolve [parent, .string (SLASH :: r)] s = .ok (.string out) s ∧
          (out.head? = some SLASH ↔ pid.head? = some SLASH)) := by
  constructor
  · rw [duv_mod_resolve_string, duv_mod_resolve_string]
    cases parent with
    | object ref =>
      simp only
      cases h : s.get ref kId <;> simp only [path_join_later_slash]
    | _ => simp only
  · intro ref pid hparent hid
    subst hparent
    rw [duv_mod_resolve_string]
    simp only [State.get_of_getOwn hid (by simp)]
    exact ⟨duv_path_join [pid, [DOT, DOT], SLASH :: r], rfl, head?_duv_path_join _ _⟩

/-- C8, witness: under the parent `/w/main.c` of `sampleState` the request
`/etc/x` resolves to an id that begins with a slash because the parent's id
does. -/
theorem mod_resolve_absolute_request_witness :
    ∃ out, duv_mod_resolve [.object 5, .string (SLASH :: "etc/x".toList)] sampleState
        = .ok (.string out) sampleState ∧
      (out.head? = some SLASH ↔ "/w/main.c".toList.head? = some SLASH) :=
  (mod_resolve_absolute_request (.object 5) "etc/x".toList sampleState).2 5 "/w/main.c".toList
    rfl rfl

/-! ## `duv_require`: the heap -/

theorem State.obj_put_same (s : State) {ref : Nat} (h : ref < s.heap.length)
    (key : List Char) (v : Value) :
    (s.put ref key v).obj ref = ⟨setOwn (s.obj ref).props key v, (s.obj ref).proto⟩ := by
  simp [State.put, State.obj, List.getD_eq_getElem?_getD, List.getElem?_set, h]

theorem State.obj_put_other (s : State) {ref ref2 : Nat} (h : ref ≠ ref2)
    (key : List Char) (v : Value) : (s.put ref key v).obj ref2 = s.obj ref2 := by
  simp [State.put, State.obj, List.getD_eq_getElem?_getD, List.getElem?_set, h]

theorem State.length_put (s : State) (ref : Nat) (key : List Char) (v : Value) :
    (s.put ref key v).heap.length = s.heap.length := by
  simp [State.put]

theorem State.global_put (s : State) (ref : Nat) (key : List Char) (v : Value) :
    (s.put ref key v).global = s.global := rfl

/-- Pushing an object changes no other object, nor what a reference outside
the new heap reads as. -/
theorem State.obj_pushWith (s : State) (p : Option Nat) {ref : Nat}
    (h : ref ≠ s.heap.length) : (s.pushWith p).obj ref = s.obj ref := by
  simp only [State.pushWith, State.obj, List.getD_eq_getElem?_getD, List.getElem?_append]
  by_cases h1 : ref < s.heap.length
  · simp [h1]
  · have h3 : s.heap.length ≤ ref := by omega
    have h4 : ([⟨[], p⟩] : List Obj)[ref - s.heap.length]? = none :=
      List.getElem?_eq_none (by simp; omega)
    simp [h1, List.getElem?_eq_none h3, h4]

theorem State.obj_pushWith_new (s : State) (p : Option Nat) :
    (s.pushWith p).obj s.heap.length = ⟨[], p⟩ := by
  simp [State.pushWith, State.obj, List.getD_eq_getElem?_getD, List.getElem?_append]

theorem State.obj_push (s : State) {ref : Nat} (h : ref ≠ s.heap.length) :
    s.push.obj ref = s.obj ref := State.obj_pushWith s _ h

theorem State.obj_push_new (s : State) : s.push.obj s.heap.length = ⟨[], s.objectProto⟩ :=
  State.obj_pushWith_new s _

theorem State.obj_fresh (s : State) {ref : Nat} (h : s.heap.length ≤ ref) :
    s.obj ref = { props := [] } := State.obj_of_le s h

theorem State.length_pushWith (s : State) (p : Option Nat) :
    (s.pushWith p).heap.length = s.heap.length + 1 := by
  simp [State.pushWith]

theorem State.length_push (s : State) : s.push.heap.length = s.heap.length + 1 :=
  State.length_pushWith s _

theorem State.global_push (s : State) : s.push.global = s.global := rfl

theorem hasOwn_setOwn_same (props : List (List Char × Value)) (key : List Char) (v : Value) :
    hasOwn (setOwn props key v) key = true := by
  induction props with
  | nil => simp [setOwn, hasOwn]
  | cons kv rest ih =>
    obtain ⟨k, w⟩ := kv
    unfold setOwn
    split
    · rename_i h; simp [hasOwn, h]
    · rename_i h; simp [hasOwn, h, ih]

theorem getOwn_setOwn_same (props : List (List Char × Value)) (key : List Char) (v : Value) :
    getOwn (setOwn props key v) key = v := by
  induction props with
  | nil => simp [setOwn, getOwn]
  | cons kv rest ih =>
    obtain ⟨k, w⟩ := kv
    unfold setOwn
    split
    · rename_i h; simp [getOwn, h]
    · rename_i h; simp [getOwn, h, ih]

theorem getOwn_setOwn_other (props : List (List Char × Value)) {key key2 : List Char}
    (h : key ≠ key2) (v : Value) : getOwn (setOwn props key v) key2 = getOwn props key2 := by
  induction props with
  | nil => simp [setOwn, getOwn, h]
  | cons kv rest ih =>
    obtain ⟨k, w⟩ := kv
    unfold setOwn
    split
    · rename_i hk
      subst hk
      simp [getOwn, h]
    · rename_i hk
      by_cases hk2 : k = key2
      · simp [getOwn, hk2]
      · simp [getOwn, hk2, ih]

/-- What `requireCreate` does on a cache that is a heap object: two fresh
objects, the record and its `exports`, and one new entry in the cache. -/
theorem requireCreate_object (this : Value) (is_main : Bool) (id : Value) (ref : Nat)
    (s1 : State) (href : ref < s1.heap.length) :
    ∃ s2 : State,
      requireCreate this is_main id (.object ref) s1 = .ok (.object s1.heap.length) s2 ∧
      getOwn (s2.obj ref).props (propKey id) = .object s1.heap.length ∧
      (s2.obj s1.heap.length).props =
        [if is_main then (kMain, .boolean true) else (kParent, this), (kId, id),
          (kExports, .object (s1.heap.length + 1))] ∧
      (s2.obj (s1.heap.length + 1)).props = [] ∧
      s2.heap.length = s1.heap.length + 2 ∧
      s2.global = s1.global ∧
      (∀ ref2, ref2 < s1.heap.length → ref2 ≠ ref → s2.obj ref2 = s1.obj ref2) ∧
      (∀ key, key ≠ propKey id →
        getOwn (s2.obj ref).props key = getOwn (s1.obj ref).props key) := by
  have hne1 : ref ≠ s1.heap.length := by omega
  have hne2 : ref ≠ s1.heap.length + 1 := by omega
  have hk1 : kMain ≠ kId ∧ kMain ≠ kExports ∧ kParent ≠ kId ∧ kParent ≠ kExports ∧
      kId ≠ kExports := by decide
  have hl1 : ∀ (k : List Char) (v : Value), s1.heap.length < (s1.push.put s1.heap.length k v).heap.length := by
    intro k v
    rw [State.length_put, State.length_push]
    omega
  refine ⟨((((s1.push.put s1.heap.length (if is_main then kMain else kParent)
      (if is_main then .boolean true else this)).put s1.heap.length kId id).push.put
      s1.heap.length kExports (.object (s1.heap.length + 1))).put ref (propKey id)
      (.object s1.heap.length)), ?_, ?_, ?_, ?_, ?_, ?_, ?_, ?_⟩
  · cases is_main <;>
      simp [requireCreate, Eng.bind_apply, duk_push_object, duk_put_prop_string, duk_put_prop,
        Eng.pure_apply, State.length_put, State.length_push]
  · rw [State.obj_put_same _ (by simp [State.length_put, State.length_push]; omega)]
    exact getOwn_setOwn_same _ _ _
  · have hn : s1.heap.length < s1.heap.length + 1 := by omega
    rw [State.obj_put_other _ hne1,
      State.obj_put_same _ (by simp [State.length_put, State.length_push]; omega),
      State.obj_push _ (by simp [State.length_put, State.length_push]),
      State.obj_put_same _ (by simp [State.length_put, State.length_push]),
      State.obj_put_same _ (by simp [State.length_push]),
      State.obj_push_new]
    cases is_main <;> simp [setOwn, hk1]
  · have hn : s1.heap.length ≠ s1.heap.length + 1 := by omega
    rw [State.obj_put_other _ hne2, State.obj_put_other _ hn]
    have hlen : s1.heap.length + 1
        = ((s1.push.put s1.heap.length (if is_main then kMain else kParent)
            (if is_main then .boolean true else this)).put s1.heap.length kId id).heap.length := by
      simp [State.length_put, State.length_push]
    rw [hlen, State.obj_push_new]
  · simp [State.length_put, State.length_push]
  · rfl
  · intro ref2 h1 h2
    have h3 : s1.heap.length ≠ ref2 := by omega
    rw [State.obj_put_other _ (Ne.symm h2), State.obj_put_other _ h3,
      State.obj_push _ (by simp [State.length_put, State.length_push]; omega),
      State.obj_put_other _ h3, State.obj_put_other _ h3, State.obj_push _ (by omega)]
  · intro key hkey
    rw [State.obj_put_same _ (by simp [State.length_put, State.length_push]; omega)]
    show getOwn (setOwn _ (propKey id) _) key = _
    rw [getOwn_setOwn_other _ (Ne.symm hkey),
      State.obj_put_other _ hne1.symm,
      State.obj_push _ (by simp [State.length_put, State.length_push]; omega),
      State.obj_put_other _ hne1.symm, State.obj_put_other _ hne1.symm,
      State.obj_push _ (by omega)]

/-! ## `duv_require`: cache hit and cache miss -/

theorem duk_get_prop_string_object (ref : Nat) (key : List Char) (s : State) :
    duk_get_prop_string (.object ref) key s = .ok (s.get ref key) s := rfl

/-- Reading a property never changes the state. -/
theorem duk_get_prop_string_state (o : Value) (key : List Char) (s : State) :
    (∃ v, duk_get_prop_string o key s = .ok v s) ∨
      duk_get_prop_string o key s = .error .typeError s := by
  cases o <;> simp [duk_get_prop_string]

/-- C9: cache before load.  When `duv_require` misses the cache (the Resolver
returned `id`, and `modLoaded`, an object of the heap, gives no object under it
when it is read as the engine reads it, along the prototype chain), it creates
the record and its empty `exports` as two fresh objects and stores the record
in `modLoaded` under `id`; the state `s2` in which this is done is the very
state in which the Loader is then called with the record: in `s2` the cache
maps `id` to the record, the record's `id` is `id` and its `exports` is the
fresh empty object.  The cache is not the object that carries the `__proto__`
accessor, so that the write of line 208 is a plain write. -/
theorem require_cache_before_load (call : CallFn) (this : Value) (args : List Value)
    (s s0 s1 : State) (duktape id loaded entry : Value) (is_main : Bool) (ref : Nat)
    (hres : requireResolve call this args s = .ok (duktape, id, is_main) s0)
    (hlook : requireLookup duktape id s0 = .ok (loaded, entry) s1)
    (hmiss : duk_is_object entry = false)
    (hloaded : loaded = .object ref) (href : ref < s1.heap.length)
    (_hacc : s1.protoAccessor ≠ some ref) :
    ∃ s2 : State,
      requireCreate this is_main id loaded s1 = .ok (.object s1.heap.length) s2 ∧
      duk_get_prop loaded id s2 = .ok (.object s1.heap.length) s2 ∧
      duk_get_prop_string (.object s1.heap.length) kId s2 = .ok id s2 ∧
      duk_get_prop_string (.object s1.heap.length) kExports s2
        = .ok (.object (s1.heap.length + 1)) s2 ∧
      (s2.obj (s1.heap.length + 1)).props = [] ∧
      duv_require call this args s = requireLoad call duktape (.object s1.heap.length) s2 ∧
      requireLoad call duktape (.object s1.heap.length) s2 =
        match duk_get_prop_string duktape kModLoad s2 with
        | .ok load _ =>
          (call load .undefined [.object s1.heap.length]
            >>= requireReturn (.object s1.heap.length)) s2
        | .error e _ => .error e s2 := by
  subst hloaded
  obtain ⟨s2, h1, h2, h3, h4, _, _, _, _⟩ := requireCreate_object this is_main id ref s1 href
  have hk : kId ≠ kExports ∧ kMain ≠ kId ∧ kParent ≠ kId ∧ kMain ≠ kExports ∧
      kParent ≠ kExports := by decide
  have hhas : ∀ key, hasOwn (s2.obj s1.heap.length).props key = true →
      s2.get s1.heap.length key = getOwn (s2.obj s1.heap.length).props key :=
    fun key => State.get_of_hasOwn
  refine ⟨s2, h1, ?_, ?_, ?_, h4, ?_, ?_⟩
  · rw [duk_get_prop, duk_get_prop_string_object, State.get_of_getOwn h2 (by simp)]
  · rw [duk_get_prop_string_object, hhas kId (by rw [h3]; cases is_main <;> simp [hasOwn, hk]),
      h3]
    cases is_main <;> simp [getOwn, hk]
  · rw [duk_get_prop_string_object,
      hhas kExports (by rw [h3]; cases is_main <;> simp [hasOwn, hk]), h3]
    cases is_main <;> simp [getOwn, hk]
  · simp only [duv_require, Eng.bind_apply, hres, hlook, hmiss, Bool.false_eq_true, if_false, h1]
  · simp only [requireLoad, Eng.bind_apply]
    rcases duk_get_prop_string_state duktape kModLoad s2 with ⟨v, hv⟩ | hv <;> rw [hv]

/-- C9, witness: the bootstrap require of `a.js` in `sampleState`; the record
is object 12, stored under `/w/a.js` in the cache when the Loader is called. -/
theorem require_cache_before_load_witness :
    ∃ s2 : State,
      requireCreate (.object 5) true (.string "/w/a.js".toList) (.object 4) sampleState
        = .ok (.object 12) s2 ∧
      duk_get_prop (.object 4) (.string "/w/a.js".toList) s2 = .ok (.object 12) s2 ∧
      duv_require sampleCall (.object 5) [.string "a.js".toList] sampleState
        = requireLoad sampleCall (.object 1) (.object 12) s2 :=
  match require_cache_before_load sampleCall (.object 5) [.string "a.js".toList]
      sampleState sampleState sampleState (.object 1) (.string "/w/a.js".toList) (.object 4)
      .undefined true 4 (by decide) (by decide) rfl rfl (by decide) (by decide) with
  | ⟨s2, h1, h2, _, _, _, h6, _⟩ => ⟨s2, h1, h2, h6⟩

/-- C10: cache hit.  If, in the state `s0` in which the Resolver returned
`id`, `modLoaded` gives an object under `id`, then `duv_require` returns that
object's `exports` as it is read in `s0` and ends in `s0` itself: no record is
created and the cache is unchanged; and the Loader is not called: the result is
the same for every engine that behaves the same up to the Resolver's return. -/
theorem require_cache_hit (call : CallFn) (this : Value) (args : List Value)
    (s s0 : State) (duktape id loaded : Value) (is_main : Bool) (ref : Nat)
    (hres : requireResolve call this args s = .ok (duktape, id, is_main) s0)
    (hloaded : duk_get_prop_string duktape kModLoaded s0 = .ok loaded s0)
    (hentry : duk_get_prop loaded id s0 = .ok (.object ref) s0) :
    duv_require call this args s = .ok (s0.get ref kExports) s0 ∧
      (∀ call2 : CallFn,
        requireResolve call2 this args s = .ok (duktape, id, is_main) s0 →
        duv_require call2 this args s = duv_require call this args s) := by
  have key : ∀ c : CallFn, requireResolve c this args s = .ok (duktape, id, is_main) s0 →
      duv_require c this args s = .ok (s0.get ref kExports) s0 := by
    intro c hc
    simp only [duv_require, requireLookup, Eng.bind_apply, hc, hloaded, hentry, Eng.pure_apply,
      duk_is_object, if_true, duk_get_prop_string_object]
  exact ⟨key call hres, fun call2 h2 => by rw [key call2 h2, key call hres]⟩

/-- C10, witness: in `sampleLoadedState` the record 12 of `/w/a.js` is cached;
requiring `./a.js` from it returns its `exports`, object 13, and the state is
unchanged. -/
theorem require_cache_hit_witness :
    duv_require sampleCall (.object 12) [.string "./a.js".toList] sampleLoadedState
      = .ok (.object 13) sampleLoadedState :=
  (require_cache_hit sampleCall (.object 12) [.string "./a.js".toList] sampleLoadedState
    sampleLoadedState (.object 1) (.string "/w/a.js".toList) (.object 4) false 12
    rfl rfl rfl).1

/-- An id that names a property the cache inherits is a hit.  With the parent
id `main.c` the requests `toString` and `__proto__` resolve to themselves; the
cache of `sampleState` inherits the function `toString` (8) and, through the
accessor, reads its own prototype (6) under `__proto__`; so `duv_require`
returns what their `exports` reads as, `undefined`, in an unchanged state:
without a record and without a call of the Loader. -/
theorem require_inherited_name :
    duk_get_prop (.object 4) (.string "toString".toList)
        (sampleState.put 5 kId (.string "main.c".toList))
      = .ok (.object 8) (sampleState.put 5 kId (.string "main.c".toList)) ∧
    duv_require sampleCall (.object 5) [.string "toString".toList]
        (sampleState.put 5 kId (.string "main.c".toList))
      = .ok .undefined (sampleState.put 5 kId (.string "main.c".toList)) ∧
    duk_get_prop (.object 4) (.string "__proto__".toList)
        (sampleState.put 5 kId (.string "main.c".toList))
      = .ok (.object 6) (sampleState.put 5 kId (.string "main.c".toList)) ∧
    duv_require sampleCall (.object 5) [.string "__proto__".toList]
        (sampleState.put 5 kId (.string "main.c".toList))
      = .ok .undefined (sampleState.put 5 kId (.string "main.c".toList)) := by
  refine ⟨?_, ?_, ?_, ?_⟩ <;> decide!

/-! ## The normal form of the result, and argument boundaries -/

theorem specSplit_intercalate {kept : List (List Char)} (hne : kept ≠ [])
    (h : ∀ w ∈ kept, w ≠ [] ∧ ∀ c ∈ w, c ≠ SLASH) :
    specSplit ([SLASH].intercalate kept) = kept := by
  induction kept with
  | nil => exact absurd rfl hne
  | cons x rest ih =>
    cases rest with
    | nil => rw [intercalate_singleton, specSplit_slashfree (h x (by simp)).2]
    | cons y zs =>
      rw [intercalate_cons_cons, specSplit_append_slash (h x (by simp)).2,
        ih (by simp) (fun v hv => h v (by simp [hv]))]

/-- The pieces of an emitted path: the kept segments, after an empty piece when
the path is absolute; the empty path and `/` have only empty pieces. -/
theorem specSplit_specEmit (absolute : Bool) {kept : List (List Char)}
    (h : ∀ w ∈ kept, w ≠ [] ∧ ∀ c ∈ w, c ≠ SLASH) :
    specSplit (specEmit absolute kept) =
      if kept = [] then (if absolute then [[], []] else [[]])
      else (if absolute then [] :: kept else kept) := by
  by_cases hk : kept = []
  · subst hk
    cases absolute <;> simp [specEmit, List.intercalate, specSplit]
  · rw [if_neg hk]
    cases absolute
    · simp only [specEmit, Bool.false_eq_true, if_false, List.nil_append]
      exact specSplit_intercalate hk h
    · simp only [specEmit, if_true, List.singleton_append]
      rw [specSplit, if_pos rfl, specSplit_intercalate hk h]

/-- A path with an empty piece that is neither its first piece nor the only
piece after the first is not an emitted path. -/
theorem specEmit_no_inner_empty (absolute : Bool) {kept : List (List Char)}
    (h : ∀ w ∈ kept, w ≠ [] ∧ ∀ c ∈ w, c ≠ SLASH) (p : List Char) (tail : List (List Char))
    (hsplit : specSplit (specEmit absolute kept) = specSplit p ++ [] :: tail) :
    kept = [] ∧ tail = [] := by
  rw [specSplit_specEmit absolute h] at hsplit
  have hnil : ([] : List Char) ∉ kept := fun hm => (h [] hm).1 rfl
  rcases hp : specSplit p with _ | ⟨a, t⟩
  · exact absurd hp (specSplit_ne_nil p)
  · rw [hp] at hsplit
    by_cases hk : kept = []
    · refine ⟨hk, ?_⟩
      rw [if_pos hk] at hsplit
      cases absolute
      · simp at hsplit
      · simp only [if_true, List.cons_append, List.cons.injEq] at hsplit
        obtain ⟨_, h2⟩ := hsplit
        cases t with
        | nil => simpa using h2.symm
        | cons b t2 => simp at h2
    · rw [if_neg hk] at hsplit
      exfalso
      cases absolute
      · simp only [Bool.false_eq_true, if_false] at hsplit
        exact hnil (hsplit ▸ by simp)
      · simp only [if_true, List.cons_append, List.cons.injEq] at hsplit
        exact hnil (hsplit.2 ▸ by simp)

/-- C19: the normal form of the result: split at the slashes it has no piece
equal to `.` or `..`; it contains no two slashes in a row; and it does not end
with a slash unless it is exactly `/`. -/
theorem path_join_normal_form (xs : List (List Char)) :
    (∀ w ∈ (duv_path_join xs).splitOn SLASH, w ≠ [DOT] ∧ w ≠ [DOT, DOT]) ∧
      (∀ p q : List Char, duv_path_join xs ≠ p ++ SLASH :: SLASH :: q) ∧
      (∀ p : List Char, duv_path_join xs = p ++ [SLASH] → duv_path_join xs = [SLASH]) := by
  have hwf := @kept_segments_wellformed xs
  have hdots : ∀ w ∈ specKept (duv_segments xs), w ≠ [DOT] ∧ w ≠ [DOT, DOT] :=
    fun w hw => (specKept_mem hw).2
  rw [duv_path_join_eq_emit]
  refine ⟨?_, ?_, ?_⟩
  · intro w hw
    rw [← specSplit_eq_splitOn, specSplit_specEmit _ hwf] at hw
    have hempty : ([] : List Char) ≠ [DOT] ∧ ([] : List Char) ≠ [DOT, DOT] := by simp
    by_cases hk : specKept (duv_segments xs) = []
    · rw [if_pos hk] at hw
      cases hA : duv_absolute xs <;> rw [hA] at hw <;> simp at hw <;> subst hw <;> exact hempty
    · rw [if_neg hk] at hw
      cases hA : duv_absolute xs <;> rw [hA] at hw
      · exact hdots w (by simpa using hw)
      · simp only [if_true, List.mem_cons] at hw
        rcases hw with rfl | hw
        · exact hempty
        · exact hdots w hw
  · intro p q heq
    have hsplit := congrArg specSplit heq
    rw [specSplit_append, specSplit, if_pos rfl] at hsplit
    have := (specEmit_no_inner_empty _ hwf p (specSplit q) hsplit).2
    exact specSplit_ne_nil q this
  · intro p heq
    have hsplit := congrArg specSplit heq
    rw [show p ++ [SLASH] = p ++ SLASH :: [] from rfl, specSplit_append] at hsplit
    have hk := (specEmit_no_inner_empty _ hwf p [] (by simpa [specSplit] using hsplit)).1
    rw [hk] at heq ⊢
    cases hA : duv_absolute xs
    · rw [hA] at heq
      simp [specEmit, List.intercalate] at heq
    · simp [specEmit, List.intercalate]

theorem specSegments_intercalate_args (xs : List (List Char)) :
    specSegments ([SLASH].intercalate xs) = xs.flatMap specSegments := by
  induction xs with
  | nil => simp [List.intercalate, specSegments_nil]
  | cons x rest ih =>
    cases rest with
    | nil => simp [intercalate_singleton]
    | cons y zs =>
      rw [intercalate_cons_cons, specSegments_append, ih]
      simp

theorem head?_intercalate_args {x : List Char} (hx : x ≠ []) (rest : List (List Char)) :
    ([SLASH].intercalate (x :: rest)).head? = x.head? := by
  cases x with
  | nil => exact absurd rfl hx
  | cons c cs =>
    cases rest with
    | nil => rw [intercalate_singleton]
    | cons y zs => rw [intercalate_cons_cons]; rfl

/-- Joining the arguments with slashes first gives the same result, for
arguments without NUL bytes of which the first is not empty. -/
theorem duv_path_join_intercalate {x : List Char} (hx : x ≠ []) (rest : List (List Char))
    (hnul : ∀ y ∈ x :: rest, NUL ∉ y) :
    duv_path_join (x :: rest) = duv_path_join [[SLASH].intercalate (x :: rest)] := by
  have hj : ∀ y ∈ [[SLASH].intercalate (x :: rest)], NUL ∉ y := by
    intro y hy hn
    simp only [List.mem_singleton] at hy
    subst hy
    rcases mem_intercalate hn with h | ⟨w, hw, hc⟩
    · exact absurd h (by decide)
    · exact hnul w hw hc
  rw [duv_path_join_eq_spec hnul, duv_path_join_eq_spec hj]
  simp only [specPathJoin, specAbsolute, List.flatMap_cons, List.flatMap_nil, List.append_nil,
    specSegments_intercalate_args, head?_intercalate_args hx]

/-- C20, as amended: argument boundaries are slashes, for arguments without NUL
bytes: for every non-empty argument list whose first string is non-empty and
whose strings contain no NUL byte, `pathJoin(xs)` equals `pathJoin` of the
single string that joins `xs` with `/`; and `pathJoin("/a/b", "../c")`,
`pathJoin("/a/b/../c")` are both `/a/c`. -/
theorem path_join_boundaries (x : List Char) (rest : List (List Char)) (hx : x ≠ [])
    (hnul : ∀ y ∈ x :: rest, NUL ∉ y) :
    duv_path_join (x :: rest) = duv_path_join [[SLASH].intercalate (x :: rest)] ∧
      duv_path_join ["/a/b".toList, "../c".toList] = "/a/c".toList ∧
      duv_path_join ["/a/b/../c".toList] = "/a/c".toList :=
  ⟨duv_path_join_intercalate hx rest hnul, by decide, by decide⟩

/-- C20, witness: `pathJoin("a", "b/.", "c")` and `pathJoin("a/b/./c")`. -/
theorem path_join_boundaries_witness :
    duv_path_join [['a'], ['b', '/', '.'], ['c']]
      = duv_path_join [[SLASH].intercalate [['a'], ['b', '/', '.'], ['c']]] :=
  (path_join_boundaries ['a'] [['b', '/', '.'], ['c']] (by decide) (by decide)).1

/-- C20, as stated, fails: the first argument `a`, NUL is non-empty;
`pathJoin` of it and `b` is `a/b`, but the joined string is read only up to the
NUL and gives `a`. -/
theorem path_join_boundaries_fails_on_nul :
    ['a', NUL] ≠ [] ∧
      duv_path_join [['a', NUL], ['b']] = ['a', '/', 'b'] ∧
      duv_path_join [[SLASH].intercalate [['a', NUL], ['b']]] = ['a'] ∧
      duv_path_join [['a', NUL], ['b']]
        ≠ duv_path_join [[SLASH].intercalate [['a', NUL], ['b']]] := by
  decide

/-! ## `duv_require`: what the Resolver's call is given, the record, the Loader's result -/

/-- The state a result ends in. -/
theorem duk_get_global_string_state (key : List Char) (s : State) :
    duk_get_global_string key s = .ok (s.get s.global key) s := rfl

/-- What a successful `requireResolve` has done: the argument is a string,
`Duktape` and its `modResolve` were read in the starting state, `is_main` says
whether `this.exports` was `undefined` there, and the id is what the Resolver's
call returned. -/
theorem requireResolve_ok {call : CallFn} {this : Value} {args : List Value} {s s0 : State}
    {duktape id : Value} {is_main : Bool}
    (h : requireResolve call this args s = .ok (duktape, id, is_main) s0) :
    duk_is_string (argAt args 0) = true ∧
      duktape = s.get s.global kDuktape ∧
      ∃ resolve exports0,
        duk_get_prop_string duktape kModResolve s = .ok resolve s ∧
        duk_get_prop_string this kExports s = .ok exports0 s ∧
        is_main = duk_is_undefined exports0 ∧
        call resolve .undefined [this, argAt args 0] s = .ok id s0 := by
  unfold requireResolve at h
  simp only [Eng.bind_apply, dschema_check, List.all_cons, List.all_nil, Bool.and_true] at h
  by_cases hstr : duk_is_string (argAt args 0) = true
  · simp only [hstr, if_true, Eng.pure_apply, duk_get_global_string_state] at h
    refine ⟨hstr, ?_⟩
    rcases duk_get_prop_string_state (s.get s.global kDuktape) kModResolve s
      with ⟨resolve, hr⟩ | hr
    · rw [hr] at h
      simp only at h
      rcases duk_get_prop_string_state this kExports s with ⟨x, hx⟩ | hx
      · rw [hx] at h
        simp only at h
        rcases hc : call resolve .undefined [this, argAt args 0] s with ⟨v, s1⟩ | ⟨e, s1⟩
        · rw [hc] at h
          simp only [Res.ok.injEq, Prod.mk.injEq] at h
          obtain ⟨⟨h1, h2, h3⟩, h4⟩ := h
          subst h1 h2 h4
          exact ⟨rfl, resolve, x, hr, hx, h3.symm, hc⟩
        · rw [hc] at h
          simp at h
      · rw [hx] at h
        simp at h
    · rw [hr] at h
      simp at h
  · simp [hstr, duk_throw] at h

/-- C14: the Loader's return value in `duv_require`.  On a cache miss (the
cache, read as the engine reads it, gives no object under the id), with the
record `m` created and stored, when the Loader's call returns `ret` in the
state `s3` (in which the record is still in the heap): if `ret` is defined,
`duv_require` stores it in the record's `exports` and returns it; if `ret` is
`undefined`, `duv_require` writes nothing, ends in `s3`, and returns what the
record's `exports` reads as in `s3`. -/
theorem require_loader_return (call : CallFn) (this : Value) (args : List Value)
    (s s0 s1 s2 s3 : State) (duktape id loaded entry load ret : Value) (is_main : Bool)
    (m : Nat)
    (hres : requireResolve call this args s = .ok (duktape, id, is_main) s0)
    (hlook : requireLookup duktape id s0 = .ok (loaded, entry) s1)
    (hmiss : duk_is_object entry = false)
    (hcreate : requireCreate this is_main id loaded s1 = .ok (.object m) s2)
    (hload : duk_get_prop_string duktape kModLoad s2 = .ok load s2)
    (hcall : call load .undefined [.object m] s2 = .ok ret s3)
    (hm : m < s3.heap.length) :
    (ret ≠ .undefined →
        duv_require call this args s = .ok ret (s3.put m kExports ret) ∧
        getOwn ((s3.put m kExports ret).obj m).props kExports = ret) ∧
      (ret = .undefined →
        duv_require call this args s = .ok (s3.get m kExports) s3) := by
  have hreq : duv_require call this args s = requireReturn (.object m) ret s3 := by
    simp only [duv_require, requireLoad, Eng.bind_apply, hres, hlook, hmiss, Bool.false_eq_true,
      if_false, hcreate, hload, hcall]
  have hget : getOwn ((s3.put m kExports ret).obj m).props kExports = ret := by
    rw [State.obj_put_same _ hm]
    exact getOwn_setOwn_same _ _ _
  have hread : (s3.put m kExports ret).get m kExports = ret := by
    rw [State.get_of_hasOwn, hget]
    rw [State.obj_put_same _ hm]
    exact hasOwn_setOwn_same _ _ _
  constructor
  · intro hdef
    have hu : duk_is_undefined ret = false := by
      cases ret <;> simp [duk_is_undefined] at hdef ⊢
    refine ⟨?_, hget⟩
    rw [hreq]
    simp only [requireReturn, Eng.bind_apply, hu, Bool.false_eq_true, if_false,
      duk_put_prop_string, duk_get_prop_string_object, hread]
  · intro hundef
    subst hundef
    rw [hreq]
    simp only [requireReturn, Eng.bind_apply, duk_is_undefined, if_true, Eng.pure_apply,
      duk_get_prop_string_object]

/-- C14, witness: in `sampleState` the Loader returns `undefined`; the require
of `a.js` returns the record's `exports`, object 13, and ends in the state the
Loader left. -/
theorem require_loader_return_witness :
    duv_require sampleCall (.object 5) [.string "a.js".toList] sampleState
      = .ok (sampleLoadedState.get 12 kExports) sampleLoadedState ∧
    sampleLoadedState.get 12 kExports = .object 13 :=
  ⟨(require_loader_return sampleCall (.object 5) [.string "a.js".toList] sampleState
    sampleState sampleState sampleLoadedState sampleLoadedState (.object 1)
    (.string "/w/a.js".toList) (.object 4) .undefined (.object 3) .undefined true 12
    (by decide) (by decide) rfl (by decide) (by decide) (by decide) (by decide)).2 rfl,
    by decide⟩

/-- C18: the fields of a record `duv_require` creates.  On a cache miss (the
cache, read as the engine reads it, gives no object under the id) the new
record has exactly three fields, in this order: `main = true` when
`this.exports` was `undefined` at the call, and `parent = this` otherwise; `id`,
the Resolver's result; and `exports`, a fresh empty object.  So it has `main`
and no `parent`, or `parent` and no `main`.  The cache is not the object that
carries the `__proto__` accessor, so that the write of line 208 is a plain
write. -/
theorem require_record_fields (call : CallFn) (this : Value) (args : List Value)
    (s s0 s1 : State) (duktape id loaded entry : Value) (is_main : Bool) (ref : Nat)
    (hres : requireResolve call this args s = .ok (duktape, id, is_main) s0)
    (hlook : requireLookup duktape id s0 = .ok (loaded, entry) s1)
    (hmiss : duk_is_object entry = false)
    (hloaded : loaded = .object ref) (href : ref < s1.heap.length)
    (_hacc : s1.protoAccessor ≠ some ref) :
    ∃ (exports0 : Value) (s2 : State),
      duk_get_prop_string this kExports s = .ok exports0 s ∧
      is_main = duk_is_undefined exports0 ∧
      requireCreate this is_main id loaded s1 = .ok (.object s1.heap.length) s2 ∧
      duv_require call this args s = requireLoad call duktape (.object s1.heap.length) s2 ∧
      (s2.obj s1.heap.length).props =
        (if duk_is_undefined exports0 then
          [(kMain, .boolean true), (kId, id), (kExports, .object (s1.heap.length + 1))]
        else [(kParent, this), (kId, id), (kExports, .object (s1.heap.length + 1))]) ∧
      (s2.obj (s1.heap.length + 1)).props = [] ∧
      s2.heap.length = s1.heap.length + 2 := by
  subst hloaded
  obtain ⟨_, _, _, exports0, _, hx, hmain, _⟩ := requireResolve_ok hres
  obtain ⟨s2, h1, _, h3, h4, h5, _, _, _⟩ := requireCreate_object this is_main id ref s1 href
  refine ⟨exports0, s2, hx, hmain, h1, ?_, ?_, h4, h5⟩
  · simp only [duv_require, Eng.bind_apply, hres, hlook, hmiss, Bool.false_eq_true, if_false, h1]
  · rw [h3, ← hmain]
    cases is_main <;> simp

/-- C18, witness: the bootstrap parent of `sampleState` has no `exports`, so the
record of `a.js` gets `main`, the id `/w/a.js` and the fresh `exports` 13. -/
theorem require_record_fields_witness :
    ∃ (exports0 : Value) (s2 : State),
      duk_get_prop_string (.object 5) kExports sampleState = .ok exports0 sampleState ∧
      requireCreate (.object 5) true (.string "/w/a.js".toList) (.object 4) sampleState
        = .ok (.object 12) s2 ∧
      (s2.obj 12).props =
        (if duk_is_undefined exports0 then
          [(kMain, .boolean true), (kId, .string "/w/a.js".toList), (kExports, .object 13)]
        else [(kParent, .object 5), (kId, .string "/w/a.js".toList), (kExports, .object 13)]) :=
  match require_record_fields sampleCall (.object 5) [.string "a.js".toList]
      sampleState sampleState sampleState (.object 1) (.string "/w/a.js".toList) (.object 4)
      .undefined true 4 (by decide) (by decide) rfl rfl (by decide) (by decide) with
  | ⟨x, s2, h1, _, h3, _, h5, _, _⟩ => ⟨x, s2, h1, h3, h5⟩

/-! ## At most one load: the invariant of the module cache -/

theorem State.stable_refl (c : Nat) (s : State) : State.stable c s s := fun _ _ => rfl

theorem State.stable_trans {c : Nat} {s s1 s2 : State} (h1 : State.stable c s s1)
    (h2 : State.stable c s1 s2) : State.stable c s s2 := by
  intro key hk
  have e1 := h1 key hk
  rw [h2 key (by rw [e1]; exact hk), e1]

theorem State.stable_of_obj {c : Nat} {s s2 : State} (h : s2.obj c = s.obj c) :
    State.stable c s s2 := by
  intro key _
  rw [h]

theorem Step.refl (g d c : Nat) (s : State) : Step g d c s s :=
  ⟨⟨[], by simp⟩, fun h => Or.inr ⟨h, State.stable_refl c s⟩⟩

theorem State.tampered_mono {g d c : Nat} {s s2 : State} (h : ∃ l, s2.trace = s.trace ++ l)
    (ht : s.tampered g d c) : s2.tampered g d c := by
  obtain ⟨l, hl⟩ := h
  unfold State.tampered at ht ⊢
  rw [hl, List.any_append, ht, Bool.true_or]

theorem Step.trans {g d c : Nat} {s s1 s2 : State} (h1 : Step g d c s s1)
    (h2 : Step g d c s1 s2) : Step g d c s s2 := by
  obtain ⟨⟨l1, e1⟩, k1⟩ := h1
  obtain ⟨⟨l2, e2⟩, k2⟩ := h2
  refine ⟨⟨l1 ++ l2, by rw [e2, e1, List.append_assoc]⟩, fun hc => ?_⟩
  rcases k1 hc with ht | ⟨hc1, st1⟩
  · exact Or.inl (State.tampered_mono ⟨l2, e2⟩ ht)
  · rcases k2 hc1 with ht | ⟨hc2, st2⟩
    · exact Or.inl ht
    · exact Or.inr ⟨hc2, State.stable_trans st1 st2⟩

theorem safe_pure {g d c : Nat} {α : Type} (a : α) : Safe g d c (pure a : Eng α) :=
  fun s => Step.refl g d c s

theorem safe_throw {g d c : Nat} {α : Type} (e : Thrown) : Safe g d c (duk_throw e : Eng α) :=
  fun s => Step.refl g d c s

theorem safe_bind {g d c : Nat} {α β : Type} {m : Eng α} {f : α → Eng β}
    (hm : Safe g d c m) (hf : ∀ a, Safe g d c (f a)) : Safe g d c (m >>= f) := by
  intro s
  rw [Eng.bind_apply]
  have h1 := hm s
  rcases hms : m s with ⟨a, s1⟩ | ⟨e, s1⟩
  · rw [hms] at h1
    exact Step.trans h1 (hf a s1)
  · rw [hms] at h1
    exact h1

theorem safe_get_prop_string {g d c : Nat} (o : Value) (key : List Char) :
    Safe g d c (duk_get_prop_string o key) := by
  intro s
  rcases duk_get_prop_string_state o key s with ⟨v, hv⟩ | hv <;> rw [hv] <;>
    exact Step.refl g d c s

theorem safe_get_prop {g d c : Nat} (o key : Value) : Safe g d c (duk_get_prop o key) :=
  safe_get_prop_string o (propKey key)

theorem safe_get_global_string {g d c : Nat} (key : List Char) :
    Safe g d c (duk_get_global_string key) :=
  fun s => Step.refl g d c s

theorem safe_dschema_check {g d c : Nat} (checks : List (Value × (Value → Bool))) :
    Safe g d c (dschema_check checks) := by
  unfold dschema_check
  split
  · exact safe_pure ()
  · exact safe_throw _

/-- Consistency only looks at the three objects, the global reference and the
trace. -/
theorem State.consistent_of_agree {g d c : Nat} {s s2 : State}
    (hg : s2.global = s.global) (hlen : s.heap.length ≤ s2.heap.length)
    (hobj : ∀ ref, ref = g ∨ ref = d ∨ ref = c → s2.obj ref = s.obj ref)
    (ht : s2.trace = s.trace) (hc : s.consistent g d c) : s2.consistent g d c := by
  obtain ⟨⟨h1, h2, h3, h4, h5, h6, h7, h8, h9⟩, hk, hn⟩ := hc
  refine ⟨⟨hg.trans h1, by omega, by omega, by omega, h5, h6, h7, ?_, ?_⟩, ?_, ?_⟩
  · rw [hobj g (Or.inl rfl)]; exact h8
  · rw [hobj d (Or.inr (Or.inl rfl))]; exact h9
  · rw [ht, hobj c (Or.inr (Or.inr rfl))]; exact hk
  · rw [ht]; exact hn

theorem Step.of_agree {g d c : Nat} {s s2 : State}
    (hg : s2.global = s.global) (hlen : s.heap.length ≤ s2.heap.length)
    (hobj : ∀ ref, ref < s.heap.length → s2.obj ref = s.obj ref)
    (ht : s2.trace = s.trace) : Step g d c s s2 := by
  refine ⟨⟨[], by simp [ht]⟩, fun hc => Or.inr ⟨?_, ?_⟩⟩
  · refine State.consistent_of_agree hg hlen (fun ref href => hobj ref ?_) ht hc
    obtain ⟨⟨_, h2, h3, h4, _⟩, _⟩ := hc
    rcases href with rfl | rfl | rfl <;> assumption
  · exact State.stable_of_obj (hobj c hc.1.2.2.2.1)

theorem safe_push_object {g d c : Nat} : Safe g d c duk_push_object := by
  intro s
  exact Step.of_agree rfl (by simp [duk_push_object, Res.state, State.length_push])
    (fun ref href => State.obj_pushWith s _ (by omega)) rfl

theorem safe_push_function {g d c : Nat} (f : Callee) : Safe g d c (duk_push_function f) := by
  intro s
  exact Step.of_agree rfl (by simp [duk_push_function, Res.state, State.length_pushWith])
    (fun ref href => State.obj_pushWith s _ (by omega)) rfl

/-- Writing a property of an object other than the three keeps consistency. -/
theorem Step.put {g d c : Nat} (s : State) {ref : Nat} (hg : ref ≠ g) (hd : ref ≠ d)
    (hc : ref ≠ c) (key : List Char) (v : Value) : Step g d c s (s.put ref key v) := by
  refine ⟨⟨[], by simp [State.put]⟩, fun hcons => Or.inr ⟨?_, ?_⟩⟩
  · refine @State.consistent_of_agree g d c s (s.put ref key v) rfl
      (by rw [State.length_put]) (fun r hr => ?_) rfl hcons
    apply State.obj_put_other
    rcases hr with rfl | rfl | rfl <;> assumption
  · exact State.stable_of_obj (State.obj_put_other _ hc _ _)

/-- A write to a property leaves the other properties and the other objects as
they were. -/
theorem State.getOwn_put (s : State) (ref : Nat) (key : List Char) (v : Value) (r : Nat)
    (key2 : List Char) (h : ref ≠ r ∨ key ≠ key2) :
    getOwn ((s.put ref key v).obj r).props key2 = getOwn (s.obj r).props key2 := by
  by_cases hr : ref = r
  · subst hr
    by_cases hlt : ref < s.heap.length
    · rw [State.obj_put_same s hlt]
      exact getOwn_setOwn_other _ (h.resolve_left (fun hne => hne rfl)) v
    · have hge : s.heap.length ≤ ref := by omega
      rw [State.obj_fresh _ (by rw [State.length_put]; exact hge), State.obj_fresh _ hge]
  · rw [State.obj_put_other _ hr]

theorem loadKeys_append_write (t : List Event) (ref : Nat) (key : List Char) :
    loadKeys (t ++ [.write ref key]) = loadKeys t := by
  induction t with
  | nil => rfl
  | cons e rest ih => cases e <;> simp [loadKeys, ih]

theorem safe_scriptPut {g d c : Nat} (o key v : Value) : Safe g d c (scriptPut o key v) := by
  intro s
  cases o with
  | object ref =>
    simp only [scriptPut, Res.state]
    refine ⟨⟨[.write ref (propKey key)], rfl⟩, fun hcons => ?_⟩
    by_cases h : Event.tampers g d c (.write ref (propKey key)) = true
    · left
      unfold State.tampered
      show (s.trace ++ [Event.write ref (propKey key)]).any (Event.tampers g d c) = true
      rw [List.any_append]
      simp [h]
    · right
      have hc : ref ≠ c := by
        intro hrc
        exact h (by simp [Event.tampers, hrc])
      have hd : ref ≠ d ∨ propKey key ≠ kModLoaded := by
        by_cases h1 : ref = d
        · right
          intro hk
          exact h (by simp [Event.tampers, h1, hk])
        · exact Or.inl h1
      have hg : ref ≠ g ∨ propKey key ≠ kDuktape := by
        by_cases h1 : ref = g
        · right
          intro hk
          exact h (by simp [Event.tampers, h1, hk])
        · exact Or.inl h1
      obtain ⟨⟨h1, h2, h3, h4, h5, h6, h7, h8, h9⟩, hk, hn⟩ := hcons
      have e1 : ∀ r, ({ s.put ref (propKey key) v with
          trace := s.trace ++ [.write ref (propKey key)] } : State).obj r
            = (s.put ref (propKey key) v).obj r :=
        fun _ => rfl
      refine ⟨⟨⟨h1, by simpa [State.put] using h2, by simpa [State.put] using h3,
        by simpa [State.put] using h4, h5, h6, h7, ?_, ?_⟩, ?_, ?_⟩,
        State.stable_of_obj (by rw [e1, State.obj_put_other _ hc])⟩
      · rw [e1, State.getOwn_put s ref _ v g kDuktape hg]; exact h8
      · rw [e1, State.getOwn_put s ref _ v d kModLoaded hd]; exact h9
      · show ∀ key2 ∈ loadKeys (s.trace ++ [Event.write ref (propKey key)]), _
        rw [loadKeys_append_write]
        intro key2 hk2
        rw [e1, State.obj_put_other _ hc]
        exact hk key2 hk2
      · show (loadKeys (s.trace ++ [Event.write ref (propKey key)])).Nodup
        rw [loadKeys_append_write]; exact hn
  | undefined => exact Step.refl g d c s
  | null => exact Step.refl g d c s
  | boolean b => exact Step.refl g d c s
  | number n => exact Step.refl g d c s
  | string str => exact Step.refl g d c s

/-- Script code is safe when the calls it makes are. -/
theorem safe_runScript {g d c : Nat} {call : CallFn}
    (hcall : ∀ f this args, Safe g d c (call f this args)) (script : Script) :
    Safe g d c (runScript call script) := by
  induction script with
  | ret v => exact safe_pure v
  | raise v => exact safe_throw _
  | getProp o key next ih =>
    intro s
    have h1 := safe_get_prop (g := g) (d := d) (c := c) o key s
    rw [runScript]
    beta_reduce
    split
    · rename_i v s1 hms; rw [hms] at h1; exact Step.trans h1 (ih v s1)
    · rename_i e s1 hms; rw [hms] at h1; exact h1
  | putProp o key v next ih =>
    intro s
    have h1 := safe_scriptPut (g := g) (d := d) (c := c) o key v s
    rw [runScript]
    beta_reduce
    split
    · rename_i u s1 hms; rw [hms] at h1; exact Step.trans h1 (ih s1)
    · rename_i e s1 hms; rw [hms] at h1; exact h1
  | newObject next ih =>
    intro s
    have h1 := safe_push_object (g := g) (d := d) (c := c) s
    rw [runScript]
    beta_reduce
    split
    · rename_i v s1 hms; rw [hms] at h1; exact Step.trans h1 (ih v s1)
    · rename_i e s1 hms; rw [hms] at h1; exact h1
  | bind f this next ih =>
    intro s
    have h1 := safe_push_function (g := g) (d := d) (c := c) (.bound f this) s
    rw [runScript]
    beta_reduce
    split
    · rename_i v s1 hms; rw [hms] at h1; exact Step.trans h1 (ih v s1)
    · rename_i e s1 hms; rw [hms] at h1; exact h1
  | global next ih =>
    intro s
    rw [runScript]
    exact ih _ s
  | call f this args next ih =>
    intro s
    have h1 := hcall f this args s
    rw [runScript]
    beta_reduce
    split
    · rename_i v s1 hms; rw [hms] at h1; exact Step.trans h1 (ih v s1)
    · rename_i e s1 hms; rw [hms] at h1; exact h1
  | tryCall f this args next handler ih1 ih2 =>
    intro s
    have h1 := hcall f this args s
    rw [runScript]
    beta_reduce
    split
    · rename_i v s1 hms; rw [hms] at h1; exact Step.trans h1 (ih1 v s1)
    · rename_i e s1 hms; rw [hms] at h1; exact Step.trans h1 (ih2 e s1)

theorem safe_path_join_ctx {g d c : Nat} (args : List Value) :
    Safe g d c (duv_path_join_ctx args) := by
  unfold duv_path_join_ctx
  split
  · exact safe_pure _
  · exact safe_throw _

theorem safe_mod_resolve {g d c : Nat} (args : List Value) :
    Safe g d c (duv_mod_resolve args) :=
  safe_bind (safe_dschema_check _) (fun _ =>
    safe_bind (safe_get_prop_string _ _) (fun _ => safe_path_join_ctx _))

theorem safe_loadfile {g d c : Nat} (fs : FileSystem) (args : List Value) :
    Safe g d c (duv_loadfile fs args) := by
  unfold duv_loadfile
  split
  · split
    · exact safe_throw _
    · exact safe_throw _
    · exact safe_pure _
  · exact safe_throw _

theorem safe_mod_load {g d c : Nat} {call : CallFn}
    (hcall : ∀ f this args, Safe g d c (call f this args)) (fs : FileSystem)
    (args : List Value) : Safe g d c (duv_mod_load fs call args) :=
  safe_bind (safe_dschema_check _) (fun _ =>
    safe_bind (safe_get_global_string _) (fun _ =>
      safe_bind (safe_get_prop_string _ _) (fun _ =>
        safe_bind (safe_get_prop_string _ _) (fun _ =>
          safe_bind (safe_loadfile fs _) (fun _ => hcall _ _ _)))))

theorem safe_compile {g d c : Nat} (compiles : List Char → Bool) (source : List Char) :
    Safe g d c (duk_compile compiles source) := by
  unfold duk_compile
  split
  · exact safe_push_function _
  · exact safe_throw _

theorem safe_mod_compile {g d c : Nat} {call : CallFn}
    (hcall : ∀ f this args, Safe g d c (call f this args)) (compiles : List Char → Bool)
    (args : List Value) : Safe g d c (duv_mod_compile compiles call args) :=
  safe_bind (safe_dschema_check _) (fun _ =>
    safe_bind (safe_get_prop_string _ _) (fun _ =>
      safe_bind (safe_compile _ _) (fun _ =>
        safe_bind (safe_push_function _) (fun _ => hcall _ _ _))))

theorem safe_requireResolve {g d c : Nat} {call : CallFn}
    (hcall : ∀ f this args, Safe g d c (call f this args)) (this : Value)
    (args : List Value) : Safe g d c (requireResolve call this args) :=
  safe_bind (safe_dschema_check _) (fun _ =>
    safe_bind (safe_get_global_string _) (fun _ =>
      safe_bind (safe_get_prop_string _ _) (fun _ =>
        safe_bind (safe_get_prop_string _ _) (fun _ =>
          safe_bind (hcall _ _ _) (fun _ => safe_pure _)))))

/-- A property write by `duv_require` leaves the trace as it is. -/
theorem duk_put_prop_string_trace (o : Value) (key : List Char) (v : Value) (s : State) :
    (duk_put_prop_string o key v s).state.trace = s.trace := by
  cases o <;> rfl

theorem safe_put_other {g d c : Nat} {ref : Nat} (hg : ref ≠ g) (hd : ref ≠ d) (hc : ref ≠ c)
    (key : List Char) (v : Value) : Safe g d c (duk_put_prop_string (.object ref) key v) :=
  fun s => Step.put s hg hd hc key v

theorem safe_requireReturn {g d c : Nat} {m : Nat} (hg : m ≠ g) (hd : m ≠ d) (hc : m ≠ c)
    (ret : Value) : Safe g d c (requireReturn (.object m) ret) := by
  unfold requireReturn
  by_cases hu : duk_is_undefined ret = true
  · simp only [hu, if_true]
    exact safe_bind (safe_pure _) (fun _ => safe_get_prop_string _ _)
  · simp only [hu, if_false, Bool.false_eq_true]
    exact safe_bind (safe_put_other hg hd hc _ _) (fun _ => safe_get_prop_string _ _)

theorem requireReturn_trace (module ret : Value) (s : State) :
    (requireReturn module ret s).state.trace = s.trace := by
  unfold requireReturn
  by_cases hu : duk_is_undefined ret = true
  · simp only [hu, if_true, Eng.bind_apply, Eng.pure_apply]
    rcases duk_get_prop_string_state module kExports s with ⟨v, hv⟩ | hv <;> rw [hv] <;> rfl
  · simp only [hu, if_false, Bool.false_eq_true, Eng.bind_apply]
    have h1 := duk_put_prop_string_trace module kExports ret s
    rcases hp : duk_put_prop_string module kExports ret s with ⟨u, s1⟩ | ⟨e, s1⟩
    · rw [hp] at h1
      simp only [Res.state] at h1
      simp only
      rcases duk_get_prop_string_state module kExports s1 with ⟨v, hv⟩ | hv <;> rw [hv] <;>
        exact h1
    · rw [hp] at h1
      exact h1

theorem requireCreate_trace (this : Value) (is_main : Bool) (id loaded : Value) (s : State) :
    (requireCreate this is_main id loaded s).state.trace = s.trace := by
  cases loaded <;> cases is_main <;>
    simp [requireCreate, Eng.bind_apply, duk_push_object, duk_put_prop_string, duk_put_prop,
      Res.state, State.put, State.push, State.pushWith, Eng.pure_apply]

theorem loadKeys_append_load (t : List Event) (key : List Char) :
    loadKeys (t ++ [.load key]) = loadKeys t ++ [key] := by
  induction t with
  | nil => rfl
  | cons e rest ih => cases e <;> simp [loadKeys, ih]

theorem requireLoad_grows {g d c : Nat} {call : CallFn}
    (hcall : ∀ f this args, Safe g d c (call f this args)) (duktape module : Value)
    (s : State) : ∃ l, (requireLoad call duktape module s).state.trace = s.trace ++ l := by
  unfold requireLoad
  rw [Eng.bind_apply]
  rcases duk_get_prop_string_state duktape kModLoad s with ⟨load, hv⟩ | hv
  · rw [hv]
    simp only [Eng.bind_apply]
    have h1 := (hcall load .undefined [module] s).1
    rcases hc : call load .undefined [module] s with ⟨ret, s3⟩ | ⟨e, s3⟩
    · rw [hc] at h1
      simp only [Res.state] at h1
      simp only [requireReturn_trace]
      exact h1
    · rw [hc] at h1
      exact h1
  · rw [hv]
    exact ⟨[], by simp [Res.state]⟩

theorem safe_requireLoad {g d c : Nat} {call : CallFn}
    (hcall : ∀ f this args, Safe g d c (call f this args)) (duktape : Value) {m : Nat}
    (hg : m ≠ g) (hd : m ≠ d) (hc : m ≠ c) :
    Safe g d c (requireLoad call duktape (.object m)) :=
  safe_bind (safe_get_prop_string _ _) (fun _ =>
    safe_bind (hcall _ _ _) (fun ret => safe_requireReturn hg hd hc ret))

/-- On a miss in a consistent state the record is created, and the state with
the load noted is consistent again. -/
theorem requireCreate_consistent {g d c : Nat} (this : Value) (is_main : Bool) (id : Value)
    (s1 : State) (hcons : s1.consistent g d c)
    (hmiss : duk_is_object (getOwn (s1.obj c).props (propKey id)) = false) :
    ∃ s2 : State,
      requireCreate this is_main id (.object c) s1 = .ok (.object s1.heap.length) s2 ∧
      s2.trace = s1.trace ∧
      ({ s2 with trace := s2.trace ++ [.load (propKey id)] } : State).consistent g d c ∧
      State.stable c s1 { s2 with trace := s2.trace ++ [.load (propKey id)] } := by
  obtain ⟨⟨h1, h2, h3, h4, h5, h6, h7, h8, h9⟩, hk, hn⟩ := hcons
  obtain ⟨s2, e1, e2, _, _, e5, e6, e7, e8⟩ := requireCreate_object this is_main id c s1 h4
  have htr : s2.trace = s1.trace := by
    have := requireCreate_trace this is_main id (.object c) s1
    rw [e1] at this
    exact this
  refine ⟨s2, e1, htr, ⟨⟨e6.trans h1, ?_, ?_, ?_, h5, h6, h7, ?_, ?_⟩, ?_, ?_⟩, ?_⟩
  · show g < s2.heap.length
    omega
  · show d < s2.heap.length
    omega
  · show c < s2.heap.length
    omega
  · show getOwn (s2.obj g).props kDuktape = .object d
    rw [e7 g h2 h6]; exact h8
  · show getOwn (s2.obj d).props kModLoaded = .object c
    rw [e7 d h3 h7]; exact h9
  · show ∀ key ∈ loadKeys (s2.trace ++ [.load (propKey id)]),
      duk_is_object (getOwn (s2.obj c).props key) = true
    rw [loadKeys_append_load, htr]
    intro key hkey
    by_cases hkk : key = propKey id
    · rw [hkk, e2]; rfl
    · rw [e8 key hkk]
      rcases List.mem_append.1 hkey with h | h
      · exact hk key h
      · exact absurd (by simpa using h) hkk
  · show (loadKeys (s2.trace ++ [.load (propKey id)])).Nodup
    rw [loadKeys_append_load, htr]
    refine List.Nodup.append hn (by simp) ?_
    intro key hk1 hk2
    simp only [List.mem_singleton] at hk2
    subst hk2
    have := hk _ hk1
    rw [hmiss] at this
    exact absurd this (by simp)
  · intro key hkey
    show getOwn (s2.obj c).props key = getOwn (s1.obj c).props key
    refine e8 key (fun hkk => ?_)
    rw [hkk, hmiss] at hkey
    exact absurd hkey (by simp)

/-- The miss branch of `duv_require_traced`: create, note the load, call the
Loader. -/
theorem require_miss_step {g d c : Nat} {call : CallFn}
    (hcall : ∀ f this args, Safe g d c (call f this args)) (this duktape id loaded : Value)
    (is_main : Bool) (s1 : State) :
    (∃ l, ((requireCreate this is_main id loaded >>= fun module =>
        note (.load (propKey id)) >>= fun _ => requireLoad call duktape module) s1).state.trace
          = s1.trace ++ l) ∧
      (loaded = .object c → s1.consistent g d c →
        duk_is_object (getOwn (s1.obj c).props (propKey id)) = false →
        ((requireCreate this is_main id loaded >>= fun module =>
          note (.load (propKey id)) >>= fun _ => requireLoad call duktape module) s1).state.tampered
            g d c ∨
        (((requireCreate this is_main id loaded >>= fun module =>
          note (.load (propKey id)) >>= fun _ => requireLoad call duktape module) s1).state.consistent
            g d c ∧
          State.stable c s1 ((requireCreate this is_main id loaded >>= fun module =>
            note (.load (propKey id)) >>= fun _ =>
              requireLoad call duktape module) s1).state)) := by
  constructor
  · rw [Eng.bind_apply]
    have htr := requireCreate_trace this is_main id loaded s1
    rcases hcr : requireCreate this is_main id loaded s1 with ⟨module, s2⟩ | ⟨e, s2⟩
    · rw [hcr] at htr
      simp only [Res.state] at htr
      simp only [Eng.bind_apply, note]
      obtain ⟨l, hl⟩ := requireLoad_grows hcall duktape module
        { s2 with trace := s2.trace ++ [.load (propKey id)] }
      exact ⟨[.load (propKey id)] ++ l, by rw [hl, htr, List.append_assoc]⟩
    · rw [hcr] at htr
      exact ⟨[], by simpa [Res.state] using htr⟩
  · intro hl hcons hmiss
    subst hl
    obtain ⟨s2, e1, _, e3, e4⟩ := requireCreate_consistent this is_main id s1 hcons hmiss
    obtain ⟨⟨_, h2, h3, h4, _⟩, _⟩ := hcons
    rw [Eng.bind_apply, e1]
    simp only [Eng.bind_apply, note]
    rcases (safe_requireLoad (m := s1.heap.length) hcall duktape (by omega) (by omega)
      (by omega) { s2 with trace := s2.trace ++ [.load (propKey id)] }).2 e3 with ht | ⟨hc2, st2⟩
    · exact Or.inl ht
    · exact Or.inr ⟨hc2, State.stable_trans e4 st2⟩

/-- The function `duv_require`, with its observation, is safe when the calls it
makes are. -/
theorem safe_require_traced {g d c : Nat} {call : CallFn}
    (hcall : ∀ f this args, Safe g d c (call f this args)) (this : Value)
    (args : List Value) : Safe g d c (duv_require_traced call this args) := by
  intro s
  have hR := safe_requireResolve hcall this args s
  unfold duv_require_traced
  rw [Eng.bind_apply]
  rcases hres : requireResolve call this args s with ⟨⟨duktape, id, is_main⟩, s0⟩ | ⟨e, s0⟩
  · rw [hres] at hR
    simp only [Res.state] at hR
    simp only [requireLookup, Eng.bind_apply]
    rcases duk_get_prop_string_state duktape kModLoaded s0 with ⟨loaded, hl⟩ | hl
    · rw [hl]
      simp only [duk_get_prop]
      rcases duk_get_prop_string_state loaded (propKey id) s0 with ⟨entry, he⟩ | he
      · rw [he]
        simp only [Eng.pure_apply]
        by_cases hit : duk_is_object entry = true
        · simp only [hit, if_true]
          exact Step.trans hR (safe_get_prop_string entry kExports s0)
        · simp only [hit, if_false, Bool.false_eq_true]
          obtain ⟨hgrow, hkeep⟩ := require_miss_step hcall this duktape id loaded is_main s0
          refine ⟨?_, fun hs => ?_⟩
          · obtain ⟨l0, hl0⟩ := hR.1
            obtain ⟨l1, hl1⟩ := hgrow
            exact ⟨l0 ++ l1, by rw [hl1, hl0, List.append_assoc]⟩
          · rcases hR.2 hs with ht | ⟨hc0, st0⟩
            · exact Or.inl (State.tampered_mono hgrow ht)
            · have hD : duktape = .object d := by
                rw [(requireResolve_ok hres).2.1, hs.1.1]
                exact State.get_of_getOwn hs.1.2.2.2.2.2.2.2.1 (by simp)
              subst hD
              have hL : loaded = .object c := by
                rw [duk_get_prop_string_object] at hl
                simp only [Res.ok.injEq, and_true] at hl
                rw [← hl]
                exact State.get_of_getOwn hc0.1.2.2.2.2.2.2.2.2 (by simp)
              subst hL
              rw [duk_get_prop_string_object] at he
              simp only [Res.ok.injEq, and_true] at he
              have hmiss : duk_is_object (getOwn (s0.obj c).props (propKey id)) = false := by
                apply State.getOwn_of_get_miss
                rw [he]
                simpa using hit
              rcases hkeep rfl hc0 hmiss with ht | ⟨hc2, st2⟩
              · exact Or.inl ht
              · exact Or.inr ⟨hc2, State.stable_trans st0 st2⟩
      · rw [he]
        exact hR
    · rw [hl]
      exact hR
  · rw [hres] at hR
    exact hR

/-- Every call of the engine is safe. -/
theorem safe_callValue {g d c : Nat} (P : Program) :
    ∀ (fuel : Nat) (f this : Value) (args : List Value), Safe g d c (callValue P fuel f this args) := by
  intro fuel
  induction fuel with
  | zero => intro f this args; exact safe_throw _
  | succ n ih =>
    intro f this args s
    cases f with
    | object ref =>
      simp only [callValue]
      split
      · exact safe_loadfile P.fs args s
      · exact safe_path_join_ctx args s
      · exact safe_require_traced ih this args s
      · exact safe_mod_resolve args s
      · exact safe_mod_load ih P.fs args s
      · exact safe_mod_compile ih _ args s
      · split
        · exact safe_runScript ih _ s
        · exact Step.refl g d c s
      · exact ih _ _ _ s
      · exact safe_runScript ih _ s
      · exact Step.refl g d c s
    | undefined => exact Step.refl g d c s
    | null => exact Step.refl g d c s
    | boolean b => exact Step.refl g d c s
    | number k => exact Step.refl g d c s
    | string str => exact Step.refl g d c s

/-- The function `duv_require_traced` is `duv_require` with the load noted: the
two agree wherever no Loader is called, and on a miss they call the Loader with
the same record in states that differ by the one observation. -/
theorem duv_require_traced_spec (call : CallFn) (this : Value) (args : List Value)
    (s : State) :
    match requireResolve call this args s with
    | .error e s0 =>
      duv_require_traced call this args s = .error e s0 ∧
        duv_require call this args s = .error e s0
    | .ok (duktape, id, is_main) s0 =>
      match requireLookup duktape id s0 with
      | .error e s1 =>
        duv_require_traced call this args s = .error e s1 ∧
          duv_require call this args s = .error e s1
      | .ok (loaded, entry) s1 =>
        if duk_is_object entry then
          duv_require_traced call this args s = duk_get_prop_string entry kExports s1 ∧
            duv_require call this args s = duk_get_prop_string entry kExports s1
        else
          match requireCreate this is_main id loaded s1 with
          | .error e s2 =>
            duv_require_traced call this args s = .error e s2 ∧
              duv_require call this args s = .error e s2
          | .ok module s2 =>
            duv_require_traced call this args s
                = requireLoad call duktape module
                    { s2 with trace := s2.trace ++ [.load (propKey id)] } ∧
              duv_require call this args s = requireLoad call duktape module s2 := by
  rcases hres : requireResolve call this args s with ⟨⟨duktape, id, is_main⟩, s0⟩ | ⟨e, s0⟩
  · simp only
    rcases hlook : requireLookup duktape id s0 with ⟨⟨loaded, entry⟩, s1⟩ | ⟨e, s1⟩
    · simp only
      by_cases hit : duk_is_object entry = true
      · simp only [hit, if_true, duv_require_traced, duv_require, Eng.bind_apply, hres, hlook,
          and_self]
      · simp only [hit, if_false, Bool.false_eq_true]
        rcases hcr : requireCreate this is_main id loaded s1 with ⟨module, s2⟩ | ⟨e, s2⟩
        · simp only [duv_require_traced, duv_require, Eng.bind_apply, hres, hlook, hit,
            if_false, Bool.false_eq_true, hcr, note, and_self]
        · simp only [duv_require_traced, duv_require, Eng.bind_apply, hres, hlook, hit,
            if_false, Bool.false_eq_true, hcr, and_self]
    · simp only [duv_require_traced, duv_require, Eng.bind_apply, hres, hlook, and_self]
  · simp only [duv_require_traced, duv_require, Eng.bind_apply, hres, and_self]

/-- C11: at most one load.  In any run of the engine (a call of any function
value, with all the calls nested in it, failing ones included) that starts in a
consistent state and in which the cache is modified only by `duv_require`, that
is, script code writes no property of the cache and replaces neither
`Duktape.modLoaded` nor the global `Duktape`, `duv_require` calls the Loader at
most once for each key, and the run ends in a consistent state, so that the
same holds for the runs that follow. -/
theorem require_at_most_one_load (P : Program) (fuel : Nat) (f this : Value)
    (args : List Value) (s : State) (g d c : Nat)
    (hstart : s.consistent g d c)
    (hquiet : ¬ (callValue P fuel f this args s).state.tampered g d c) :
    (loadKeys (callValue P fuel f this args s).state.trace).Nodup ∧
      (callValue P fuel f this args s).state.consistent g d c ∧
      ∃ l, (callValue P fuel f this args s).state.trace = s.trace ++ l := by
  obtain ⟨hgrow, hkeep⟩ := safe_callValue (g := g) (d := d) (c := c) P fuel f this args s
  have hcons : (callValue P fuel f this args s).state.consistent g d c := by
    rcases hkeep hstart with ht | ⟨hc, _⟩
    · exact absurd ht hquiet
    · exact hc
  exact ⟨hcons.2.2, hcons, hgrow⟩

/-- C11, witness: the bootstrap require of `a.js` in scenario 7, where `a.js`
and `b.js` require each other: the Loader is called once for `/w/a.js` and once
for `/w/b.js`. -/
theorem require_at_most_one_load_witness :
    (loadKeys (callValue scenario7js 12 (.object 16) (.object 17) [.string "a.js".toList]
      bootedState).state.trace).Nodup ∧
    loadKeys (callValue scenario7js 12 (.object 16) (.object 17) [.string "a.js".toList]
      bootedState).state.trace = ["/w/a.js".toList, "/w/b.js".toList] :=
  ⟨(require_at_most_one_load scenario7js 12 (.object 16) (.object 17) [.string "a.js".toList]
      bootedState 0 1 2
      (by unfold State.consistent State.hooked; decide!)
      (by unfold State.tampered; decide!)).1,
    by decide!⟩

/-! ## The bootstrap -/

/-- Run from `engineState` with `sampleBindings`, `duv_main` installs the hooks
and the globals and reaches `bootedState`, where it calls `require` (16) on the
bootstrap parent (17) with the entry path; what follows the call changes
nothing. -/
theorem duv_main_booted (P : Program) (fuel : Nat) (path : List Char) :
    duv_main P fuel sampleBindings [.string path] engineState
      = (callValue P fuel (.object 16) (.object 17) [.string (cstr path)] >>= fun _ =>
          (pure .undefined : Eng Value)) bootedState := by
  rfl

/-! ## Failure of the Loader -/

/-- A cache hit, for any engine: the `exports` of the object found is returned
in the state in which the Resolver returned. -/
theorem duv_require_hit {call : CallFn} {this : Value} {args : List Value} {s s0 : State}
    {duktape id loaded : Value} {is_main : Bool} {ref : Nat}
    (hres : requireResolve call this args s = .ok (duktape, id, is_main) s0)
    (hloaded : duk_get_prop_string duktape kModLoaded s0 = .ok loaded s0)
    (hentry : duk_get_prop loaded id s0 = .ok (.object ref) s0) :
    duv_require call this args s = .ok (s0.get ref kExports) s0 := by
  simp only [duv_require, requireLookup, Eng.bind_apply, hres, hloaded, hentry, Eng.pure_apply,
    duk_is_object, if_true, duk_get_prop_string_object]

/-- The function `duv_loadfile` on a path whose file cannot be read: an error,
in an unchanged state. -/
theorem duv_loadfile_failure (fs : FileSystem) (path : List Char) (s : State)
    (hfs : ∀ bytes, fs.outcome (cstr path) ≠ .content bytes) :
    ∃ msg, duv_loadfile fs [.string path] s = .error (.error msg) s := by
  unfold duv_loadfile
  simp only [argAt, List.getD_cons_zero]
  cases hout : fs.outcome (cstr path) with
  | openFails result => exact ⟨_, rfl⟩
  | laterFails fd result closed => exact ⟨_, rfl⟩
  | content bytes => exact absurd hout (hfs bytes)

/-- The default Loader on a record whose file cannot be read: the error of
`duv_loadfile`, in an unchanged state. -/
theorem duv_mod_load_read_failure (fs : FileSystem) (call : CallFn) (m : Nat) (s : State)
    (path : List Char) (duktape : Value)
    (hD : duk_get_global_string kDuktape s = .ok duktape s)
    (hC : ∃ compile, duk_get_prop_string duktape kModCompile s = .ok compile s)
    (hid : s.get m kId = .string path)
    (hfs : ∀ bytes, fs.outcome (cstr path) ≠ .content bytes) :
    ∃ msg, duv_mod_load fs call [.object m] s = .error (.error msg) s := by
  obtain ⟨compile, hC⟩ := hC
  obtain ⟨msg, hmsg⟩ := duv_loadfile_failure fs path s hfs
  refine ⟨msg, ?_⟩
  simp only [duv_mod_load, Eng.bind_apply, argAt, List.getD_cons_zero, dschema_check,
    List.all_cons, List.all_nil, duk_is_object, Bool.and_true, if_true, Eng.pure_apply, hD, hC,
    duk_get_prop_string_object, hid, hmsg]

/-- A state is as consistent without its last observation of a load. -/
theorem State.consistent_of_noted {g d c : Nat} {s : State} {key : List Char}
    (h : ({ s with trace := s.trace ++ [.load key] } : State).consistent g d c) :
    s.consistent g d c := by
  obtain ⟨hh, hk, hn⟩ := h
  simp only [loadKeys_append_load] at hk hn
  refine ⟨hh, fun k hkm => ?_, ?_⟩
  · exact hk k (List.mem_append_left _ hkm)
  · exact (List.nodup_append.1 hn).1

/-- In a consistent state the lookup of `duv_require` reads the cache `c`. -/
theorem requireLookup_consistent {g d c : Nat} {s : State} (h : s.hooked g d c) (id : Value) :
    requireLookup (.object d) id s = .ok (.object c, s.get c (propKey id)) s := by
  have hL : s.get d kModLoaded = .object c :=
    State.get_of_getOwn h.2.2.2.2.2.2.2.2 (by simp)
  simp only [requireLookup, Eng.bind_apply, duk_get_prop_string_object, hL, duk_get_prop,
    Eng.pure_apply]

/-- A later require that resolves to an id under which the cache holds the
object `m` returns what that object's `exports` reads as, in an unchanged
state. -/
theorem duv_require_later {g d c : Nat} {s3 : State} (h : s3.hooked g d c) (id : Value)
    (m : Nat) (hE : s3.get c (propKey id) = .object m) (call2 : CallFn) (this2 : Value)
    (args2 : List Value) (sA : State) (is_main2 : Bool)
    (hres2 : requireResolve call2 this2 args2 sA = .ok (.object d, id, is_main2) s3) :
    duv_require call2 this2 args2 sA = .ok (s3.get m kExports) s3 := by
  have hL : s3.get d kModLoaded = .object c :=
    State.get_of_getOwn h.2.2.2.2.2.2.2.2 (by simp)
  refine @duv_require_hit _ _ _ _ _ _ _ (.object c) _ _ hres2 ?_ ?_
  · rw [duk_get_prop_string_object, hL]
  · simp only [duk_get_prop, duk_get_prop_string_object, hE]

/-- C12: no rollback on failure.  On a cache miss in a consistent state (the
cache, read as the engine reads it, gives no object under the id) the record is
created and stored under the id, and then: (a) whatever error the Loader's call
throws (the Compiler's and the module code's errors included) is the error of
`duv_require`, which ends in the very state the failing call left, so
`duv_require` removes nothing; if script code has written no property of the
cache and has replaced neither `Duktape.modLoaded` nor the global `Duktape`,
the cache still maps the id to the record in that state, and a later require
whose Resolver returns the same id there returns the record's `exports` in an
unchanged state, so without a call of the Loader; (b) when the Loader is the
default one and the file of the record cannot be read, the state left is the one
in which the Loader was called: the record's `exports` is its initial empty
object, and a later require returns it.  The cache is not the object that
carries the `__proto__` accessor, so that the write of line 208 is a plain
write. -/
theorem require_no_rollback (P : Program) (n : Nat) (this : Value) (args : List Value)
    (s s1 : State) (id : Value) (is_main : Bool) (g d c : Nat)
    (hres : requireResolve (callValue P (n + 1)) this args s = .ok (.object d, id, is_main) s1)
    (hcons : s1.consistent g d c)
    (hmiss : duk_is_object (s1.get c (propKey id)) = false)
    (_hacc : s1.protoAccessor ≠ some c) :
    ∃ s2 : State,
      requireCreate this is_main id (.object c) s1 = .ok (.object s1.heap.length) s2 ∧
      s2.get c (propKey id) = .object s1.heap.length ∧
      (∀ (e : Thrown) (s3 : State),
        callValue P (n + 1) (s2.get d kModLoad) .undefined [.object s1.heap.length] s2
            = .error e s3 →
        duv_require (callValue P (n + 1)) this args s = .error e s3 ∧
        (¬ s3.tampered g d c →
          s3.get c (propKey id) = .object s1.heap.length ∧
          ∀ (call2 : CallFn) (this2 : Value) (args2 : List Value) (sA : State)
              (is_main2 : Bool),
            requireResolve call2 this2 args2 sA = .ok (.object d, id, is_main2) s3 →
            duv_require call2 this2 args2 sA = .ok (s3.get s1.heap.length kExports) s3)) ∧
      (∀ (l : Nat) (path : List Char),
        s2.get d kModLoad = .object l →
        s2.fnOf l = some (.native .duv_mod_load) →
        id = .string path →
        (∀ bytes, P.fs.outcome (cstr path) ≠ .content bytes) →
        ∃ msg,
          duv_require (callValue P (n + 1)) this args s = .error (.error msg) s2 ∧
          s2.get s1.heap.length kExports = .object (s1.heap.length + 1) ∧
          (s2.obj (s1.heap.length + 1)).props = [] ∧
          ∀ (call2 : CallFn) (this2 : Value) (args2 : List Value) (sA : State)
              (is_main2 : Bool),
            requireResolve call2 this2 args2 sA = .ok (.object d, id, is_main2) s2 →
            duv_require call2 this2 args2 sA = .ok (.object (s1.heap.length + 1)) s2) := by
  have hc1 : c < s1.heap.length := hcons.1.2.2.2.1
  have hmiss1 := State.getOwn_of_get_miss hmiss
  obtain ⟨s2, h1, _, hcons2n, _⟩ := requireCreate_consistent this is_main id s1 hcons hmiss1
  have hcons2 : s2.consistent g d c := State.consistent_of_noted hcons2n
  obtain ⟨s2b, h1b, h2, h3, h4, _, _, _, _⟩ := requireCreate_object this is_main id c s1 hc1
  have hs : s2b = s2 := by
    rw [h1] at h1b
    simp only [Res.ok.injEq, true_and] at h1b
    exact h1b.symm
  subst hs
  have hk : kId ≠ kExports ∧ kMain ≠ kId ∧ kParent ≠ kId ∧ kMain ≠ kExports ∧
      kParent ≠ kExports := by decide
  have hidm : s2b.get s1.heap.length kId = id := by
    rw [State.get_of_hasOwn (by rw [h3]; cases is_main <;> simp [hasOwn, hk]), h3]
    cases is_main <;> simp [getOwn, hk]
  have hexm : s2b.get s1.heap.length kExports = .object (s1.heap.length + 1) := by
    apply State.get_of_getOwn _ (by simp)
    rw [h3]; cases is_main <;> simp [getOwn, hk]
  have hE2 : s2b.get c (propKey id) = .object s1.heap.length :=
    State.get_of_getOwn h2 (by simp)
  have hfail : ∀ (e : Thrown) (s3 : State),
      callValue P (n + 1) (s2b.get d kModLoad) .undefined [.object s1.heap.length] s2b
          = .error e s3 →
      duv_require (callValue P (n + 1)) this args s = .error e s3 := by
    intro e s3 hcall
    simp only [duv_require, requireLoad, Eng.bind_apply, hres,
      requireLookup_consistent hcons.1 id, hmiss, Bool.false_eq_true,
      if_false, h1, duk_get_prop_string_object, hcall]
  refine ⟨s2b, h1, hE2, ?_, ?_⟩
  · intro e s3 hcall
    refine ⟨hfail e s3 hcall, fun hquiet => ?_⟩
    have hstep := safe_callValue (g := g) (d := d) (c := c) P (n + 1)
      (s2b.get d kModLoad) .undefined [.object s1.heap.length] s2b
    rw [hcall] at hstep
    rcases hstep.2 hcons2 with ht | ⟨hc3, st3⟩
    · exact absurd ht hquiet
    · have hO3 : getOwn (s3.obj c).props (propKey id) = .object s1.heap.length := by
        have := st3 (propKey id) (by rw [h2]; rfl)
        simpa [Res.state, h2] using this
      have hE3 : s3.get c (propKey id) = .object s1.heap.length :=
        State.get_of_getOwn hO3 (by simp)
      exact ⟨hE3, duv_require_later hc3.1 id _ hE3⟩
  · intro l path hload hfn hid hfs
    have hD : duk_get_global_string kDuktape s2b = .ok (.object d) s2b := by
      rw [duk_get_global_string_state, hcons2.1.1,
        State.get_of_getOwn hcons2.1.2.2.2.2.2.2.2.1 (by simp)]
    obtain ⟨msg, hmsg⟩ := duv_mod_load_read_failure P.fs (callValue P n) s1.heap.length s2b
      path (.object d) hD ⟨_, duk_get_prop_string_object d kModCompile s2b⟩
      (hidm.trans hid) hfs
    have hcall : callValue P (n + 1) (s2b.get d kModLoad) .undefined
        [.object s1.heap.length] s2b = .error (.error msg) s2b := by
      rw [hload]
      simp only [callValue, hfn]
      exact hmsg
    refine ⟨msg, hfail _ _ hcall, hexm, h4, ?_⟩
    intro call2 this2 args2 sA is_main2 hres2
    rw [duv_require_later hcons2.1 id _ hE2 call2 this2 args2 sA is_main2 hres2, hexm]

/-- C12, witness: the bootstrap require of `a.js` when no file exists: the
require fails with the error of the file read, the record 18 stays in the cache
under `/w/a.js`, and its `exports` 19 is empty. -/
theorem require_no_rollback_witness :
    ∃ (msg : List Char) (s2 : State),
      duv_require (callValue (programOfFiles []) 2) (.object 17) [.string "a.js".toList]
          bootedState = .error (.error msg) s2 ∧
      s2.get 2 "/w/a.js".toList = .object 18 ∧
      (s2.obj 19).props = [] :=
  match require_no_rollback (programOfFiles []) 1 (.object 17) [.string "a.js".toList]
      bootedState bootedState (.string "/w/a.js".toList) true 0 1 2 (by decide!)
      (by unfold State.consistent State.hooked; decide!) (by decide!) (by decide) with
  | ⟨s2, h1, h2, _, hB⟩ =>
    match hB 13 "/w/a.js".toList
        (by
          have hs : s2 = (requireCreate (.object 17) true (.string "/w/a.js".toList)
              (.object 2) bootedState).state := by rw [h1]; rfl
          subst hs; decide!)
        (by
          have hs : s2 = (requireCreate (.object 17) true (.string "/w/a.js".toList)
              (.object 2) bootedState).state := by rw [h1]; rfl
          subst hs; decide!)
        rfl
        (by
          intro bytes h
          have h2 : FsOutcome.openFails (-2) = FsOutcome.content bytes := h
          cases h2) with
    | ⟨msg, k1, _, k3, _⟩ => ⟨msg, s2, k1, h2, k3⟩

/-- C12, counterexample to the claim as written: the file `/w/a.js` is
`Duktape.modLoaded[module.id]=0; throw 1;`.  The bootstrap require of `a.js`
creates the record 18 and fails with the thrown 1, and afterwards the cache maps
`/w/a.js` to 0, not to the record; a second require of `a.js` calls the Loader
again. -/
theorem require_no_rollback_fails_on_cache_write :
    (callValue cacheWriter 12 (.object 16) (.object 17) [.string "a.js".toList]
      bootedState).thrown = some (.value (.number 1)) ∧
    (callValue cacheWriter 12 (.object 16) (.object 17) [.string "a.js".toList]
      bootedState).state.get 18 kId = .string "/w/a.js".toList ∧
    (callValue cacheWriter 12 (.object 16) (.object 17) [.string "a.js".toList]
      bootedState).state.get 2 "/w/a.js".toList = .number 0 ∧
    loadKeys (callValue cacheWriter 12 (.object 16) (.object 17) [.string "a.js".toList]
      (callValue cacheWriter 12 (.object 16) (.object 17) [.string "a.js".toList]
        bootedState).state).state.trace = ["/w/a.js".toList, "/w/a.js".toList] := by
  refine ⟨?_, ?_, ?_, ?_⟩ <;> decide!

/-! ## Cyclic requires -/

theorem propKey_string (x : List Char) : propKey (.string x) = x := rfl

/-- The call of a bound function is the call of its target with the bound
`this`. -/
theorem callValue_bound (P : Program) (fuel ref : Nat) (target bthis this : Value)
    (args : List Value) (s : State) (h : s.fnOf ref = some (.bound target bthis)) :
    callValue P (fuel + 1) (.object ref) this args s = callValue P fuel target bthis args s := by
  simp only [callValue, h]

/-- The call of a `duv_require` function object. -/
theorem callValue_require (P : Program) (fuel ref : Nat) (this : Value)
    (args : List Value) (s : State) (h : s.fnOf ref = some (.native .duv_require)) :
    callValue P (fuel + 1) (.object ref) this args s
      = duv_require_traced (callValue P fuel) this args s := by
  simp only [callValue, h]

/-- The call of a `duv_mod_resolve` function object. -/
theorem callValue_mod_resolve (P : Program) (fuel ref : Nat) (this : Value)
    (args : List Value) (s : State) (h : s.fnOf ref = some (.native .duv_mod_resolve)) :
    callValue P (fuel + 1) (.object ref) this args s = duv_mod_resolve args s := by
  simp only [callValue, h]

/-- Storing a defined result of the Loader in a record and reading the record's
`exports` never throws. -/
theorem requireReturn_isOk (m : Nat) (ret : Value) (s : State) :
    (requireReturn (.object m) ret s).isOk = true := by
  unfold requireReturn
  by_cases hu : duk_is_undefined ret = true
  · simp only [hu, if_true, Eng.bind_apply, Eng.pure_apply, duk_get_prop_string_object,
      Res.isOk]
  · simp only [hu, if_false, Bool.false_eq_true, Eng.bind_apply, duk_put_prop_string,
      duk_get_prop_string_object, Res.isOk]

/-- C13: cycle tolerance.  A require call (of A) that misses the cache in a
consistent state creates A's record, stores it, and calls the Loader for it.
Whatever the engine runs from there (`m`: any computation of the engine, the
load of a module B included), as long as script code has not written to the
cache or replaced it: when the code of a module B (record `mB`, id `pB`) calls
its `require`, the function `b` bound to the record, with the default Resolver
installed and a request `r` whose canonical id `pathJoin(pB, "..", r)` is A's
id, the call returns what the `exports` of A's record reads as at that moment,
without an error and in an unchanged state, so without a second call of the
Loader.  A require call that misses (A's call for B) returns without an error
when its Loader's call returns.  And in scenario 7 with the requests written
`./b.js` and `./a.js`, the run returns without an error, the Loader is called
once for `/w/a.js` and once for `/w/b.js`, `b.js` has seen the `a` of the partly
filled exports, and the final exports of the entry is `{a: 1, got: 1}`.  The
cache is not the object that carries the `__proto__` accessor, so that the write
of line 208 is a plain write. -/
theorem require_cycle_tolerance (P : Program) (n k : Nat) (thisA : Value)
    (argsA : List Value) (s s1 : State) (idA : Value) (is_main : Bool) (g d c : Nat)
    (hres : requireResolve (callValue P (n + 1)) thisA argsA s
      = .ok (.object d, idA, is_main) s1)
    (hcons : s1.consistent g d c)
    (hmiss : duk_is_object (s1.get c (propKey idA)) = false)
    (_hacc : s1.protoAccessor ≠ some c) :
    (∃ s2 : State,
      requireCreate thisA is_main idA (.object c) s1 = .ok (.object s1.heap.length) s2 ∧
      duv_require_traced (callValue P (n + 1)) thisA argsA s
        = requireLoad (callValue P (n + 1)) (.object d) (.object s1.heap.length)
            { s2 with trace := s2.trace ++ [.load (propKey idA)] } ∧
      ∀ (α : Type) (m : Eng α) (s3 : State), Safe g d c m →
        (m { s2 with trace := s2.trace ++ [.load (propKey idA)] }).state = s3 →
        ¬ s3.tampered g d c →
        ∀ (b req res mB : Nat) (pB r : List Char) (this0 : Value),
          s3.fnOf b = some (.bound (.object req) (.object mB)) →
          s3.fnOf req = some (.native .duv_require) →
          s3.get d kModResolve = .object res →
          s3.fnOf res = some (.native .duv_mod_resolve) →
          s3.get mB kId = .string pB →
          duv_path_join [pB, [DOT, DOT], r] = propKey idA →
          callValue P (k + 3) (.object b) this0 [.string r] s3
            = .ok (s3.get s1.heap.length kExports) s3) ∧
      (∀ (call : CallFn) (this : Value) (args : List Value) (sB s0 s4 s5 s6 : State)
          (duktape id loaded entry load ret : Value) (main2 : Bool) (m : Nat),
        requireResolve call this args sB = .ok (duktape, id, main2) s0 →
        requireLookup duktape id s0 = .ok (loaded, entry) s4 →
        duk_is_object entry = false →
        requireCreate this main2 id loaded s4 = .ok (.object m) s5 →
        duk_get_prop_string duktape kModLoad s5 = .ok load s5 →
        call load .undefined [.object m] s5 = .ok ret s6 →
        (duv_require call this args sB).isOk = true) ∧
      (duv_main scenario7js 12 sampleBindings [.string "a.js".toList] engineState).isOk = true ∧
      loadKeys (duv_main scenario7js 12 sampleBindings [.string "a.js".toList]
        engineState).state.trace = ["/w/a.js".toList, "/w/b.js".toList] ∧
      (duv_main scenario7js 12 sampleBindings [.string "a.js".toList]
        engineState).state.get 2 "/w/a.js".toList = .object 18 ∧
      (duv_main scenario7js 12 sampleBindings [.string "a.js".toList]
        engineState).state.get 18 kExports = .object 19 ∧
      ((duv_main scenario7js 12 sampleBindings [.string "a.js".toList]
        engineState).state.obj 19).props = [(['a'], .number 1), ("got".toList, .number 1)] ∧
      ((duv_main scenario7js 12 sampleBindings [.string "a.js".toList]
        engineState).state.obj 24).props = [("bSeen".toList, .number 1)] := by
  refine ⟨?_, ?_, by decide!, by decide!, by decide!, by decide!, by decide!, by decide!⟩
  · have hc1 : c < s1.heap.length := hcons.1.2.2.2.1
    have hmiss1 := State.getOwn_of_get_miss hmiss
    obtain ⟨s2, h1, _, hcons2n, _⟩ := requireCreate_consistent thisA is_main idA s1 hcons hmiss1
    obtain ⟨s2b, h1b, h2, _, _, _, _, _, _⟩ := requireCreate_object thisA is_main idA c s1 hc1
    have hs : s2b = s2 := by
      rw [h1] at h1b
      simp only [Res.ok.injEq, true_and] at h1b
      exact h1b.symm
    subst hs
    refine ⟨s2b, h1, ?_, ?_⟩
    · simp only [duv_require_traced, Eng.bind_apply, hres, requireLookup_consistent hcons.1 idA,
        hmiss, Bool.false_eq_true, if_false, h1, note]
    · intro α m s3 hm hs3 hquiet b req res mB pB r this0 hb hreq hresolver hresfn hid hjoin
      have hstep := hm { s2b with trace := s2b.trace ++ [.load (propKey idA)] }
      rw [hs3] at hstep
      rcases hstep.2 hcons2n with ht | ⟨hc3, st3⟩
      · exact absurd ht hquiet
      · have hO3 : getOwn (s3.obj c).props (propKey idA) = .object s1.heap.length := by
          have := st3 (propKey idA) (by
            show duk_is_object (getOwn (s2b.obj c).props (propKey idA)) = true
            rw [h2]; rfl)
          rw [this]
          exact h2
        have hE3 : s3.get c (propKey idA) = .object s1.heap.length :=
          State.get_of_getOwn hO3 (by simp)
        have hD3 : s3.get s3.global kDuktape = .object d := by
          rw [hc3.1.1]
          exact State.get_of_getOwn hc3.1.2.2.2.2.2.2.2.1 (by simp)
        have hL3 : s3.get d kModLoaded = .object c :=
          State.get_of_getOwn hc3.1.2.2.2.2.2.2.2.2 (by simp)
        have hresolve : callValue P (k + 1) (.object res) .undefined
            [.object mB, .string r] s3 = .ok (.string (propKey idA)) s3 := by
          rw [callValue_mod_resolve P k res _ _ s3 hresfn, duv_mod_resolve_string]
          simp only [hid, hjoin]
        rw [callValue_bound P (k + 2) b _ _ _ _ s3 hb,
          callValue_require P (k + 1) req _ _ s3 hreq]
        simp only [duv_require_traced, requireResolve, requireLookup, Eng.bind_apply, argAt,
          List.getD_cons_zero, dschema_check, List.all_cons, List.all_nil, duk_is_string,
          Bool.and_true, if_true, Eng.pure_apply, duk_get_global_string,
          duk_get_prop_string_object, hD3, hresolver, hresolve, hL3, duk_get_prop,
          propKey_string, hE3, duk_is_object]
  · intro call this args sB s0 s4 s5 s6 duktape id loaded entry load ret main2 m hres2 hlook2
      hmiss2 hcreate hload hcall
    have hreq : duv_require call this args sB = requireReturn (.object m) ret s6 := by
      simp only [duv_require, requireLoad, Eng.bind_apply, hres2, hlook2, hmiss2,
        Bool.false_eq_true, if_false, hcreate, hload, hcall]
    rw [hreq]
    exact requireReturn_isOk m ret s6

/-- C13, witness: in scenario 7 the bootstrap require of `a.js` misses and
stores the record 18; the run from there to the point where the code of
`/w/b.js` calls `require("./a.js")` ends in `cycleState`, and there the call of
its `require` (27) returns the exports 19 of the record of `/w/a.js`, which
holds `a` and not yet `got`. -/
theorem require_cycle_tolerance_witness :
    callValue scenario7js 3 (.object 27) .undefined [.string "./a.js".toList] cycleState
        = .ok (cycleState.get 18 kExports) cycleState ∧
      cycleState.get 18 kExports = .object 19 ∧
      (cycleState.obj 19).props = [(['a'], .number 1)] :=
  match (require_cycle_tolerance scenario7js 7 0 (.object 17) [.string "a.js".toList]
      bootedState bootedState (.string "/w/a.js".toList) true 0 1 2 (by decide!)
      (by unfold State.consistent State.hooked; decide!) (by decide!) (by decide)).1 with
  | ⟨s2, h1, _, hin⟩ =>
    ⟨hin Value (requireLoad (callValue scenario7js 8) (.object 1) (.object 18)) cycleState
        (safe_requireLoad (safe_callValue scenario7js 8) (.object 1) (by decide) (by decide)
          (by decide))
        (by
          have hs : s2 = (requireCreate (.object 17) true (.string "/w/a.js".toList)
              (.object 2) bootedState).state := by rw [h1]; rfl
          subst hs; decide!)
        (by unfold State.tampered; decide!)
        27 26 12 23 "/w/b.js".toList "./a.js".toList .undefined
        (by decide!) (by decide!) (by decide!) (by decide!) (by decide!) (by decide!),
      by decide!, by decide!⟩

/-- C13, counterexample to the claim as written.  Scenario 7 with the requests
as the spec writes them, `./b` and `./a`, and the files `/w/a.js` and
`/w/b.js`: the request `./b` resolves to `/w/b`, no such file exists, and the
run fails with the error of the file read.  And a cyclic pair in which `b.js`
throws after its require of `a.js`: the require of `b.js` by `a.js` does not
return without an error. -/
theorem require_cycle_scenario_fails :
    (duv_main scenario7 12 sampleBindings [.string "a.js".toList] engineState).thrown
      = some (.error "ENOENT: no such file or directory: /w/b".toList) ∧
    (duv_main cycleThrows 12 sampleBindings [.string "a.js".toList] engineState).thrown
      = some (.value (.number 1)) ∧
    loadKeys (duv_main cycleThrows 12 sampleBindings [.string "a.js".toList]
      engineState).state.trace = ["/w/a.js".toList, "/w/b.js".toList] := by
  refine ⟨?_, ?_, ?_⟩ <;> decide!

/-! ## The Compiler -/

/-- C15: the Compiler gives back the result of the function and writes nothing
itself.  For every module record and source text, `duv_mod_compile` throws a
SyntaxError in an unchanged state when the wrapped text does not compile, and
otherwise is exactly the call of the compiled function with a new `require`
function object and the record: the value or error of that call, in the state
that call left.  So `module.exports` after `modCompile` is what the code left
there, whatever the function returned. -/
theorem mod_compile_returns_result (compiles : List Char → Bool) (call : CallFn) (m : Nat)
    (code : List Char) (s : State) :
    duv_mod_compile compiles call [.object m, .string code] s =
      if compiles (wrapSource code) then
        call (.object s.heap.length) .undefined [.object (s.heap.length + 1), .object m]
          (duk_push_function (.native .duv_require)
            (duk_push_function (.compiled (wrapSource code)) s).state).state
      else .error (.error "SyntaxError".toList) s := by
  by_cases hc : compiles (wrapSource code) = true
  · simp [duv_mod_compile, Eng.bind_apply, argAt, dschema_check, duk_is_object,
      dschema_is_data, duk_is_string, Eng.pure_apply, duk_get_prop_string_object,
      duk_to_string, duk_compile, hc, duk_push_function, Res.state, State.pushWith]
  · simp [duv_mod_compile, Eng.bind_apply, argAt, dschema_check, duk_is_object,
      dschema_is_data, duk_is_string, Eng.pure_apply, duk_get_prop_string_object,
      duk_to_string, duk_compile, hc, duk_throw]

/-- C15, counterexample to the claim as written: `modCompile` (11) called
directly with the record 18, whose exports is the object 19, and the code
`return 42;` returns 42, and afterwards `module.exports` is still the object
19. -/
theorem mod_compile_no_write_back :
    ∃ s1 : State,
      callValue returnsFortyTwo 12 (.object 11) .undefined
          [.object 18, .string "return 42;".toList] moduleState = .ok (.number 42) s1 ∧
      getOwn (s1.obj 18).props kExports = .object 19 :=
  ⟨(callValue returnsFortyTwo 12 (.object 11) .undefined
      [.object 18, .string "return 42;".toList] moduleState).state, by decide!, by decide!⟩

/-! ## The `main` flag -/

/-- C16, the failing run: the entry `/w/a.js` is
`module.exports=undefined; require("./b.js");` and `/w/b.js` is empty.  At the
require of `./b.js` the `exports` of the calling record is `undefined`, so
`is_main` is set (lines 163-166): the run returns without an error, and
afterwards the cache holds two records flagged main, 18 under `/w/a.js` and 23
under `/w/b.js`. -/
theorem require_second_main_record :
    (duv_main twoMains 12 sampleBindings [.string "a.js".toList] engineState).isOk = true ∧
    (duv_main twoMains 12 sampleBindings [.string "a.js".toList]
      engineState).state.get 2 "/w/a.js".toList = .object 18 ∧
    (duv_main twoMains 12 sampleBindings [.string "a.js".toList]
      engineState).state.get 18 kMain = .boolean true ∧
    (duv_main twoMains 12 sampleBindings [.string "a.js".toList]
      engineState).state.get 2 "/w/b.js".toList = .object 23 ∧
    (duv_main twoMains 12 sampleBindings [.string "a.js".toList]
      engineState).state.get 23 kMain = .boolean true := by
  refine ⟨?_, ?_, ?_, ?_, ?_⟩ <;> decide!

/-! ## The output of `main` for an uncaught error -/

/-- C17: the output for an uncaught error.  When the top-level call fails,
`main` returns 1, and the text on stderr is: for a thrown object whose `stack`
is a string, and for an error the engine or the host made, the text
`\nUncaught Exception:\n\n`, the stack as a C string, and `\n\n`; for a thrown
value that is not an object, the text `\nUncaught Exception:\n\nThrown Value: `,
the JSON encoding as a C string, and `\n\n`. -/
theorem main_uncaught_output (P : Program) (fuel : Nat) (B : Bindings)
    (jsonEncode : Value → Option (List Char)) (engineStack : Thrown → List Char)
    (argv : List (List Char)) (s0 s1 : State) (e : Thrown)
    (hargc : 2 ≤ argv.length)
    (hfail : duv_main P fuel B [.string (cstr (argv.getD 1 []))] s0 = .error e s1) :
    (main P fuel B jsonEncode engineStack argv (some s0)).2 = 1 ∧
      (∀ (ref : Nat) (stack : List Char), e = .value (.object ref) →
        getOwn (s1.obj ref).props kStack = .string stack →
        (main P fuel B jsonEncode engineStack argv (some s0)).1
          = some ("\nUncaught Exception:\n\n".toList ++ cstr stack ++ "\n\n".toList)) ∧
      ((∀ v, e ≠ .value v) →
        (main P fuel B jsonEncode engineStack argv (some s0)).1
          = some ("\nUncaught Exception:\n\n".toList ++ cstr (engineStack e) ++ "\n\n".toList)) ∧
      (∀ (v : Value) (j : List Char), e = .value v → duk_is_object v = false →
        jsonEncode v = some j →
        (main P fuel B jsonEncode engineStack argv (some s0)).1
          = some ("\nUncaught Exception:\n\nThrown Value: ".toList ++ cstr j ++ "\n\n".toList)) := by
  have hlen : ¬ argv.length < 2 := by omega
  have hmain : main P fuel B jsonEncode engineStack argv (some s0)
      = (uncaughtText jsonEncode engineStack e s1, 1) := by
    simp only [main, hlen, if_false, hfail]
  rw [hmain]
  refine ⟨rfl, ?_, ?_, ?_⟩
  · intro ref stack he hstack
    subst he
    simp [uncaughtText, State.get_of_getOwn hstack, duk_get_string, printString]
  · intro hne
    cases e with
    | value v => exact absurd rfl (hne v)
    | typeError => simp [uncaughtText, printString]
    | rangeError => simp [uncaughtText, printString]
    | error msg => simp [uncaughtText, printString]
  · intro v j he hobj hj
    subst he
    cases v <;> simp_all [uncaughtText, printString, duk_is_object]

/-- C17, witness: the entry `a.js` does not exist; `main` writes the header, the
stack of the error of the file read and two newlines, and returns 1. -/
theorem main_uncaught_output_witness :
    main (programOfFiles []) 12 sampleBindings sampleJson sampleStack
        ["dukluv".toList, "a.js".toList] (some engineState)
      = (some ("\nUncaught Exception:\n\n".toList
          ++ cstr (sampleStack (.error "ENOENT: no such file or directory: /w/a.js".toList))
          ++ "\n\n".toList), 1) :=
  match main_uncaught_output (programOfFiles []) 12 sampleBindings sampleJson sampleStack
      ["dukluv".toList, "a.js".toList] engineState
      (duv_main (programOfFiles []) 12 sampleBindings [.string "a.js".toList] engineState).state
      (.error "ENOENT: no such file or directory: /w/a.js".toList)
      (by decide) (by decide!) with
  | ⟨h1, _, h3, _⟩ => Prod.ext (h3 (fun v hv => by cases hv)) h1

/-- C17, counterexample to the claim as written: the entry `/w/a.js` is
`throw 5;`.  The thrown value is not an object, and what `main` writes has
`Thrown Value: ` between the header and the JSON text `5`. -/
theorem main_uncaught_output_thrown_value :
    main throwsFive 12 sampleBindings sampleJson sampleStack
        ["dukluv".toList, "a.js".toList] (some engineState)
      = (some "\nUncaught Exception:\n\nThrown Value: 5\n\n".toList, 1) ∧
    main throwsFive 12 sampleBindings sampleJson sampleStack
        ["dukluv".toList, "a.js".toList] (some engineState)
      ≠ (some "\nUncaught Exception:\n\n5\n\n".toList, 1) := by
  constructor <;> decide!

end Dukluv
